import Mathlib

/-!
# sub2api: request authentication and origin trust

A shallow embedding of `backend/internal/middleware` (`jwt_auth.go`,
`admin_auth.go`, `origin_check.go`), of the validation in
`backend/internal/config/config.go`, of the key handlers of
`backend/internal/handler/api_key_handler.go`, of `isSecureRequest` of
`backend/internal/handler/auth_handler.go`, and of the Go standard-library
functions these files call (`strings`, `net/url`, `crypto/subtle`).

Go strings are modelled as lists of characters.  Every delimiter the code
looks for is ASCII, so on valid UTF-8 text the character-level reading and
Go's byte-level reading split a string at the same places.  Bytes produced by
percent-decoding are joined into the characters they encode; a byte string
that is not valid UTF-8 has no exact counterpart in this model.
-/

set_option autoImplicit false

namespace Sub2api

/-- Go `string`, as the list of its characters. -/
abbrev Str := List Char

/-! ## `strings` -/

/-- Go `unicode.IsSpace`: the code points with the White_Space property. -/
def isSpace (c : Char) : Bool :=
  let n := c.toNat
  (9 ≤ n && n ≤ 13) || n == 0x20 || n == 0x85 || n == 0xA0 || n == 0x1680 ||
  (0x2000 ≤ n && n ≤ 0x200A) || n == 0x2028 || n == 0x2029 || n == 0x202F ||
  n == 0x205F || n == 0x3000

/-- Go `strings.TrimSpace`: leading and trailing white space removed. -/
def trimSpace (s : Str) : Str :=
  ((s.dropWhile isSpace).reverse.dropWhile isSpace).reverse

/-- Go `unicode.ToUpper` on one rune.  Besides the ASCII letters, the two
non-ASCII runes whose upper case is an ASCII letter (dotless i and long s) are
mapped; every other rune outside ASCII keeps a non-ASCII image and is left
as it is, which does not change any comparison with an ASCII word. -/
def toUpperRune (c : Char) : Char :=
  if 'a' ≤ c ∧ c ≤ 'z' then Char.ofNat (c.toNat - 32)
  else if c.toNat = 0x131 then 'I'
  else if c.toNat = 0x17F then 'S'
  else c

/-- Go `strings.ToUpper`. -/
def toUpper (s : Str) : Str := s.map toUpperRune

/-- Go `unicode.ToLower` on one rune.  Besides the ASCII letters, the two
non-ASCII runes whose lower case is an ASCII letter (capital I with dot above
and the Kelvin sign) are mapped; every other rune outside ASCII keeps a
non-ASCII image and is left as it is, which does not change any comparison
with an ASCII word. -/
def toLowerRune (c : Char) : Char :=
  if 'A' ≤ c ∧ c ≤ 'Z' then Char.ofNat (c.toNat + 32)
  else if c.toNat = 0x130 then 'i'
  else if c.toNat = 0x212A then 'k'
  else c

/-- Go `strings.ToLower`. -/
def toLower (s : Str) : Str := s.map toLowerRune

/-- Go `strings.Cut(s, sep)` for a one-byte separator: the text before and
after the first `sep`, or `none` when `sep` does not occur. -/
def cut (sep : Char) : Str → Option (Str × Str)
  | [] => none
  | c :: cs =>
    if c = sep then some ([], cs)
    else match cut sep cs with
      | some (a, b) => some (c :: a, b)
      | none => none

/-- First element of Go `strings.Split(s, sep)`, and the `before` part of
`strings.Cut`: the text before the first `sep`, all of `s` without one. -/
def beforeSep (sep : Char) (s : Str) : Str :=
  match cut sep s with
  | some (a, _) => a
  | none => s

/-- Go `s[i:]` for `i = strings.LastIndex(s, sep)`, or `none` when the
index is `-1`. -/
def fromLast (sep : Char) : Str → Option Str
  | [] => none
  | c :: cs =>
    match fromLast sep cs with
    | some r => some r
    | none => if c = sep then some (c :: cs) else none

/-- Go `(s[:i], s[i+1:])` for `i = strings.LastIndex(s, sep)`. -/
def cutLast (sep : Char) : Str → Option (Str × Str)
  | [] => none
  | c :: cs =>
    match cutLast sep cs with
    | some (a, b) => some (c :: a, b)
    | none => if c = sep then some ([], cs) else none

/-- Go `strings.HasPrefix`. -/
def hasPrefix (s p : Str) : Bool := p.isPrefixOf s

/-- Go `strings.HasSuffix`. -/
def hasSuffix (s p : Str) : Bool := p.isSuffixOf s

/-- Go `strings.TrimSuffix(s, "/")`. -/
def trimSuffixSlash (s : Str) : Str :=
  if hasSuffix s ['/'] then s.dropLast else s

/-! ## `net/url` (Go 1.21): `url.Parse`, for the fields read here -/

/-- The fields of Go `url.URL` that `url.Parse` fills and this program reads. -/
structure URL where
  Scheme : Str
  Opaque : Str
  Host : Str
  Path : Str
  deriving DecidableEq, Repr

/-- The escaping modes of `net/url` that `Parse` uses. -/
inductive Encoding
  | encodePath | encodeHost | encodeZone | encodeUserPassword | encodeFragment
  deriving DecidableEq, Repr

def isAlpha (c : Char) : Bool := ('a' ≤ c && c ≤ 'z') || ('A' ≤ c && c ≤ 'Z')

def isDigit (c : Char) : Bool := '0' ≤ c && c ≤ '9'

def ishex (c : Char) : Bool :=
  isDigit c || ('a' ≤ c && c ≤ 'f') || ('A' ≤ c && c ≤ 'F')

def unhex (c : Char) : Nat :=
  if isDigit c then c.toNat - 48
  else if 'a' ≤ c && c ≤ 'f' then c.toNat - 97 + 10
  else if 'A' ≤ c && c ≤ 'F' then c.toNat - 65 + 10
  else 0

/-- Go `stringContainsCTLByte`. -/
def stringContainsCTLByte (s : Str) : Bool :=
  s.any (fun c => decide (c.toNat < 0x20) || c.toNat == 0x7f)

/-- Go `shouldEscape(c, encodeHost)`, the one mode `unescape` asks it for. -/
def shouldEscapeHost (c : Char) : Bool :=
  if isAlpha c || isDigit c then false
  else if c ∈ ['!', '$', '&', '\'', '(', ')', '*', '+', ',', ';', '=', ':',
      '[', ']', '<', '>', '"'] then false
  else if c ∈ ['-', '_', '.', '~'] then false
  else true

/-- First loop of Go `unescape`: `true` when every `%` starts a well-formed
escape allowed in `mode` and, in host and zone mode, no ASCII byte of the
text would have to be escaped. -/
def unescapeCheck (mode : Encoding) : Str → Bool
  | [] => true
  | '%' :: a :: b :: rest =>
    if !(ishex a && ishex b) then false
    else if mode = .encodeHost && decide (unhex a < 8) && !(a = '2' && b = '5') then false
    else if mode = .encodeZone && !(a = '2' && b = '5') &&
        !(unhex a * 16 + unhex b == 32) &&
        shouldEscapeHost (Char.ofNat (unhex a * 16 + unhex b)) then false
    else unescapeCheck mode rest
  | '%' :: _ => false
  | c :: rest =>
    if (mode = .encodeHost || mode = .encodeZone) && decide (c.toNat < 0x80) &&
        shouldEscapeHost c then false
    else unescapeCheck mode rest

/-- Second loop of Go `unescape`: each `%XY` replaced by the byte it names;
the other characters are kept. -/
def unescapeItems : Str → List (Char ⊕ Nat)
  | [] => []
  | '%' :: a :: b :: rest => .inr (unhex a * 16 + unhex b) :: unescapeItems rest
  | c :: rest => .inl c :: unescapeItems rest

/-- The length of the UTF-8 sequence the byte `b0` starts, `0` when it
starts none. -/
def utf8Need (b0 : Nat) : Nat :=
  if b0 < 0x80 then 1
  else if 0xC2 ≤ b0 ∧ b0 ≤ 0xDF then 2
  else if 0xE0 ≤ b0 ∧ b0 ≤ 0xEF then 3
  else if 0xF0 ≤ b0 ∧ b0 ≤ 0xF4 then 4
  else 0

/-- A continuation byte of UTF-8. -/
def utf8Cont (b : Nat) : Bool := 0x80 ≤ b && b ≤ 0xBF

/-- Whether `b1` may follow the lead byte `b0`: a continuation byte that
gives no overlong form, no surrogate and nothing above U+10FFFF. -/
def utf8Second (b0 b1 : Nat) : Bool :=
  if b0 = 0xE0 then 0xA0 ≤ b1 && b1 ≤ 0xBF
  else if b0 = 0xED then 0x80 ≤ b1 && b1 ≤ 0x9F
  else if b0 = 0xF0 then 0x90 ≤ b1 && b1 ≤ 0xBF
  else if b0 = 0xF4 then 0x80 ≤ b1 && b1 ≤ 0x8F
  else utf8Cont b1

/-- The character a complete UTF-8 sequence encodes. -/
def utf8Complete : List Nat → Option Char
  | [b0] => if utf8Need b0 = 1 then some (Char.ofNat b0) else none
  | [b0, b1] =>
    if utf8Need b0 = 2 ∧ utf8Second b0 b1 = true then
      some (Char.ofNat ((b0 - 0xC0) * 64 + (b1 - 0x80)))
    else none
  | [b0, b1, b2] =>
    if utf8Need b0 = 3 ∧ utf8Second b0 b1 = true ∧ utf8Cont b2 = true then
      some (Char.ofNat ((b0 - 0xE0) * 4096 + (b1 - 0x80) * 64 + (b2 - 0x80)))
    else none
  | [b0, b1, b2, b3] =>
    if utf8Need b0 = 4 ∧ utf8Second b0 b1 = true ∧ utf8Cont b2 = true ∧ utf8Cont b3 = true then
      some (Char.ofNat
        ((b0 - 0xF0) * 262144 + (b1 - 0x80) * 4096 + (b2 - 0x80) * 64 + (b3 - 0x80)))
    else none
  | _ => none

/-- Whether the bytes begin a UTF-8 sequence that further bytes can complete. -/
def utf8Open : List Nat → Bool
  | [b0] => decide (2 ≤ utf8Need b0)
  | [b0, b1] => decide (3 ≤ utf8Need b0) && utf8Second b0 b1
  | [b0, b1, b2] => decide (utf8Need b0 = 4) && utf8Second b0 b1 && utf8Cont b2
  | _ => false

/-- Bytes that belong to no UTF-8 sequence.  A list of characters has no
place for them; each is rendered as the character with its code. -/
def strayBytes (p : List Nat) : Str := p.map Char.ofNat

/-- The text of Go's byte string: the decoded bytes that form a UTF-8
sequence, which only bytes next to each other can, become the character
they encode; `pending` holds the bytes of a sequence begun and not yet
complete. -/
def utf8Join (pending : List Nat) : List (Char ⊕ Nat) → Str
  | [] => strayBytes pending
  | .inl c :: rest => strayBytes pending ++ c :: utf8Join [] rest
  | .inr b :: rest =>
    match utf8Complete (pending ++ [b]) with
    | some ch => ch :: utf8Join [] rest
    | none =>
      if utf8Open (pending ++ [b]) then utf8Join (pending ++ [b]) rest
      else if utf8Open [b] then strayBytes pending ++ utf8Join [b] rest
      else
        match utf8Complete [b] with
        | some ch => strayBytes pending ++ ch :: utf8Join [] rest
        | none => strayBytes pending ++ Char.ofNat b :: utf8Join [] rest

/-- The string Go's `unescape` builds, read as text. -/
def unescapeDecode (s : Str) : Str := utf8Join [] (unescapeItems s)

/-- Go `unescape(s, mode)` for the modes of `Parse`. -/
def unescape (s : Str) (mode : Encoding) : Option Str :=
  if unescapeCheck mode s then some (unescapeDecode s) else none

/-- Go `getScheme`, the loop over `rawURL[i:]` with `rawURL[:i]` in `acc`. -/
def getSchemeLoop (rawURL : Str) : Str → Str → Option (Str × Str)
  | _, [] => some ([], rawURL)
  | acc, c :: cs =>
    if isAlpha c then getSchemeLoop rawURL (acc ++ [c]) cs
    else if isDigit c || c = '+' || c = '-' || c = '.' then
      if acc = [] then some ([], rawURL) else getSchemeLoop rawURL (acc ++ [c]) cs
    else if c = ':' then
      if acc = [] then none else some (acc, cs)
    else some ([], rawURL)

/-- Go `getScheme`: `(scheme, rest)`, or `none` for "missing protocol scheme". -/
def getScheme (rawURL : Str) : Option (Str × Str) := getSchemeLoop rawURL [] rawURL

/-- Go `validOptionalPort`. -/
def validOptionalPort : Str → Bool
  | [] => true
  | c :: ds => c = ':' && ds.all isDigit

/-- Go `validUserinfo`. -/
def validUserinfo (s : Str) : Bool :=
  s.all (fun r => isAlpha r || isDigit r ||
    r ∈ ['-', '.', '_', ':', '~', '!', '$', '&', '\'', '(', ')', '*', '+', ',',
      ';', '=', '%', '@'])

/-- Go `strings.Index(s, "%25")`, as the pair `(s[:i], s[i:])`. -/
def cutZone : Str → Option (Str × Str)
  | [] => none
  | c :: cs =>
    if hasPrefix (c :: cs) ['%', '2', '5'] then some ([], c :: cs)
    else match cutZone cs with
      | some (a, b) => some (c :: a, b)
      | none => none

/-- Go `parseHost`. -/
def parseHost (host : Str) : Option Str :=
  if hasPrefix host ['['] then
    match cutLast ']' host with
    | none => none
    | some (inner, colonPort) =>
      if !validOptionalPort colonPort then none
      else match cutZone inner with
        | some (h1, zoneText) =>
          match unescape h1 .encodeHost, unescape zoneText .encodeZone,
              unescape (']' :: colonPort) .encodeHost with
          | some host1, some host2, some host3 => some (host1 ++ host2 ++ host3)
          | _, _, _ => none
        | none => unescape host .encodeHost
  else
    match fromLast ':' host with
    | some colonPort =>
      if !validOptionalPort colonPort then none else unescape host .encodeHost
    | none => unescape host .encodeHost

/-- Go `parseAuthority`, its host result; the user part is only checked. -/
def parseAuthority (authority : Str) : Option Str :=
  match cutLast '@' authority with
  | none => parseHost authority
  | some (userinfo, hostText) =>
    match parseHost hostText with
    | none => none
    | some host =>
      if !validUserinfo userinfo then none
      else match cut ':' userinfo with
        | none =>
          if (unescape userinfo .encodeUserPassword).isSome then some host else none
        | some (username, password) =>
          if (unescape username .encodeUserPassword).isSome &&
              (unescape password .encodeUserPassword).isSome then some host else none

/-- Go `parse(rawURL, false)`. -/
def parse (rawURL : Str) : Option URL :=
  if stringContainsCTLByte rawURL then none
  else if rawURL = ['*'] then some ⟨[], [], [], ['*']⟩
  else
    match getScheme rawURL with
    | none => none
    | some (scheme0, rest0) =>
      let scheme := toLower scheme0
      let rest := beforeSep '?' rest0
      if !hasPrefix rest ['/'] && scheme ≠ [] then some ⟨scheme, rest, [], []⟩
      else if !hasPrefix rest ['/'] && (':' ∈ beforeSep '/' rest) then none
      else if (scheme ≠ [] || !hasPrefix rest ['/', '/', '/']) && hasPrefix rest ['/', '/'] then
        let auth := rest.drop 2
        let authority := beforeSep '/' auth
        let path := auth.drop authority.length
        match parseAuthority authority with
        | none => none
        | some host =>
          match unescape path .encodePath with
          | none => none
          | some p => some ⟨scheme, [], host, p⟩
      else
        match unescape rest .encodePath with
        | none => none
        | some p => some ⟨scheme, [], [], p⟩

/-- Go `url.Parse`: the fragment is cut off and checked, the rest parsed. -/
def urlParse (rawURL : Str) : Option URL :=
  match cut '#' rawURL with
  | none => parse rawURL
  | some (u, frag) =>
    match parse u with
    | none => none
    | some url =>
      if frag = [] then some url
      else if (unescape frag .encodeFragment).isSome then some url else none

/-! ## `crypto/subtle` -/

/-- Go `subtle.ConstantTimeByteEq(v, 0)`: `int((uint32(v) - 1) >> 31)`. -/
def constantTimeByteEqZero (v : Nat) : Nat := ((v + 2 ^ 32 - 1) % 2 ^ 32) >>> 31

/-- The loop of `subtle.ConstantTimeCompare`: `v |= x[i] ^ y[i]` over two
texts of the same length. -/
def xorFold : Nat → Str → Str → Nat
  | v, a :: x, b :: y => xorFold (v ||| (a.toNat ^^^ b.toNat)) x y
  | v, _, _ => v

/-- Go `subtle.ConstantTimeCompare([]byte(x), []byte(y))`. -/
def constantTimeCompare (x y : Str) : Nat :=
  if x.length ≠ y.length then 0 else constantTimeByteEqZero (xorFold 0 x y)

/-! ## The request, the collaborators and the request context -/

/-- What the gates read of `gin.Context`: the request line, the connection
and the headers, each header as `c.GetHeader` returns it (empty when absent),
and the cookie jar as `c.Cookie` reads it (`none` when it returns an error). -/
structure Request where
  Method : Str
  Host : Str
  TLS : Bool
  Authorization : Str
  XApiKey : Str
  Origin : Str
  Referer : Str
  XForwardedProto : Str
  Cookie : Str → Option Str

/-- A Go `error` value of a collaborator; `ErrTokenExpired` is the value
`service.ErrTokenExpired`. -/
inductive Err
  | ErrTokenExpired
  | other (tag : Nat)
  deriving DecidableEq, Repr

/-- Modelled from the spec: `model.User`, whose declaration and `IsActive`
method are not among the sources; the spec's Identity is
`{ userID, role, active }`. -/
structure User where
  ID : Int
  Role : Str
  Active : Bool
  deriving DecidableEq, Repr

/-- Modelled from the spec: `(*model.User).IsActive`, the account is in the
active state. -/
def User.IsActive (u : User) : Bool := u.Active

/-- Modelled from the spec: the constant `model.RoleAdmin`, the admin role of
`role ∈ {user, admin}`. -/
def RoleAdmin : Str := "admin".toList

/-- The claims `ValidateToken` returns; the gates read `UserID`. -/
structure Claims where
  UserID : Int
  deriving DecidableEq, Repr

/-- The methods of `*service.AuthService` the gates call, as values and
functions of the configuration. -/
structure AuthService where
  AllowedOrigins : List Str
  AuthCookieRequireOrigin : Bool
  AuthCookieName : Str
  ValidateToken : Str → Except Err Claims

/-- The user repository interface of the gates. -/
structure UserRepo where
  GetByID : Int → Except Err User
  GetFirstAdmin : Except Err User

/-- The method of `*service.SettingService` the admin gate calls. -/
structure SettingService where
  GetAdminApiKey : Except Err Str

/-- A call of a collaborator. -/
inductive Call
  | ValidateToken (token : Str)
  | GetByID (id : Int)
  | GetFirstAdmin
  | GetAdminApiKey
  deriving DecidableEq, Repr

/-- An error response: HTTP status, machine-readable code, message. -/
structure ErrorResponse where
  status : Nat
  code : String
  message : String
  deriving DecidableEq, Repr

/-- The mutable part of `gin.Context` and what a gate does to the outside:
the two keys the gates set, the error responses written, the number of
`c.Next()` calls, and the collaborator calls made, oldest first. -/
structure Context where
  user : Option User
  authMethod : Option String
  aborts : List ErrorResponse
  nexts : Nat
  calls : List Call
  deriving DecidableEq, Repr

/-- A context no gate has touched. -/
def Context.fresh : Context := ⟨none, none, [], 0, []⟩

/-- Modelled from the spec: `AbortWithError`, which is not among the sources:
the request is aborted with one response carrying a status, a code and a
message. -/
def AbortWithError (c : Context) (status : Nat) (code message : String) : Context :=
  { c with aborts := c.aborts ++ [⟨status, code, message⟩] }

/-- `c.Set(string(ContextKeyUser), user)`. -/
def Context.SetUser (c : Context) (u : User) : Context := { c with user := some u }

/-- `c.Set("auth_method", m)`. -/
def Context.SetAuthMethod (c : Context) (m : String) : Context :=
  { c with authMethod := some m }

/-- `c.Next()`: the downstream handlers run. -/
def Context.Next (c : Context) : Context := { c with nexts := c.nexts + 1 }

/-- A collaborator is called. -/
def Context.call (c : Context) (k : Call) : Context := { c with calls := c.calls ++ [k] }

/-! ## `origin_check.go` -/

/-- `normalizeOrigin`. -/
def normalizeOrigin (origin : Str) : Str := trimSuffixSlash origin

/-- `isStateChangingMethod`. -/
def isStateChangingMethod (method : Str) : Bool :=
  let m := toUpper method
  if m = "GET".toList ∨ m = "HEAD".toList ∨ m = "OPTIONS".toList ∨ m = "TRACE".toList
  then false else true

/-- `requestOrigin`. -/
def requestOrigin (r : Request) : Str :=
  let origin := trimSpace r.Origin
  if origin ≠ [] then origin
  else
    let referer := trimSpace r.Referer
    if referer = [] then []
    else match urlParse referer with
      | none => []
      | some parsed =>
        if parsed.Scheme = [] ∨ parsed.Host = [] then []
        else parsed.Scheme ++ [':', '/', '/'] ++ parsed.Host

/-- The scheme `requestBaseOrigin` computes. -/
def requestScheme (r : Request) : Str :=
  let scheme := if r.TLS then "https".toList else "http".toList
  let forwarded := trimSpace r.XForwardedProto
  if forwarded ≠ [] then
    let candidate := trimSpace (beforeSep ',' forwarded)
    if candidate ≠ [] then candidate else scheme
  else scheme

/-- `requestBaseOrigin`. -/
def requestBaseOrigin (r : Request) : Str :=
  requestScheme r ++ [':', '/', '/'] ++ r.Host

/-- `matchAllowedOrigin`. -/
def matchAllowedOrigin (origin allowed : Str) : Bool :=
  let allowed := trimSpace allowed
  if allowed = [] then false
  else if allowed = ['*'] then true
  else
    let origin := normalizeOrigin origin
    let allowed := normalizeOrigin allowed
    if !allowed.contains '*' then origin = allowed
    else match urlParse allowed with
      | none => false
      | some allowedURL =>
        match urlParse origin with
        | none => false
        | some originURL =>
          if allowedURL.Scheme ≠ [] ∧ allowedURL.Scheme ≠ originURL.Scheme then false
          else
            let allowedHost := if allowedURL.Host = [] then allowedURL.Path else allowedURL.Host
            if hasPrefix allowedHost ['*', '.'] then hasSuffix originURL.Host (allowedHost.drop 1)
            else false

/-- `enforceCookieOrigin`. -/
def enforceCookieOrigin (r : Request) (allowedOrigins : List Str) (requireOrigin : Bool) : Bool :=
  if !isStateChangingMethod r.Method then true
  else
    let origin := requestOrigin r
    if origin = [] then !requireOrigin
    else if allowedOrigins.length = 0 then
      normalizeOrigin origin = normalizeOrigin (requestBaseOrigin r)
    else allowedOrigins.any (fun allowed => matchAllowedOrigin origin allowed)

/-! ## `jwt_auth.go` -/

/-- Go `strings.SplitN(s, " ", 2)`. -/
def splitN2 (s : Str) : List Str :=
  match cut ' ' s with
  | some (a, b) => [a, b]
  | none => [s]

/-- `extractToken`: the token and `viaCookie`, or the error's message. -/
def extractToken (r : Request) (authService : AuthService) : Except String (Str × Bool) :=
  let authHeader := r.Authorization
  if authHeader ≠ [] then
    match splitN2 authHeader with
    | [p0, p1] =>
      if p0 ≠ "Bearer".toList then
        .error "Authorization header format must be 'Bearer \x7btoken\x7d'"
      else
        let tokenString := trimSpace p1
        if tokenString = [] then .error "Token cannot be empty"
        else .ok (tokenString, false)
    | _ => .error "Authorization header format must be 'Bearer \x7btoken\x7d'"
  else
    match r.Cookie authService.AuthCookieName with
    | none => .error "Authorization required"
    | some cookie =>
      if cookie = [] then .error "Authorization required" else .ok (cookie, true)

/-- `JWTAuth`: the handler it returns, as a function of the request and the
context it is given. -/
def JWTAuth (authService : AuthService) (userRepo : UserRepo) (r : Request)
    (c : Context) : Context :=
  match extractToken r authService with
  | .error msg => AbortWithError c 401 "UNAUTHORIZED" msg
  | .ok (tokenString, viaCookie) =>
    if viaCookie && !enforceCookieOrigin r authService.AllowedOrigins
        authService.AuthCookieRequireOrigin then
      AbortWithError c 403 "INVALID_ORIGIN" "Origin or Referer check failed"
    else
      let c := c.call (.ValidateToken tokenString)
      match authService.ValidateToken tokenString with
      | .error err =>
        if err = Err.ErrTokenExpired then AbortWithError c 401 "TOKEN_EXPIRED" "Token has expired"
        else AbortWithError c 401 "INVALID_TOKEN" "Invalid token"
      | .ok claims =>
        let c := c.call (.GetByID claims.UserID)
        match userRepo.GetByID claims.UserID with
        | .error _ => AbortWithError c 401 "USER_NOT_FOUND" "User not found"
        | .ok user =>
          if !user.IsActive then AbortWithError c 401 "USER_INACTIVE" "User account is not active"
          else
            let c := c.SetUser user
            let c := if viaCookie then c.SetAuthMethod "cookie" else c.SetAuthMethod "jwt"
            c.Next

/-! ## `admin_auth.go` -/

/-- `validateAdminApiKey`: the context it leaves and its boolean result. -/
def validateAdminApiKey (c : Context) (key : Str) (settingService : SettingService)
    (userRepo : UserRepo) : Context × Bool :=
  let c := c.call .GetAdminApiKey
  match settingService.GetAdminApiKey with
  | .error _ => (AbortWithError c 500 "INTERNAL_ERROR" "Internal server error", false)
  | .ok storedKey =>
    if storedKey = [] ∨ constantTimeCompare key storedKey ≠ 1 then
      (AbortWithError c 401 "INVALID_ADMIN_KEY" "Invalid admin API key", false)
    else
      let c := c.call .GetFirstAdmin
      match userRepo.GetFirstAdmin with
      | .error _ => (AbortWithError c 500 "INTERNAL_ERROR" "No admin user found", false)
      | .ok admin => ((c.SetUser admin).SetAuthMethod "admin_api_key", true)

/-- `validateJWTForAdmin`: the context it leaves and its boolean result. -/
def validateJWTForAdmin (c : Context) (token : Str) (authService : AuthService)
    (userRepo : UserRepo) : Context × Bool :=
  let c := c.call (.ValidateToken token)
  match authService.ValidateToken token with
  | .error err =>
    if err = Err.ErrTokenExpired then
      (AbortWithError c 401 "TOKEN_EXPIRED" "Token has expired", false)
    else (AbortWithError c 401 "INVALID_TOKEN" "Invalid token", false)
  | .ok claims =>
    let c := c.call (.GetByID claims.UserID)
    match userRepo.GetByID claims.UserID with
    | .error _ => (AbortWithError c 401 "USER_NOT_FOUND" "User not found", false)
    | .ok user =>
      if !user.IsActive then
        (AbortWithError c 401 "USER_INACTIVE" "User account is not active", false)
      else if user.Role ≠ RoleAdmin then
        (AbortWithError c 403 "FORBIDDEN" "Admin access required", false)
      else (c.SetUser user, true)

/-- `extractAdminToken`. -/
def extractAdminToken (r : Request) (authService : AuthService) : Except String (Str × Bool) :=
  let authHeader := r.Authorization
  if authHeader ≠ [] then
    match splitN2 authHeader with
    | [p0, p1] =>
      if p0 ≠ "Bearer".toList then
        .error "Authorization header format must be 'Bearer \x7btoken\x7d'"
      else
        let tokenString := trimSpace p1
        if tokenString = [] then .error "Token cannot be empty"
        else .ok (tokenString, false)
    | _ => .error "Authorization header format must be 'Bearer \x7btoken\x7d'"
  else
    match r.Cookie authService.AuthCookieName with
    | none => .error "Authorization required"
    | some cookie =>
      if cookie = [] then .error "Authorization required" else .ok (cookie, true)

/-- `AdminAuth`: the handler it returns, as a function of the request and
the context it is given. -/
def AdminAuth (authService : AuthService) (userRepo : UserRepo)
    (settingService : SettingService) (r : Request) (c : Context) : Context :=
  let apiKey := r.XApiKey
  if apiKey ≠ [] then
    match validateAdminApiKey c apiKey settingService userRepo with
    | (c, false) => c
    | (c, true) => c.Next
  else
    match extractAdminToken r authService with
    | .ok (tokenString, viaCookie) =>
      if viaCookie && !enforceCookieOrigin r authService.AllowedOrigins
          authService.AuthCookieRequireOrigin then
        AbortWithError c 403 "INVALID_ORIGIN" "Origin or Referer check failed"
      else
        match validateJWTForAdmin c tokenString authService userRepo with
        | (c, false) => c
        | (c, true) =>
          let c := if viaCookie then c.SetAuthMethod "cookie" else c.SetAuthMethod "jwt"
          c.Next
    | .error _ => AbortWithError c 401 "UNAUTHORIZED" "Authorization required"

/-! ## Outcomes of a gate -/

deriving instance DecidableEq for Except

/-- From context `c0` the gate made exactly one abort, with this status and
code, and nothing else: no `c.Next()`, no key written. -/
def Aborted (c0 c : Context) (status : Nat) (code : String) : Prop :=
  c.aborts.map (fun e => (e.status, e.code)) =
      c0.aborts.map (fun e => (e.status, e.code)) ++ [(status, code)] ∧
    c.aborts.length = c0.aborts.length + 1 ∧
    c.nexts = c0.nexts ∧ c.user = c0.user ∧ c.authMethod = c0.authMethod

instance (c0 c : Context) (status : Nat) (code : String) : Decidable (Aborted c0 c status code) :=
  inferInstanceAs (Decidable (_ ∧ _))

/-- From context `c0` the gate handed over to the downstream handlers once,
without any abort, having published this user and this `auth_method`. -/
def Proceeded (c0 c : Context) (u : User) (m : String) : Prop :=
  c.aborts = c0.aborts ∧ c.nexts = c0.nexts + 1 ∧ c.user = some u ∧ c.authMethod = some m

instance (c0 c : Context) (u : User) (m : String) : Decidable (Proceeded c0 c u m) :=
  inferInstanceAs (Decidable (_ ∧ _))

/-! ## Well-formed origins and patterns, for the statements on wildcards -/

/-- A character of a host name: a letter, a digit, `-`, `.`, `_` or `~`. -/
def isNameChar (c : Char) : Bool :=
  isAlpha c || isDigit c || c = '-' || c = '.' || c = '_' || c = '~'

/-- A character that may follow the first letter of a URL scheme. -/
def isSchemeChar (c : Char) : Bool :=
  isAlpha c || isDigit c || c = '+' || c = '-' || c = '.'

/-- A URL scheme: a letter followed by letters, digits, `+`, `-`, `.`. -/
def isScheme : Str → Bool
  | [] => false
  | c :: cs => isAlpha c && cs.all isSchemeChar

/-- A character that stands for itself everywhere in a URL: a host name
character, `*` or `+`. -/
def isUrlPlain (c : Char) : Bool :=
  isAlpha c || isDigit c || c = '-' || c = '.' || c = '_' || c = '~' || c = '*' || c = '+'

/-- A plain character, `:` or `/`. -/
def isUrlText (c : Char) : Bool := isUrlPlain c || c = ':' || c = '/'

/-! ## `config.go`: validation at load time -/

/-- Go `len(s)`: the number of bytes of the UTF-8 encoding of `s`. -/
def byteLen (s : Str) : Nat := (s.map Char.utf8Size).sum

/-- Go `strings.Split(s, sep)` for a one-byte separator. -/
def splitAll (sep : Char) : Str → List Str
  | [] => [[]]
  | c :: cs =>
    if c = sep then [] :: splitAll sep cs
    else match splitAll sep cs with
      | h :: t => (c :: h) :: t
      | [] => [[c]]

/-- `ServerConfig`, the fields `Load` and `Validate` read. -/
structure ServerConfig where
  Mode : Str
  TrustedProxies : List Str

/-- `JWTConfig`, the field `Validate` reads. -/
structure JWTConfig where
  Secret : Str

/-- `CORSConfig`. -/
structure CORSConfig where
  AllowedOrigins : List Str

/-- `SecurityConfig`. -/
structure SecurityConfig where
  ApiKeyHMACSecret : Str
  AuthCookieSameSite : Str
  AuthCookieSecure : Str
  AuthCookieRequireOrigin : Bool

/-- `DefaultConfig`, the field `Validate` reads. -/
structure DefaultConfig where
  AdminPassword : Str

/-- `GatewayConfig`, the field `Validate` reads. -/
structure GatewayConfig where
  UpstreamTimeout : Int

/-- `Config`, the parts `Load` and `Validate` read. -/
structure Config where
  Server : ServerConfig
  JWT : JWTConfig
  CORS : CORSConfig
  Security : SecurityConfig
  Default : DefaultConfig
  Gateway : GatewayConfig

/-- `isDefaultSecret`. -/
def isDefaultSecret (secret : Str) : Bool :=
  ["change-me-in-production".toList, "your-secret-key-change-in-production".toList,
    "changeme".toList, "change-me".toList].any (fun value => secret = value)

/-- `isWeakPassword`. -/
def isWeakPassword (password : Str) : Bool :=
  if byteLen password < 8 then true
  else ["admin123".toList, "admin".toList, "password".toList, "changeme".toList,
    "change-me".toList].any (fun value => password = value)

/-- `validateAuthCookieConfig`: `none` for a nil error, else the message. -/
def validateAuthCookieConfig (cfg : SecurityConfig) : Option String :=
  let sameSite := toLower (trimSpace cfg.AuthCookieSameSite)
  if sameSite ≠ [] ∧
      ¬ (sameSite = "lax".toList ∨ sameSite = "strict".toList ∨ sameSite = "none".toList) then
    some "security.auth_cookie_same_site must be lax/strict/none"
  else
    let secure := toLower (trimSpace cfg.AuthCookieSecure)
    if secure ≠ [] ∧
        ¬ (secure = "auto".toList ∨ secure = "true".toList ∨ secure = "false".toList) then
      some "security.auth_cookie_secure must be auto/true/false"
    else if sameSite = "none".toList ∧ secure = "false".toList then
      some "security.auth_cookie_secure cannot be false when auth_cookie_same_site is none"
    else none

/-- `(*Config).Validate`: `none` for a nil error, else the message. -/
def Config.Validate (c : Config) : Option String :=
  if c.JWT.Secret = [] then some "jwt.secret is required"
  else if c.Server.Mode = "release".toList ∧ isDefaultSecret c.JWT.Secret = true then
    some "jwt.secret must be changed in production"
  else if c.Server.Mode = "release".toList ∧
      (c.Default.AdminPassword = [] ∨ isWeakPassword c.Default.AdminPassword = true) then
    some "default.admin_password must be changed in production"
  else if c.Gateway.UpstreamTimeout < 0 then some "gateway.upstream_timeout must be >= 0"
  else match validateAuthCookieConfig c.Security with
    | some err => some err
    | none => none

/-- `parseCommaList`; Go's nil slice and its empty slice are both `[]`. -/
def parseCommaList (value : Str) : List Str :=
  if trimSpace value = [] then []
  else ((splitAll ',' value).map trimSpace).filter (fun item => item ≠ [])

/-- What `viper.ReadInConfig` returns when it fails. -/
inductive ReadError
  | ConfigFileNotFoundError
  | other (err : Err)
  deriving DecidableEq, Repr

/-- What `Load` gets from viper once the defaults are set: the result of
`ReadInConfig` (`none` for nil), the result of `Unmarshal`, and `GetString`. -/
structure Viper where
  ReadInConfig : Option ReadError
  Unmarshal : Except Err Config
  GetString : Str → Str

/-- The three errors of `Load`, each wrapping its cause. -/
inductive LoadError
  | readConfig (err : Err)
  | unmarshalConfig (err : Err)
  | validateConfig (message : String)
  deriving DecidableEq, Repr

/-- `Load`, from the point where viper has been set up. -/
def Load (viper : Viper) : Except LoadError Config :=
  match viper.ReadInConfig with
  | some (.other err) => .error (.readConfig err)
  | _ =>
    match viper.Unmarshal with
    | .error err => .error (.unmarshalConfig err)
    | .ok cfg =>
      let cfg :=
        if cfg.Server.TrustedProxies.length = 0 then
          { cfg with Server := { cfg.Server with
              TrustedProxies := parseCommaList (viper.GetString "server.trusted_proxies".toList) } }
        else cfg
      let cfg :=
        if cfg.CORS.AllowedOrigins.length = 0 then
          { cfg with CORS := { cfg.CORS with
              AllowedOrigins := parseCommaList (viper.GetString "cors.allowed_origins".toList) } }
        else cfg
      match cfg.Validate with
      | some err => .error (.validateConfig err)
      | none => .ok cfg

/-! ## `model/api_key.go` and `handler/api_key_handler.go` -/

/-- A placeholder for `model.Group`, whose declaration is not among the
sources; the handlers only pass it on. -/
structure Group where
  ID : Int
  deriving DecidableEq, Repr

/-- `model.ApiKey`; times are numbers, `DeletedAt` is left out. -/
structure ApiKey where
  ID : Int
  UserID : Int
  Key : Option Str
  KeyHash : Option Str
  KeyLast4 : Str
  MaskedKey : Str
  Name : Str
  GroupID : Option Int
  Status : Str
  CreatedAt : Nat
  UpdatedAt : Nat
  User : Option User
  Group : Option Group
  deriving DecidableEq, Repr

/-- `(*ApiKey).IsActive`. -/
def ApiKey.IsActive (k : ApiKey) : Bool := k.Status = "active".toList

/-- `CreateAPIKeyRequest`, and `service.CreateApiKeyRequest` built from it
field by field. -/
structure CreateAPIKeyRequest where
  Name : Str
  GroupID : Option Int
  CustomKey : Option Str
  deriving DecidableEq, Repr

/-- `UpdateAPIKeyRequest`. -/
structure UpdateAPIKeyRequest where
  Name : Str
  GroupID : Option Int
  Status : Str
  deriving DecidableEq, Repr

/-- `service.UpdateApiKeyRequest`, as the handler fills it. -/
structure ServiceUpdateApiKeyRequest where
  Name : Option Str
  GroupID : Option Int
  Status : Option Str
  deriving DecidableEq, Repr

/-- `ApiKeyResponse`. -/
structure ApiKeyResponse where
  ID : Int
  UserID : Int
  Key : Str
  MaskedKey : Str
  Name : Str
  GroupID : Option Int
  Status : Str
  CreatedAt : Nat
  UpdatedAt : Nat
  Group : Option Group
  deriving DecidableEq, Repr

/-- The methods of `*service.ApiKeyService` the key handlers call; `List`
returns the keys and `result.Total`. -/
structure ApiKeyService where
  List : Int → Nat → Nat → Except Err (List ApiKey × Nat)
  GetByID : Int → Except Err ApiKey
  Create : Int → CreateAPIKeyRequest → Except Err (ApiKey × Str)
  Update : Int → Int → ServiceUpdateApiKeyRequest → Except Err ApiKey
  MaskKey : Str → ApiKey → Str

/-- What a key handler reads of `gin.Context`: the `user` key (`none` when
absent, `some none` when the value is not a `*model.User`), the result of
`response.ParsePagination`, of `strconv.ParseInt` on the `id` parameter
(`none` for an error) and of `ShouldBindJSON` for the two payloads. -/
structure HandlerInput where
  user : Option (Option User)
  page : Nat
  pageSize : Nat
  keyID : Option Int
  bindCreate : Except Err CreateAPIKeyRequest
  bindUpdate : Except Err UpdateAPIKeyRequest

/-- What a key handler answers through the `response` package, which is not
among the sources: one constructor per function of the package the handlers
call; a message that ends with the text of an error carries that error as
`cause`. -/
inductive Response
  | Unauthorized (message : String)
  | InternalError (message : String) (cause : Option Err)
  | BadRequest (message : String) (cause : Option Err)
  | NotFound (message : String)
  | Forbidden (message : String)
  | Success (data : ApiKeyResponse)
  | Paginated (items : List ApiKeyResponse) (total : Nat) (page pageSize : Nat)
  deriving DecidableEq, Repr

/-- `(*APIKeyHandler).buildApiKeyResponse`. -/
def buildApiKeyResponse (apiKeyService : ApiKeyService) (key : ApiKey) (rawKey : Str) :
    ApiKeyResponse :=
  { ID := key.ID,
    UserID := key.UserID,
    Key := rawKey,
    MaskedKey := apiKeyService.MaskKey rawKey key,
    Name := key.Name,
    GroupID := key.GroupID,
    Status := key.Status,
    CreatedAt := key.CreatedAt,
    UpdatedAt := key.UpdatedAt,
    Group := key.Group }

/-- `(*APIKeyHandler).List`. -/
def APIKeyHandler.List (apiKeyService : ApiKeyService) (c : HandlerInput) : Response :=
  match c.user with
  | none => .Unauthorized "User not authenticated"
  | some none => .InternalError "Invalid user context" none
  | some (some user) =>
    match apiKeyService.List user.ID c.page c.pageSize with
    | .error err => .InternalError "Failed to list API keys: " (some err)
    | .ok (keys, total) =>
      .Paginated (keys.map (fun k => buildApiKeyResponse apiKeyService k [])) total
        c.page c.pageSize

/-- `(*APIKeyHandler).GetByID`. -/
def APIKeyHandler.GetByID (apiKeyService : ApiKeyService) (c : HandlerInput) : Response :=
  match c.user with
  | none => .Unauthorized "User not authenticated"
  | some none => .InternalError "Invalid user context" none
  | some (some user) =>
    match c.keyID with
    | none => .BadRequest "Invalid key ID" none
    | some keyID =>
      match apiKeyService.GetByID keyID with
      | .error _ => .NotFound "API key not found"
      | .ok key =>
        if key.UserID ≠ user.ID then .Forbidden "Not authorized to access this key"
        else .Success (buildApiKeyResponse apiKeyService key [])

/-- `(*APIKeyHandler).Create`. -/
def APIKeyHandler.Create (apiKeyService : ApiKeyService) (c : HandlerInput) : Response :=
  match c.user with
  | none => .Unauthorized "User not authenticated"
  | some none => .InternalError "Invalid user context" none
  | some (some user) =>
    match c.bindCreate with
    | .error err => .BadRequest "Invalid request: " (some err)
    | .ok req =>
      match apiKeyService.Create user.ID req with
      | .error err => .InternalError "Failed to create API key: " (some err)
      | .ok (key, rawKey) => .Success (buildApiKeyResponse apiKeyService key rawKey)

/-- `(*APIKeyHandler).Update`. -/
def APIKeyHandler.Update (apiKeyService : ApiKeyService) (c : HandlerInput) : Response :=
  match c.user with
  | none => .Unauthorized "User not authenticated"
  | some none => .InternalError "Invalid user context" none
  | some (some user) =>
    match c.keyID with
    | none => .BadRequest "Invalid key ID" none
    | some keyID =>
      match c.bindUpdate with
      | .error err => .BadRequest "Invalid request: " (some err)
      | .ok req =>
        let svcReq : ServiceUpdateApiKeyRequest :=
          { Name := if req.Name ≠ [] then some req.Name else none,
            GroupID := req.GroupID,
            Status := if req.Status ≠ [] then some req.Status else none }
        match apiKeyService.Update keyID user.ID svcReq with
        | .error err => .InternalError "Failed to update API key: " (some err)
        | .ok key => .Success (buildApiKeyResponse apiKeyService key [])

/-! ## `handler/auth_handler.go`: the TLS judgement for `secure = auto` -/

/-- `isSecureRequest`. -/
def isSecureRequest (r : Request) : Bool :=
  if r.TLS then true
  else
    let proto := r.XForwardedProto
    if proto ≠ [] then
      match splitAll ',' proto with
      | p0 :: _ => if trimSpace p0 = "https".toList then true else false
      | [] => false
    else false

/-! ## Concrete requests and configurations -/

/-- A request with a malformed Authorization header and a session cookie. -/
def reqBasicWithCookie : Request :=
  { Method := "GET".toList, Host := "api.example.com".toList, TLS := true,
    Authorization := "Basic abc".toList, XApiKey := [], Origin := [], Referer := [],
    XForwardedProto := [], Cookie := fun _ => some "session-token".toList }

/-- A configuration with no allow-list whose validator accepts the token `good`
for user 1,
`admin-token` for user 2, `inactive` for user 3 and `ghost` for the unknown
identifier 9, and reports `expired` as expired. -/
def authDemo : AuthService :=
  { AllowedOrigins := [], AuthCookieRequireOrigin := true,
    AuthCookieName := "auth_token".toList,
    ValidateToken := fun t =>
      if t = "good".toList then .ok ⟨1⟩
      else if t = "admin-token".toList then .ok ⟨2⟩
      else if t = "inactive".toList then .ok ⟨3⟩
      else if t = "ghost".toList then .ok ⟨9⟩
      else if t = "expired".toList then .error .ErrTokenExpired
      else .error (.other 0) }

/-- A request whose Authorization header is `Bearer`, two spaces, `abc`. -/
def reqBearerTwoSpaces : Request :=
  { Method := "GET".toList, Host := "api.example.com".toList, TLS := true,
    Authorization := "Bearer  abc".toList, XApiKey := [], Origin := [], Referer := [],
    XForwardedProto := [], Cookie := fun _ => none }

/-- A repository with an active ordinary user 1, an active admin 2, and an
inactive user 3. -/
def repoDemo : UserRepo :=
  { GetByID := fun id =>
      if id = 1 then .ok ⟨1, "user".toList, true⟩
      else if id = 2 then .ok ⟨2, "admin".toList, true⟩
      else if id = 3 then .ok ⟨3, "user".toList, false⟩
      else .error (.other 1),
    GetFirstAdmin := .ok ⟨2, "admin".toList, true⟩ }

/-- A settings store whose admin secret is `s3cret`. -/
def settingsDemo : SettingService := { GetAdminApiKey := .ok "s3cret".toList }

/-- A cross-origin `POST` with a valid bearer token and no Origin header. -/
def reqBearerPost : Request :=
  { Method := "POST".toList, Host := "api.example.com".toList, TLS := true,
    Authorization := "Bearer good".toList, XApiKey := [], Origin := [], Referer := [],
    XForwardedProto := [], Cookie := fun _ => none }

/-- A bearer request whose token the validator reports as expired. -/
def reqBearerExpired : Request :=
  { Method := "GET".toList, Host := "api.example.com".toList, TLS := true,
    Authorization := "Bearer expired".toList, XApiKey := [], Origin := [], Referer := [],
    XForwardedProto := [], Cookie := fun _ => none }

/-- A request with a wrong admin key that also carries a valid admin bearer
token and a session cookie. -/
def reqWrongKeyWithAdminToken : Request :=
  { Method := "POST".toList, Host := "api.example.com".toList, TLS := true,
    Authorization := "Bearer admin-token".toList, XApiKey := "wrong".toList, Origin := [],
    Referer := [], XForwardedProto := [], Cookie := fun _ => some "admin-token".toList }

/-- A settings store with no admin secret configured. -/
def settingsUnset : SettingService := { GetAdminApiKey := .ok [] }

/-- A request carrying the configured admin key `s3cret`. -/
def reqAdminKey : Request :=
  { Method := "POST".toList, Host := "api.example.com".toList, TLS := true,
    Authorization := [], XApiKey := "s3cret".toList, Origin := [], Referer := [],
    XForwardedProto := [], Cookie := fun _ => none }

/-- A cookie-transport `POST` to `api.example.com` over TLS whose Origin is
another site. -/
def reqCookieCrossOrigin : Request :=
  { Method := "POST".toList, Host := "api.example.com".toList, TLS := true,
    Authorization := [], XApiKey := [], Origin := "https://evil.example".toList,
    Referer := [], XForwardedProto := [], Cookie := fun _ => some "good".toList }

/-- A cookie `POST` with a blank Origin header and a Referer that is not a
URL with a scheme and a host. -/
def reqNoOriginSignal : Request :=
  { Method := "POST".toList, Host := "api.example.com".toList, TLS := true,
    Authorization := [], XApiKey := [], Origin := "  ".toList,
    Referer := "not a url".toList, XForwardedProto := [],
    Cookie := fun _ => some "good".toList }

/-- A cookie `POST` to `api.example.com` whose Origin is `https://app.example.com`. -/
def reqCookieFromApp : Request :=
  { Method := "POST".toList, Host := "api.example.com".toList, TLS := true,
    Authorization := [], XApiKey := [], Origin := "https://app.example.com".toList,
    Referer := [], XForwardedProto := [], Cookie := fun _ => some "good".toList }

/-- A cookie `POST` whose Origin header is the single character `/`. -/
def reqCookieOriginSlash : Request :=
  { Method := "POST".toList, Host := "api.example.com".toList, TLS := true,
    Authorization := [], XApiKey := [], Origin := ['/'],
    Referer := [], XForwardedProto := [], Cookie := fun _ => some "good".toList }

/-- A settings store whose lookup fails. -/
def settingsDown : SettingService := { GetAdminApiKey := .error (.other 7) }

/-- A bearer request whose token names an identifier the repository cannot
load. -/
def reqBearerUnknownUser : Request :=
  { Method := "GET".toList, Host := "api.example.com".toList, TLS := true,
    Authorization := "Bearer ghost".toList, XApiKey := [], Origin := [], Referer := [],
    XForwardedProto := [], Cookie := fun _ => none }

/-- A bearer request whose token names the inactive user 3. -/
def reqBearerInactive : Request :=
  { Method := "GET".toList, Host := "api.example.com".toList, TLS := true,
    Authorization := "Bearer inactive".toList, XApiKey := [], Origin := [], Referer := [],
    XForwardedProto := [], Cookie := fun _ => none }

/-- A request behind a proxy chain: no TLS on the last hop and the header
`X-Forwarded-Proto: https , http` with a leading space. -/
def reqForwardedTwo : Request :=
  { Method := "POST".toList, Host := "api.example.com".toList, TLS := false,
    Authorization := [], XApiKey := [], Origin := [], Referer := [],
    XForwardedProto := " https , http".toList, Cookie := fun _ => none }

/-- A security section with `sameSite = " None "` and `secure = "FALSE"`. -/
def secNoneFalse : SecurityConfig :=
  { ApiKeyHMACSecret := [], AuthCookieSameSite := " None ".toList,
    AuthCookieSecure := "FALSE".toList, AuthCookieRequireOrigin := true }

/-- A configuration that is valid but for its security section. -/
def configNoneFalse : Config :=
  { Server := ⟨"debug".toList, []⟩, JWT := ⟨"a-long-random-secret".toList⟩, CORS := ⟨[]⟩,
    Security := secNoneFalse, Default := ⟨"admin123".toList⟩, Gateway := ⟨120⟩ }

/-- viper after reading `configNoneFalse`. -/
def viperNoneFalse : Viper :=
  { ReadInConfig := none, Unmarshal := .ok configNoneFalse, GetString := fun _ => [] }

/-- A key record of user 1 that still stores its plaintext. -/
def keyLegacy : ApiKey :=
  { ID := 7, UserID := 1, Key := some "sk-legacy-plaintext".toList, KeyHash := none,
    KeyLast4 := "text".toList, MaskedKey := [], Name := "legacy".toList, GroupID := none,
    Status := "active".toList, CreatedAt := 0, UpdatedAt := 0, User := none, Group := none }

/-- A key service holding `keyLegacy`, masking with the last four characters. -/
def keyServiceDemo : ApiKeyService :=
  { List := fun _ _ _ => .ok ([keyLegacy], 1),
    GetByID := fun _ => .ok keyLegacy,
    Create := fun _ _ => .ok (keyLegacy, "sk-legacy-plaintext".toList),
    Update := fun _ _ _ => .ok keyLegacy,
    MaskKey := fun _ key => "****".toList ++ key.KeyLast4 }

/-- The handler input of user 1 asking for page 1. -/
def inputUser1 : HandlerInput :=
  { user := some (some ⟨1, "user".toList, true⟩), page := 1, pageSize := 20, keyID := some 7,
    bindCreate := .ok ⟨"new".toList, none, none⟩,
    bindUpdate := .ok ⟨"renamed".toList, none, []⟩ }

/-- A request without TLS on the last hop whose proxy reports `https`. -/
def reqForwardedHttps : Request :=
  { Method := "POST".toList, Host := "api.example.com".toList, TLS := false,
    Authorization := [], XApiKey := [], Origin := [], Referer := [],
    XForwardedProto := "https, http".toList, Cookie := fun _ => none }

/-- A cookie `POST` to `api.example.com` over TLS whose Origin header is the
server's own origin followed by a no-break space (U+00A0). -/
def reqCookieOriginNbsp : Request :=
  { Method := "POST".toList, Host := "api.example.com".toList, TLS := true,
    Authorization := [], XApiKey := [],
    Origin := "https://api.example.com".toList ++ [Char.ofNat 0xA0],
    Referer := [], XForwardedProto := [], Cookie := fun _ => some "good".toList }

/-- A cookie `POST` without Origin header whose Referer is a no-break space
(U+00A0) followed by `https://x.example/`. -/
def reqRefererNbsp : Request :=
  { Method := "POST".toList, Host := "api.example.com".toList, TLS := true,
    Authorization := [], XApiKey := [], Origin := [],
    Referer := [Char.ofNat 0xA0] ++ "https://x.example/".toList, XForwardedProto := [],
    Cookie := fun _ => some "good".toList }

/-! ## Lemmas on the string functions -/

theorem cut_append (sep : Char) (a b : Str) (h : sep ∉ a) :
    cut sep (a ++ sep :: b) = some (a, b) := by
  induction a with
  | nil => simp [cut]
  | cons x xs ih =>
    have hx : x ≠ sep := fun e => h (by simp [e])
    have hxs : sep ∉ xs := fun e => h (by simp [e])
    simp [cut, hx, ih hxs]

theorem cut_eq_none_iff (sep : Char) (s : Str) : cut sep s = none ↔ sep ∉ s := by
  induction s with
  | nil => simp [cut]
  | cons c cs ih =>
    by_cases h : c = sep
    · simp [cut, h]
    · cases hc : cut sep cs with
      | none => simp [cut, h, hc, ih.mp hc, Ne.symm h]
      | some p =>
        have : ¬ sep ∉ cs := fun hn => by rw [ih.mpr hn] at hc; cases hc
        simp only [not_not] at this
        simp [cut, h, hc, this]

theorem cut_some (sep : Char) (s a b : Str) (h : cut sep s = some (a, b)) :
    s = a ++ sep :: b ∧ sep ∉ a := by
  induction s generalizing a with
  | nil => simp [cut] at h
  | cons c cs ih =>
    by_cases hc : c = sep
    · simp [cut, hc] at h
      obtain ⟨rfl, rfl⟩ := h
      simp [hc]
    · cases hcs : cut sep cs with
      | none => simp [cut, hc, hcs] at h
      | some p =>
        obtain ⟨a1, b1⟩ := p
        simp [cut, hc, hcs] at h
        obtain ⟨rfl, rfl⟩ := h
        obtain ⟨h1, h2⟩ := ih a1 hcs
        refine ⟨by simp [h1], ?_⟩
        simp [h2, Ne.symm hc]

/-! ## The credential extractor -/

theorem extractAdminToken_eq (r : Request) (a : AuthService) :
    extractAdminToken r a = extractToken r a := rfl

theorem extractToken_header (r : Request) (a : AuthService) (h : r.Authorization ≠ []) :
    extractToken r a =
      match cut ' ' r.Authorization with
      | some (p0, p1) =>
        if p0 = "Bearer".toList then
          (if trimSpace p1 = [] then .error "Token cannot be empty" else .ok (trimSpace p1, false))
        else .error "Authorization header format must be 'Bearer \x7btoken\x7d'"
      | none => .error "Authorization header format must be 'Bearer \x7btoken\x7d'" := by
  unfold extractToken splitN2
  simp only [h, ne_eq, not_false_eq_true, if_true]
  cases hc : cut ' ' r.Authorization with
  | none => simp
  | some p =>
    obtain ⟨p0, p1⟩ := p
    by_cases hp : p0 = "Bearer".toList <;> simp [hp]

theorem cut_bearer (rest : Str) :
    cut ' ' ("Bearer ".toList ++ rest) = some ("Bearer".toList, rest) := by
  have h := cut_append ' ' "Bearer".toList rest (by decide)
  simpa using h

theorem extractToken_bearer (r : Request) (a : AuthService) (rest : Str)
    (h : r.Authorization = "Bearer ".toList ++ rest) :
    extractToken r a =
      if trimSpace rest = [] then .error "Token cannot be empty"
      else .ok (trimSpace rest, false) := by
  have hne : r.Authorization ≠ [] := by rw [h]; simp
  rw [extractToken_header r a hne, h, cut_bearer]
  simp

theorem extractToken_not_bearer (r : Request) (a : AuthService) (hne : r.Authorization ≠ [])
    (h : ¬ ∃ rest, r.Authorization = "Bearer ".toList ++ rest) :
    extractToken r a = .error "Authorization header format must be 'Bearer \x7btoken\x7d'" := by
  rw [extractToken_header r a hne]
  cases hc : cut ' ' r.Authorization with
  | none => rfl
  | some p =>
    obtain ⟨p0, p1⟩ := p
    by_cases hp : p0 = "Bearer".toList
    · exfalso
      apply h
      refine ⟨p1, ?_⟩
      rw [(cut_some _ _ _ _ hc).1, hp]
      simp
    · simp at hp
      simp [hp]

/-- C8, as stated, fails: the header `Bearer`, one space, then the non-empty
text ` abc` (which begins with a space) is accepted, but the token returned is
`abc`, not the text after the single space; and the header is not `Bearer`,
one space, `abc`. -/
theorem extractToken_trims_token :
    reqBearerTwoSpaces.Authorization = "Bearer".toList ++ [' '] ++ " abc".toList ∧
    " abc".toList ≠ [] ∧
    extractToken reqBearerTwoSpaces authDemo = .ok ("abc".toList, false) ∧
    extractToken reqBearerTwoSpaces authDemo ≠ .ok (" abc".toList, false) ∧
    reqBearerTwoSpaces.Authorization ≠ "Bearer".toList ++ [' '] ++ "abc".toList := by
  decide

/-- C8 (amended): a non-empty Authorization header is accepted exactly when it
is `Bearer`, a space, and a rest that is not all white space; the token
returned is that rest with the surrounding white space trimmed, with the
Bearer transport; every other header value fails with an error. -/
theorem extractToken_bearer_iff (r : Request) (a : AuthService)
    (hne : r.Authorization ≠ []) :
    ((∃ t v, extractToken r a = .ok (t, v)) ↔
      ∃ rest, r.Authorization = "Bearer".toList ++ [' '] ++ rest ∧ trimSpace rest ≠ []) ∧
    (∀ rest, r.Authorization = "Bearer".toList ++ [' '] ++ rest → trimSpace rest ≠ [] →
      extractToken r a = .ok (trimSpace rest, false)) ∧
    ((¬ ∃ rest, r.Authorization = "Bearer".toList ++ [' '] ++ rest ∧ trimSpace rest ≠ []) →
      ∃ msg, extractToken r a = .error msg) := by
  have hb : ∀ rest, r.Authorization = "Bearer".toList ++ [' '] ++ rest →
      extractToken r a = if trimSpace rest = [] then .error "Token cannot be empty"
        else .ok (trimSpace rest, false) := by
    intro rest h
    exact extractToken_bearer r a rest (by rw [h]; simp)
  have hyes : ∀ rest, r.Authorization = "Bearer".toList ++ [' '] ++ rest → trimSpace rest ≠ [] →
      extractToken r a = .ok (trimSpace rest, false) := by
    intro rest h ht
    rw [hb rest h]
    simp [ht]
  have hno : (¬ ∃ rest, r.Authorization = "Bearer".toList ++ [' '] ++ rest ∧ trimSpace rest ≠ []) →
      ∃ msg, extractToken r a = .error msg := by
    intro h
    by_cases hx : ∃ rest, r.Authorization = "Bearer ".toList ++ rest
    · obtain ⟨rest, hr⟩ := hx
      have hr2 : r.Authorization = "Bearer".toList ++ [' '] ++ rest := by rw [hr]; simp
      have ht : trimSpace rest = [] := by
        by_contra ht
        exact h ⟨rest, hr2, ht⟩
      exact ⟨"Token cannot be empty", by rw [hb rest hr2]; simp [ht]⟩
    · exact ⟨_, extractToken_not_bearer r a hne hx⟩
  refine ⟨⟨?_, ?_⟩, hyes, hno⟩
  · rintro ⟨t, v, h⟩
    by_contra hc
    obtain ⟨msg, hm⟩ := hno hc
    rw [hm] at h
    cases h
  · rintro ⟨rest, h, ht⟩
    exact ⟨_, _, hyes rest h ht⟩

/-- C8 (amended) at the header `Bearer`, two spaces, `abc`: the token `abc`. -/
theorem extractToken_bearer_iff_witness :
    reqBearerTwoSpaces.Authorization ≠ [] ∧
    extractToken reqBearerTwoSpaces authDemo = .ok (trimSpace " abc".toList, false) :=
  ⟨by decide,
   (extractToken_bearer_iff reqBearerTwoSpaces authDemo (by decide)).2.1 " abc".toList
     (by decide) (by decide)⟩
/-! ## The gates -/

theorem extractToken_header_congr (r r2 : Request) (a a2 : AuthService)
    (hne : r.Authorization ≠ []) (h : r2.Authorization = r.Authorization) :
    extractToken r2 a2 = extractToken r a := by
  have hne2 : r2.Authorization ≠ [] := by rw [h]; exact hne
  rw [extractToken_header r2 a2 hne2, extractToken_header r a hne, h]

theorem extractToken_header_not_cookie (r : Request) (a : AuthService)
    (hne : r.Authorization ≠ []) (t : Str) (v : Bool)
    (h : extractToken r a = .ok (t, v)) : v = false := by
  rw [extractToken_header r a hne] at h
  cases hc : cut ' ' r.Authorization with
  | none => rw [hc] at h; cases h
  | some p =>
    obtain ⟨p0, p1⟩ := p
    rw [hc] at h
    by_cases hp : p0 = "Bearer".toList
    · by_cases ht : trimSpace p1 = []
      · simp [hp, ht] at h
      · simp [hp, ht] at h
        exact h.2
    · simp at hp
      simp [hp] at h

/-- What the user gate does once a token has been extracted and the Origin
Guard, if it ran, has let the request through. -/
theorem JWTAuth_of_token (a : AuthService) (repo : UserRepo) (r : Request) (c : Context)
    (tok : Str) (via : Bool) (h : extractToken r a = .ok (tok, via))
    (hg : via = true → enforceCookieOrigin r a.AllowedOrigins a.AuthCookieRequireOrigin = true) :
    JWTAuth a repo r c =
      match a.ValidateToken tok with
      | .error err =>
        if err = Err.ErrTokenExpired then
          AbortWithError (c.call (.ValidateToken tok)) 401 "TOKEN_EXPIRED" "Token has expired"
        else AbortWithError (c.call (.ValidateToken tok)) 401 "INVALID_TOKEN" "Invalid token"
      | .ok claims =>
        match repo.GetByID claims.UserID with
        | .error _ =>
          AbortWithError ((c.call (.ValidateToken tok)).call (.GetByID claims.UserID)) 401
            "USER_NOT_FOUND" "User not found"
        | .ok user =>
          if user.IsActive then
            ((((c.call (.ValidateToken tok)).call (.GetByID claims.UserID)).SetUser
              user).SetAuthMethod (if via then "cookie" else "jwt")).Next
          else
            AbortWithError ((c.call (.ValidateToken tok)).call (.GetByID claims.UserID)) 401
              "USER_INACTIVE" "User account is not active" := by
  unfold JWTAuth
  rw [h]
  have hg2 : (via && !enforceCookieOrigin r a.AllowedOrigins a.AuthCookieRequireOrigin) = false := by
    cases via
    · rfl
    · simp [hg rfl]
  simp only [hg2]
  cases hv : a.ValidateToken tok with
  | error err => simp
  | ok claims =>
    cases hu : repo.GetByID claims.UserID with
    | error e => simp [hu]
    | ok user =>
      cases hact : user.IsActive <;> cases via <;> simp [hu, hact]

/-- What the admin gate does, without an admin key, once a token has been
extracted and the Origin Guard, if it ran, has let the request through. -/
theorem AdminAuth_of_token (a : AuthService) (repo : UserRepo) (s : SettingService)
    (r : Request) (c : Context) (hk : r.XApiKey = [])
    (tok : Str) (via : Bool) (h : extractToken r a = .ok (tok, via))
    (hg : via = true → enforceCookieOrigin r a.AllowedOrigins a.AuthCookieRequireOrigin = true) :
    AdminAuth a repo s r c =
      match a.ValidateToken tok with
      | .error err =>
        if err = Err.ErrTokenExpired then
          AbortWithError (c.call (.ValidateToken tok)) 401 "TOKEN_EXPIRED" "Token has expired"
        else AbortWithError (c.call (.ValidateToken tok)) 401 "INVALID_TOKEN" "Invalid token"
      | .ok claims =>
        match repo.GetByID claims.UserID with
        | .error _ =>
          AbortWithError ((c.call (.ValidateToken tok)).call (.GetByID claims.UserID)) 401
            "USER_NOT_FOUND" "User not found"
        | .ok user =>
          if user.IsActive then
            if user.Role = RoleAdmin then
              ((((c.call (.ValidateToken tok)).call (.GetByID claims.UserID)).SetUser
                user).SetAuthMethod (if via then "cookie" else "jwt")).Next
            else
              AbortWithError ((c.call (.ValidateToken tok)).call (.GetByID claims.UserID)) 403
                "FORBIDDEN" "Admin access required"
          else
            AbortWithError ((c.call (.ValidateToken tok)).call (.GetByID claims.UserID)) 401
              "USER_INACTIVE" "User account is not active" := by
  unfold AdminAuth
  rw [extractAdminToken_eq, h]
  have hg2 : (via && !enforceCookieOrigin r a.AllowedOrigins a.AuthCookieRequireOrigin) = false := by
    cases via
    · rfl
    · simp [hg rfl]
  simp only [hk, ne_eq, not_true_eq_false, if_false, hg2]
  unfold validateJWTForAdmin
  cases hv : a.ValidateToken tok with
  | error err => by_cases he : err = Err.ErrTokenExpired <;> simp [he]
  | ok claims =>
    cases hu : repo.GetByID claims.UserID with
    | error e => simp [hu]
    | ok user =>
      cases hact : user.IsActive
      · simp [hu, hact]
      · by_cases hr : user.Role = RoleAdmin <;> cases via <;> simp [hu, hact, hr]

/-- The gates abort with `UNAUTHORIZED` when no token can be extracted. -/
theorem JWTAuth_of_error (a : AuthService) (repo : UserRepo) (r : Request) (c : Context)
    (msg : String) (h : extractToken r a = .error msg) :
    JWTAuth a repo r c = AbortWithError c 401 "UNAUTHORIZED" msg := by
  unfold JWTAuth
  rw [h]

theorem AdminAuth_of_error (a : AuthService) (repo : UserRepo) (s : SettingService)
    (r : Request) (c : Context) (hk : r.XApiKey = [])
    (msg : String) (h : extractToken r a = .error msg) :
    AdminAuth a repo s r c = AbortWithError c 401 "UNAUTHORIZED" "Authorization required" := by
  unfold AdminAuth
  rw [extractAdminToken_eq, h]
  simp [hk]
/-- C1: with a non-empty Authorization header the whole effect of `JWTAuth`,
and of `AdminAuth` without an admin key, is the same for every method, Origin,
Referer, X-Forwarded-Proto, TLS state, host, cookie jar, allow-list and
`requireOrigin`: two requests with the same header, under configurations with
the same token validator, leave the same context.  In particular a request
whose bearer token validates to an active user proceeds with that user and
`auth_method = jwt`, whatever its method and Origin and whatever
`requireOrigin` is. -/
theorem bearer_bypasses_origin_guard (a a2 : AuthService) (repo : UserRepo)
    (s : SettingService) (r r2 : Request) (c : Context)
    (hne : r.Authorization ≠ []) (hauth : r2.Authorization = r.Authorization)
    (hval : a2.ValidateToken = a.ValidateToken) :
    JWTAuth a2 repo r2 c = JWTAuth a repo r c ∧
    (r.XApiKey = [] → r2.XApiKey = [] →
      AdminAuth a2 repo s r2 c = AdminAuth a repo s r c) ∧
    (∀ (rest : Str) (claims : Claims) (u : User),
      r.Authorization = "Bearer".toList ++ [' '] ++ rest → trimSpace rest ≠ [] →
      a.ValidateToken (trimSpace rest) = .ok claims →
      repo.GetByID claims.UserID = .ok u → u.IsActive = true →
      Proceeded c (JWTAuth a repo r c) u "jwt") := by
  have he : extractToken r2 a2 = extractToken r a := extractToken_header_congr r r2 a a2 hne hauth
  refine ⟨?_, ?_, ?_⟩
  · cases hx : extractToken r a with
    | error msg =>
      rw [JWTAuth_of_error a repo r c msg hx, JWTAuth_of_error a2 repo r2 c msg (he.trans hx)]
    | ok p =>
      obtain ⟨tok, via⟩ := p
      have hv : via = false := extractToken_header_not_cookie r a hne tok via hx
      subst hv
      rw [JWTAuth_of_token a repo r c tok false hx (by simp),
        JWTAuth_of_token a2 repo r2 c tok false (he.trans hx) (by simp), hval]
  · intro hk hk2
    cases hx : extractToken r a with
    | error msg =>
      rw [AdminAuth_of_error a repo s r c hk msg hx,
        AdminAuth_of_error a2 repo s r2 c hk2 msg (he.trans hx)]
    | ok p =>
      obtain ⟨tok, via⟩ := p
      have hv : via = false := extractToken_header_not_cookie r a hne tok via hx
      subst hv
      rw [AdminAuth_of_token a repo s r c hk tok false hx (by simp),
        AdminAuth_of_token a2 repo s r2 c hk2 tok false (he.trans hx) (by simp), hval]
  · intro rest claims u hh ht hvt hu hact
    have hx : extractToken r a = .ok (trimSpace rest, false) := by
      rw [extractToken_bearer r a rest (by rw [hh]; simp)]
      simp [ht]
    rw [JWTAuth_of_token a repo r c _ false hx (by simp), hvt]
    simp only [hu, hact, if_true]
    simp [Proceeded, Context.Next, Context.SetAuthMethod, Context.SetUser, Context.call]

/-- C1 at a cross-origin `POST` with a valid bearer token, no Origin header
and `requireOrigin = true`: the request proceeds as user 1. -/
theorem bearer_bypasses_origin_guard_witness :
    reqBearerPost.Method = "POST".toList ∧ reqBearerPost.Origin = [] ∧
    authDemo.AuthCookieRequireOrigin = true ∧
    Proceeded Context.fresh (JWTAuth authDemo repoDemo reqBearerPost Context.fresh)
      ⟨1, "user".toList, true⟩ "jwt" :=
  ⟨by decide, by decide, by decide,
   (bearer_bypasses_origin_guard authDemo authDemo repoDemo settingsDemo reqBearerPost
      reqBearerPost Context.fresh (by decide) rfl rfl).2.2 "good".toList ⟨1⟩
      ⟨1, "user".toList, true⟩ (by decide) (by decide) (by decide) (by decide) (by decide)⟩
theorem JWTAuth_of_origin_rejected (a : AuthService) (repo : UserRepo) (r : Request)
    (c : Context) (tok : Str) (h : extractToken r a = .ok (tok, true))
    (hg : enforceCookieOrigin r a.AllowedOrigins a.AuthCookieRequireOrigin = false) :
    JWTAuth a repo r c = AbortWithError c 403 "INVALID_ORIGIN" "Origin or Referer check failed" := by
  unfold JWTAuth
  rw [h]
  simp [hg]

theorem AdminAuth_of_origin_rejected (a : AuthService) (repo : UserRepo) (s : SettingService)
    (r : Request) (c : Context) (hk : r.XApiKey = []) (tok : Str)
    (h : extractToken r a = .ok (tok, true))
    (hg : enforceCookieOrigin r a.AllowedOrigins a.AuthCookieRequireOrigin = false) :
    AdminAuth a repo s r c =
      AbortWithError c 403 "INVALID_ORIGIN" "Origin or Referer check failed" := by
  unfold AdminAuth
  rw [extractAdminToken_eq, h]
  simp [hk, hg]

theorem aborted_abortWithError (c0 c : Context) (st st2 : Nat) (code code2 msg : String)
    (hu : c.user = c0.user) (hm : c.authMethod = c0.authMethod) (hn : c.nexts = c0.nexts)
    (ha : c.aborts = c0.aborts) :
    Aborted c0 (AbortWithError c st code msg) st2 code2 ↔ st = st2 ∧ code = code2 := by
  simp [Aborted, AbortWithError, hu, hm, hn, ha]

theorem not_proceeded_abortWithError (c0 c : Context) (st : Nat) (code msg : String)
    (u : User) (m : String) (ha : c.aborts = c0.aborts) :
    ¬ Proceeded c0 (AbortWithError c st code msg) u m := by
  simp [Proceeded, AbortWithError, ha]

theorem not_aborted_next (c0 c : Context) (st : Nat) (code : String)
    (ha : c.aborts = c0.aborts) : ¬ Aborted c0 c.Next st code := by
  simp [Aborted, Context.Next, ha]

/-- C9: when the gate reaches the claims validator (a token was extracted and
the Origin Guard, if it ran, passed) and the validator fails with `err`, then
`JWTAuth`, and `AdminAuth` without an admin key, abort with 401
`TOKEN_EXPIRED` exactly when `err` is the expiry error and with 401
`INVALID_TOKEN` exactly when it is any other error; the only collaborator
called is the validator (the user repository is not consulted) and neither
the user nor `auth_method` is written. -/
theorem expired_and_invalid_not_conflated (a : AuthService) (repo : UserRepo)
    (s : SettingService) (r : Request) (c : Context) (tok : Str) (via : Bool) (err : Err)
    (h : extractToken r a = .ok (tok, via))
    (hg : via = true → enforceCookieOrigin r a.AllowedOrigins a.AuthCookieRequireOrigin = true)
    (hv : a.ValidateToken tok = .error err) :
    ((Aborted c (JWTAuth a repo r c) 401 "TOKEN_EXPIRED" ↔ err = Err.ErrTokenExpired) ∧
     (Aborted c (JWTAuth a repo r c) 401 "INVALID_TOKEN" ↔ err ≠ Err.ErrTokenExpired) ∧
     (JWTAuth a repo r c).calls = c.calls ++ [Call.ValidateToken tok] ∧
     (JWTAuth a repo r c).user = c.user ∧ (JWTAuth a repo r c).authMethod = c.authMethod) ∧
    (r.XApiKey = [] →
     (Aborted c (AdminAuth a repo s r c) 401 "TOKEN_EXPIRED" ↔ err = Err.ErrTokenExpired) ∧
     (Aborted c (AdminAuth a repo s r c) 401 "INVALID_TOKEN" ↔ err ≠ Err.ErrTokenExpired) ∧
     (AdminAuth a repo s r c).calls = c.calls ++ [Call.ValidateToken tok] ∧
     (AdminAuth a repo s r c).user = c.user ∧
     (AdminAuth a repo s r c).authMethod = c.authMethod) := by
  constructor
  · rw [JWTAuth_of_token a repo r c tok via h hg, hv]
    by_cases he : err = Err.ErrTokenExpired <;>
      simp [he, Aborted, AbortWithError, Context.call]
  · intro hk
    rw [AdminAuth_of_token a repo s r c hk tok via h hg, hv]
    by_cases he : err = Err.ErrTokenExpired <;>
      simp [he, Aborted, AbortWithError, Context.call]

/-- C9 at a bearer request whose token the validator reports as expired. -/
theorem expired_and_invalid_not_conflated_witness :
    Aborted Context.fresh (JWTAuth authDemo repoDemo reqBearerExpired Context.fresh) 401
      "TOKEN_EXPIRED" :=
  ((expired_and_invalid_not_conflated authDemo repoDemo settingsDemo reqBearerExpired
      Context.fresh "expired".toList false Err.ErrTokenExpired (by decide) (by decide)
      (by decide)).1.1).2 rfl

/-- C10: without an admin key, whenever `JWTAuth` aborts with a status and a
code, `AdminAuth` aborts with the same status and code; whenever `JWTAuth`
proceeds with user `u` and an `auth_method`, `AdminAuth` proceeds with the
same user and `auth_method` if `u` has the admin role and aborts with 403
`FORBIDDEN` otherwise. -/
theorem adminAuth_refines_JWTAuth (a : AuthService) (repo : UserRepo) (s : SettingService)
    (r : Request) (c : Context) (hk : r.XApiKey = []) :
    (∀ (st : Nat) (code : String), Aborted c (JWTAuth a repo r c) st code →
      Aborted c (AdminAuth a repo s r c) st code) ∧
    (∀ (u : User) (m : String), Proceeded c (JWTAuth a repo r c) u m →
      (u.Role = RoleAdmin → Proceeded c (AdminAuth a repo s r c) u m) ∧
      (u.Role ≠ RoleAdmin → Aborted c (AdminAuth a repo s r c) 403 "FORBIDDEN")) := by
  cases hx : extractToken r a with
  | error msg =>
    rw [JWTAuth_of_error a repo r c msg hx, AdminAuth_of_error a repo s r c hk msg hx]
    simp [Aborted, Proceeded, AbortWithError]
  | ok p =>
    obtain ⟨tok, via⟩ := p
    by_cases hg : via = true → enforceCookieOrigin r a.AllowedOrigins a.AuthCookieRequireOrigin = true
    · rw [JWTAuth_of_token a repo r c tok via hx hg,
        AdminAuth_of_token a repo s r c hk tok via hx hg]
      cases hv : a.ValidateToken tok with
      | error err =>
        by_cases he : err = Err.ErrTokenExpired <;>
          simp [he, Aborted, Proceeded, AbortWithError, Context.call]
      | ok claims =>
        cases hu : repo.GetByID claims.UserID with
        | error e => simp [hu, Aborted, Proceeded, AbortWithError, Context.call]
        | ok user =>
          cases hact : user.IsActive
          · simp [hu, hact, Aborted, Proceeded, AbortWithError, Context.call]
          · by_cases hr : user.Role = RoleAdmin
            · simp only [hu, hact, hr, if_true]
              refine ⟨fun st code h => h, ?_⟩
              intro u m hp
              have hu2 : u = user := by
                have h3 := hp.2.2.1
                simp [Context.Next, Context.SetAuthMethod, Context.SetUser] at h3
                exact h3.symm
              subst hu2
              exact ⟨fun _ => hp, fun hn => absurd hr hn⟩
            · simp only [hu, hact, hr, if_true, if_false]
              refine ⟨?_, ?_⟩
              · intro st code h
                simp [Aborted, Context.Next, Context.SetAuthMethod, Context.SetUser,
                  Context.call] at h
              · intro u m hp
                have hu2 : u = user := by
                  have h3 := hp.2.2.1
                  simp [Context.Next, Context.SetAuthMethod, Context.SetUser] at h3
                  exact h3.symm
                subst hu2
                refine ⟨fun h => absurd h hr, fun _ => ?_⟩
                simp [Aborted, AbortWithError, Context.call]
    · have hvia : via = true := by
        by_contra hv
        exact hg (fun h => absurd h hv)
      subst hvia
      have hg2 : enforceCookieOrigin r a.AllowedOrigins a.AuthCookieRequireOrigin = false := by
        cases hh : enforceCookieOrigin r a.AllowedOrigins a.AuthCookieRequireOrigin
        · rfl
        · exact absurd (fun _ => hh) hg
      rw [JWTAuth_of_origin_rejected a repo r c tok hx hg2,
        AdminAuth_of_origin_rejected a repo s r c hk tok hx hg2]
      simp [Aborted, Proceeded, AbortWithError]

/-- C10 at a bearer request of the ordinary user 1: `JWTAuth` proceeds and
`AdminAuth` answers 403 `FORBIDDEN`. -/
theorem adminAuth_refines_JWTAuth_witness :
    reqBearerPost.XApiKey = [] ∧
    Proceeded Context.fresh (JWTAuth authDemo repoDemo reqBearerPost Context.fresh)
      ⟨1, "user".toList, true⟩ "jwt" ∧
    Aborted Context.fresh (AdminAuth authDemo repoDemo settingsDemo reqBearerPost Context.fresh)
      403 "FORBIDDEN" :=
  ⟨by decide, by decide,
   ((adminAuth_refines_JWTAuth authDemo repoDemo settingsDemo reqBearerPost Context.fresh
      (by decide)).2 ⟨1, "user".toList, true⟩ "jwt" (by decide)).2 (by decide)⟩
/-! ## Constant-time comparison -/

theorem lor_eq_zero_iff (a b : Nat) : a ||| b = 0 ↔ a = 0 ∧ b = 0 := by
  constructor
  · intro h
    have hb : ∀ i, (a.testBit i || b.testBit i) = false := by
      intro i
      rw [← Nat.testBit_or, h, Nat.zero_testBit]
    constructor
    · apply Nat.eq_of_testBit_eq
      intro i
      have := hb i
      simp only [Bool.or_eq_false_iff] at this
      rw [this.1, Nat.zero_testBit]
    · apply Nat.eq_of_testBit_eq
      intro i
      have := hb i
      simp only [Bool.or_eq_false_iff] at this
      rw [this.2, Nat.zero_testBit]
  · rintro ⟨rfl, rfl⟩
    rfl

theorem char_toNat_inj (a b : Char) (h : a.toNat = b.toNat) : a = b :=
  Char.ext (UInt32.toNat.inj h)

theorem xorFold_eq_zero_iff (v : Nat) (x y : Str) (hl : x.length = y.length) :
    xorFold v x y = 0 ↔ v = 0 ∧ x = y := by
  induction x generalizing v y with
  | nil =>
    cases y with
    | nil => simp [xorFold]
    | cons b y => simp at hl
  | cons a x ih =>
    cases y with
    | nil => simp at hl
    | cons b y =>
      have hl2 : x.length = y.length := by simpa using hl
      rw [xorFold, ih _ y hl2, lor_eq_zero_iff, Nat.xor_eq_zero]
      constructor
      · rintro ⟨⟨hv, hab⟩, rfl⟩
        exact ⟨hv, by rw [char_toNat_inj a b hab]⟩
      · rintro ⟨hv, hxy⟩
        injection hxy with h1 h2
        exact ⟨⟨hv, by rw [h1]⟩, h2⟩

theorem char_toNat_lt (a : Char) : a.toNat < 2 ^ 21 := by
  have h := a.valid
  have : a.toNat < 0x110000 := by
    rcases h with h | ⟨_, h⟩
    · have : a.val.toNat < 0xd800 := h
      show a.val.toNat < 0x110000
      omega
    · exact h
  omega

theorem xorFold_lt (v : Nat) (x y : Str) (hv : v < 2 ^ 21) : xorFold v x y < 2 ^ 21 := by
  induction x generalizing v y with
  | nil => simpa [xorFold] using hv
  | cons a x ih =>
    cases y with
    | nil => simpa [xorFold] using hv
    | cons b y =>
      rw [xorFold]
      exact ih _ y (Nat.or_lt_two_pow hv (Nat.xor_lt_two_pow (char_toNat_lt a) (char_toNat_lt b)))

theorem constantTimeByteEqZero_eq_one_iff (v : Nat) (hv : v < 2 ^ 21) :
    constantTimeByteEqZero v = 1 ↔ v = 0 := by
  unfold constantTimeByteEqZero
  rw [Nat.shiftRight_eq_div_pow]
  constructor
  · intro h
    by_contra hne
    have h1 : (v + 2 ^ 32 - 1) % 2 ^ 32 = v - 1 := by omega
    rw [h1] at h
    have : (v - 1) / 2 ^ 31 = 0 := by
      apply Nat.div_eq_of_lt
      omega
    omega
  · rintro rfl
    norm_num

/-- `subtle.ConstantTimeCompare` returns 1 exactly on equal texts. -/
theorem constantTimeCompare_eq_one_iff (x y : Str) : constantTimeCompare x y = 1 ↔ x = y := by
  unfold constantTimeCompare
  by_cases hl : x.length = y.length
  · simp only [hl, ne_eq, not_true_eq_false, if_false]
    rw [constantTimeByteEqZero_eq_one_iff _ (xorFold_lt 0 x y (by norm_num)),
      xorFold_eq_zero_iff 0 x y hl]
    simp
  · simp only [ne_eq, hl, not_false_eq_true, if_true]
    constructor
    · intro h
      cases h
    · intro h
      exact absurd (by rw [h]) hl

/-! ## The admin-key path -/

/-- What the admin gate does when the `x-api-key` header is present. -/
theorem AdminAuth_of_key (a : AuthService) (repo : UserRepo) (s : SettingService)
    (r : Request) (c : Context) (hk : r.XApiKey ≠ []) :
    AdminAuth a repo s r c =
      match s.GetAdminApiKey with
      | .error _ =>
        AbortWithError (c.call .GetAdminApiKey) 500 "INTERNAL_ERROR" "Internal server error"
      | .ok storedKey =>
        if storedKey = [] ∨ r.XApiKey ≠ storedKey then
          AbortWithError (c.call .GetAdminApiKey) 401 "INVALID_ADMIN_KEY" "Invalid admin API key"
        else
          match repo.GetFirstAdmin with
          | .error _ =>
            AbortWithError ((c.call .GetAdminApiKey).call .GetFirstAdmin) 500 "INTERNAL_ERROR"
              "No admin user found"
          | .ok admin =>
            ((((c.call .GetAdminApiKey).call .GetFirstAdmin).SetUser admin).SetAuthMethod
              "admin_api_key").Next := by
  unfold AdminAuth validateAdminApiKey
  simp only [hk, ne_eq, not_false_eq_true, if_true]
  cases hs : s.GetAdminApiKey with
  | error e => simp
  | ok storedKey =>
    have hc : constantTimeCompare r.XApiKey storedKey = 1 ↔ r.XApiKey = storedKey :=
      constantTimeCompare_eq_one_iff _ _
    by_cases h1 : storedKey = []
    · simp [h1]
    · by_cases h2 : r.XApiKey = storedKey
      · have h3 : constantTimeCompare storedKey storedKey = 1 :=
          (constantTimeCompare_eq_one_iff _ _).mpr rfl
        cases hf : repo.GetFirstAdmin with
        | error e => simp [h1, h2, h3]
        | ok admin => simp [h1, h2, h3]
      · have h3 : ¬ constantTimeCompare r.XApiKey storedKey = 1 := fun h => h2 (hc.mp h)
        simp [h1, h2, h3]

/-- C4: with a non-empty `x-api-key` header the whole effect of `AdminAuth`
is a function of that header value, the settings lookup result and the
`GetFirstAdmin` result: it is the same for every Authorization header, cookie
jar, method, Origin, Referer, token validator and `GetByID`.  The only
collaborators called are the settings store and `GetFirstAdmin` (the JWT path
is never entered), and a key that differs from the stored secret is rejected
with 401 `INVALID_ADMIN_KEY` whatever else the request carries. -/
theorem adminAuth_key_path_only (a a2 : AuthService) (repo repo2 : UserRepo)
    (s s2 : SettingService) (r r2 : Request) (c : Context)
    (hk : r.XApiKey ≠ []) (hkey : r2.XApiKey = r.XApiKey)
    (hs : s2.GetAdminApiKey = s.GetAdminApiKey)
    (hf : repo2.GetFirstAdmin = repo.GetFirstAdmin) :
    AdminAuth a2 repo2 s2 r2 c = AdminAuth a repo s r c ∧
    (∀ k ∈ (AdminAuth a repo s r c).calls,
      k ∈ c.calls ∨ k = Call.GetAdminApiKey ∨ k = Call.GetFirstAdmin) ∧
    (∀ storedKey, s.GetAdminApiKey = .ok storedKey → r.XApiKey ≠ storedKey →
      Aborted c (AdminAuth a repo s r c) 401 "INVALID_ADMIN_KEY") := by
  have hk2 : r2.XApiKey ≠ [] := by rw [hkey]; exact hk
  refine ⟨?_, ?_, ?_⟩
  · rw [AdminAuth_of_key a repo s r c hk, AdminAuth_of_key a2 repo2 s2 r2 c hk2, hkey, hs, hf]
  · rw [AdminAuth_of_key a repo s r c hk]
    intro k
    cases hs1 : s.GetAdminApiKey with
    | error e =>
      simp only [AbortWithError, Context.call, List.mem_append, List.mem_singleton]
      tauto
    | ok storedKey =>
      by_cases h1 : storedKey = [] ∨ r.XApiKey ≠ storedKey
      · simp only [h1, if_true, AbortWithError, Context.call, List.mem_append,
          List.mem_singleton]
        tauto
      · simp only [h1, if_false]
        cases hf1 : repo.GetFirstAdmin with
        | error e =>
          simp only [AbortWithError, Context.call, List.mem_append, List.mem_singleton]
          tauto
        | ok admin =>
          simp only [Context.Next, Context.SetAuthMethod, Context.SetUser, Context.call,
            List.mem_append, List.mem_singleton]
          tauto
  · intro storedKey hs1 hne
    rw [AdminAuth_of_key a repo s r c hk, hs1]
    simp [hne, Aborted, AbortWithError, Context.call]

/-- C4 at a request with a wrong admin key, a valid admin bearer token and a
session cookie: 401 `INVALID_ADMIN_KEY`. -/
theorem adminAuth_key_path_only_witness :
    reqWrongKeyWithAdminToken.XApiKey ≠ [] ∧
    authDemo.ValidateToken "admin-token".toList = .ok ⟨2⟩ ∧
    Aborted Context.fresh
      (AdminAuth authDemo repoDemo settingsDemo reqWrongKeyWithAdminToken Context.fresh)
      401 "INVALID_ADMIN_KEY" :=
  ⟨by decide, by decide,
   (adminAuth_key_path_only authDemo authDemo repoDemo repoDemo settingsDemo settingsDemo
      reqWrongKeyWithAdminToken reqWrongKeyWithAdminToken Context.fresh (by decide) rfl rfl
      rfl).2.2 "s3cret".toList rfl (by decide)⟩

/-- C5: with a non-empty `x-api-key` header and a settings lookup that
succeeds, an empty stored secret and a non-empty stored secret that differs
from the key give one and the same effect: the single response 401
`INVALID_ADMIN_KEY` with the message `Invalid admin API key`, after the
settings call only; it is not `INTERNAL_ERROR`. -/
theorem adminAuth_unset_secret_indistinguishable (a : AuthService) (repo : UserRepo)
    (s : SettingService) (r : Request) (c : Context) (storedKey : Str)
    (hk : r.XApiKey ≠ []) (hs : s.GetAdminApiKey = .ok storedKey)
    (h : storedKey = [] ∨ (storedKey ≠ [] ∧ r.XApiKey ≠ storedKey)) :
    AdminAuth a repo s r c =
      AbortWithError (c.call .GetAdminApiKey) 401 "INVALID_ADMIN_KEY" "Invalid admin API key" ∧
    Aborted c (AdminAuth a repo s r c) 401 "INVALID_ADMIN_KEY" ∧
    ¬ Aborted c (AdminAuth a repo s r c) 500 "INTERNAL_ERROR" := by
  have h1 : storedKey = [] ∨ r.XApiKey ≠ storedKey := by
    rcases h with h | h
    · exact Or.inl h
    · exact Or.inr h.2
  have he : AdminAuth a repo s r c =
      AbortWithError (c.call .GetAdminApiKey) 401 "INVALID_ADMIN_KEY" "Invalid admin API key" := by
    rw [AdminAuth_of_key a repo s r c hk, hs]
    simp only [h1, if_true]
  refine ⟨he, ?_, ?_⟩
  · rw [he]
    simp [Aborted, AbortWithError, Context.call]
  · rw [he]
    simp [Aborted, AbortWithError, Context.call]

/-- C5 at an unset admin secret: 401 `INVALID_ADMIN_KEY`. -/
theorem adminAuth_unset_secret_indistinguishable_witness :
    settingsUnset.GetAdminApiKey = .ok [] ∧
    Aborted Context.fresh
      (AdminAuth authDemo repoDemo settingsUnset reqAdminKey Context.fresh)
      401 "INVALID_ADMIN_KEY" :=
  ⟨rfl,
   (adminAuth_unset_secret_indistinguishable authDemo repoDemo settingsUnset reqAdminKey
      Context.fresh [] (by decide) rfl (Or.inl rfl)).2.1⟩

/-- C6: for a non-empty stored secret and a non-empty key, with the settings
lookup succeeding, the constant-time comparison accepts exactly when the key
equals the secret: `AdminAuth` answers 401 `INVALID_ADMIN_KEY` exactly when
they differ; when they are equal and `GetFirstAdmin` returns `admin`, the
check returns true and the gate proceeds with exactly `admin` as the user
and `auth_method = admin_api_key`. -/
theorem adminAuth_key_accepts_iff (a : AuthService) (repo : UserRepo) (s : SettingService)
    (r : Request) (c : Context) (storedKey : Str)
    (hk : r.XApiKey ≠ []) (hS : storedKey ≠ []) (hs : s.GetAdminApiKey = .ok storedKey) :
    (constantTimeCompare r.XApiKey storedKey = 1 ↔ r.XApiKey = storedKey) ∧
    (Aborted c (AdminAuth a repo s r c) 401 "INVALID_ADMIN_KEY" ↔ r.XApiKey ≠ storedKey) ∧
    (∀ admin, r.XApiKey = storedKey → repo.GetFirstAdmin = .ok admin →
      (validateAdminApiKey c r.XApiKey s repo).2 = true ∧
      Proceeded c (AdminAuth a repo s r c) admin "admin_api_key") := by
  have hc := constantTimeCompare_eq_one_iff r.XApiKey storedKey
  refine ⟨hc, ?_, ?_⟩
  · rw [AdminAuth_of_key a repo s r c hk, hs]
    by_cases h2 : r.XApiKey = storedKey
    · simp only [hS, h2, false_or, ne_eq, not_true_eq_false, if_false, iff_false]
      cases hf : repo.GetFirstAdmin with
      | error e => simp [Aborted, AbortWithError, Context.call]
      | ok admin =>
        simp [Aborted, Context.Next, Context.SetAuthMethod, Context.SetUser, Context.call]
    · simp [hS, h2, Aborted, AbortWithError, Context.call]
  · intro admin h2 hf
    constructor
    · unfold validateAdminApiKey
      have h3 : constantTimeCompare storedKey storedKey = 1 :=
        (constantTimeCompare_eq_one_iff _ _).mpr rfl
      simp [hs, hS, h2, h3, hf]
    · rw [AdminAuth_of_key a repo s r c hk, hs]
      simp [hS, h2, hf, Proceeded, Context.Next, Context.SetAuthMethod, Context.SetUser,
        Context.call]

/-- C6 at the configured key `s3cret`: the gate proceeds as the first admin. -/
theorem adminAuth_key_accepts_iff_witness :
    reqAdminKey.XApiKey = "s3cret".toList ∧
    Proceeded Context.fresh (AdminAuth authDemo repoDemo settingsDemo reqAdminKey Context.fresh)
      ⟨2, "admin".toList, true⟩ "admin_api_key" :=
  ⟨rfl,
   ((adminAuth_key_accepts_iff authDemo repoDemo settingsDemo reqAdminKey Context.fresh
      "s3cret".toList (by decide) (by decide) rfl).2.2 ⟨2, "admin".toList, true⟩ rfl rfl).2⟩
/-! ## The Origin Guard on the cookie transport -/

theorem extractToken_cookie (r : Request) (a : AuthService) (ck : Str)
    (hauth : r.Authorization = []) (hck : r.Cookie a.AuthCookieName = some ck) (hne : ck ≠ []) :
    extractToken r a = .ok (ck, true) := by
  unfold extractToken
  simp [hauth, hck, hne]

/-- C2, as stated, fails: the Origin header is trimmed before it is compared.
For a cookie `POST` to `api.example.com` over TLS whose Origin is
`https://api.example.com` followed by a no-break space, with an empty
allow-list, the Origin with a trailing `/` removed differs from the server's
own origin, yet `JWTAuth` does not abort with 403 `INVALID_ORIGIN`: it
proceeds with the cookie's user. -/
theorem origin_header_is_read_trimmed :
    reqCookieOriginNbsp.Authorization = [] ∧
    reqCookieOriginNbsp.Cookie authDemo.AuthCookieName = some "good".toList ∧
    isStateChangingMethod reqCookieOriginNbsp.Method = true ∧
    authDemo.AllowedOrigins = [] ∧
    reqCookieOriginNbsp.Origin = "https://api.example.com".toList ++ [Char.ofNat 0xA0] ∧
    requestBaseOrigin reqCookieOriginNbsp = "https://api.example.com".toList ∧
    normalizeOrigin reqCookieOriginNbsp.Origin ≠
      normalizeOrigin (requestBaseOrigin reqCookieOriginNbsp) ∧
    ¬ Aborted Context.fresh (JWTAuth authDemo repoDemo reqCookieOriginNbsp Context.fresh) 403
      "INVALID_ORIGIN" ∧
    Proceeded Context.fresh (JWTAuth authDemo repoDemo reqCookieOriginNbsp Context.fresh)
      ⟨1, "user".toList, true⟩ "cookie" := by
  decide

/-- C2 (amended): with an empty allow-list, for a cookie-transport request (no
Authorization header, non-empty session cookie) with a state-changing method
and a non-blank Origin header, `JWTAuth` aborts with 403 `INVALID_ORIGIN` if
and only if the Origin, with the white space around it trimmed
(`strings.TrimSpace`) and then a trailing `/` removed, differs from scheme +
`://` + request host with a trailing `/` removed; when they are equal the
gate goes on to validate the cookie's token. -/
theorem jwtAuth_same_origin_only (a : AuthService) (repo : UserRepo) (r : Request)
    (c : Context) (ck : Str)
    (hauth : r.Authorization = []) (hck : r.Cookie a.AuthCookieName = some ck) (hne : ck ≠ [])
    (hm : isStateChangingMethod r.Method = true) (ho : trimSpace r.Origin ≠ [])
    (hal : a.AllowedOrigins = []) :
    (Aborted c (JWTAuth a repo r c) 403 "INVALID_ORIGIN" ↔
      normalizeOrigin (trimSpace r.Origin) ≠
        normalizeOrigin (requestScheme r ++ [':', '/', '/'] ++ r.Host)) ∧
    (normalizeOrigin (trimSpace r.Origin) =
        normalizeOrigin (requestScheme r ++ [':', '/', '/'] ++ r.Host) →
      ∃ rest, (JWTAuth a repo r c).calls = c.calls ++ Call.ValidateToken ck :: rest) := by
  have hx := extractToken_cookie r a ck hauth hck hne
  have hro : requestOrigin r = trimSpace r.Origin := by
    unfold requestOrigin
    simp [ho]
  have hen : enforceCookieOrigin r a.AllowedOrigins a.AuthCookieRequireOrigin =
      decide (normalizeOrigin (trimSpace r.Origin) =
        normalizeOrigin (requestScheme r ++ [':', '/', '/'] ++ r.Host)) := by
    unfold enforceCookieOrigin
    simp [hm, hro, ho, hal, requestBaseOrigin]
  by_cases heq : normalizeOrigin (trimSpace r.Origin) =
      normalizeOrigin (requestScheme r ++ [':', '/', '/'] ++ r.Host)
  · have hg : enforceCookieOrigin r a.AllowedOrigins a.AuthCookieRequireOrigin = true := by
      rw [hen]; exact decide_eq_true heq
    rw [JWTAuth_of_token a repo r c ck true hx (fun _ => hg)]
    simp only [heq, ne_eq, not_true_eq_false, iff_false, forall_true_left]
    cases hv : a.ValidateToken ck with
    | error err =>
      by_cases he : err = Err.ErrTokenExpired <;>
        simp [he, Aborted, AbortWithError, Context.call]
    | ok claims =>
      cases hu : repo.GetByID claims.UserID with
      | error e => simp [hu, Aborted, AbortWithError, Context.call]
      | ok user =>
        cases hact : user.IsActive <;>
          simp [hu, hact, Aborted, AbortWithError, Context.call, Context.Next,
            Context.SetAuthMethod, Context.SetUser]
  · have hg : enforceCookieOrigin r a.AllowedOrigins a.AuthCookieRequireOrigin = false := by
      rw [hen]; exact decide_eq_false heq
    rw [JWTAuth_of_origin_rejected a repo r c ck hx hg]
    refine ⟨⟨fun _ => heq, fun _ => ?_⟩, fun h => absurd h heq⟩
    simp [Aborted, AbortWithError]

/-- C2 (amended) at a cookie `POST` from another origin: 403 `INVALID_ORIGIN`. -/
theorem jwtAuth_same_origin_only_witness :
    reqCookieCrossOrigin.Origin = "https://evil.example".toList ∧
    requestScheme reqCookieCrossOrigin ++ [':', '/', '/'] ++ reqCookieCrossOrigin.Host =
      "https://api.example.com".toList ∧
    Aborted Context.fresh (JWTAuth authDemo repoDemo reqCookieCrossOrigin Context.fresh) 403
      "INVALID_ORIGIN" :=
  ⟨rfl, by decide,
   ((jwtAuth_same_origin_only authDemo repoDemo reqCookieCrossOrigin Context.fresh
      "good".toList rfl rfl (by decide) (by decide) (by decide) rfl).1).2 (by decide)⟩
/-! ## Characters -/

theorem char_le_iff (a c : Char) : a ≤ c ↔ a.toNat ≤ c.toNat := Iff.rfl

theorem isAlpha_iff (c : Char) : isAlpha c = true ↔
    (97 ≤ c.toNat ∧ c.toNat ≤ 122) ∨ (65 ≤ c.toNat ∧ c.toNat ≤ 90) := by
  simp only [isAlpha, Bool.or_eq_true, Bool.and_eq_true, decide_eq_true_eq, char_le_iff]
  rfl

theorem isDigit_iff (c : Char) : isDigit c = true ↔ (48 ≤ c.toNat ∧ c.toNat ≤ 57) := by
  simp only [isDigit, Bool.and_eq_true, decide_eq_true_eq, char_le_iff]
  rfl

/-- The code of a plain character, `:` or `/` is printable ASCII and none of
the codes of `#`, `%`, `?`, `@`, `[`. -/
theorem isUrlText_code (c : Char) (h : isUrlText c = true) :
    33 ≤ c.toNat ∧ c.toNat ≤ 126 ∧ c.toNat ≠ 35 ∧ c.toNat ≠ 37 ∧ c.toNat ≠ 63 ∧
      c.toNat ≠ 64 ∧ c.toNat ≠ 91 := by
  simp only [isUrlText, isUrlPlain, Bool.or_eq_true, decide_eq_true_eq] at h
  rcases h with (((((((((h | h) | h) | h) | h) | h) | h) | h) | h) | h)
  · rcases (isAlpha_iff c).mp h with h | h <;> omega
  · have := (isDigit_iff c).mp h
    omega
  all_goals (subst h; decide)

theorem isUrlText_not_space (c : Char) (h : isUrlText c = true) : isSpace c = false := by
  have hc := isUrlText_code c h
  simp only [isSpace, Bool.or_eq_false_iff, Bool.and_eq_false_iff, decide_eq_false_iff_not,
    beq_eq_false_iff_ne, ne_eq]
  omega

/-! ## The string functions on text without the separator -/

theorem dropWhile_of_all_false (p : Char → Bool) (s : Str) (h : ∀ c ∈ s, p c = false) :
    s.dropWhile p = s := by
  cases s with
  | nil => rfl
  | cons a t => simp [List.dropWhile, h a (by simp)]

theorem trimSpace_of_no_space (s : Str) (h : ∀ c ∈ s, isSpace c = false) : trimSpace s = s := by
  unfold trimSpace
  rw [dropWhile_of_all_false isSpace s h,
    dropWhile_of_all_false isSpace s.reverse (fun c hc => h c (List.mem_reverse.mp hc)),
    List.reverse_reverse]

theorem hasSuffix_slash_mem (s : Str) (h : hasSuffix s ['/'] = true) : '/' ∈ s := by
  unfold hasSuffix at h
  rw [List.isSuffixOf_iff_suffix] at h
  obtain ⟨t, ht⟩ := h
  rw [← ht]
  simp

theorem trimSuffixSlash_of_not_mem (s : Str) (h : '/' ∉ s) : trimSuffixSlash s = s := by
  unfold trimSuffixSlash
  cases hh : hasSuffix s ['/'] with
  | true => exact absurd (hasSuffix_slash_mem s hh) h
  | false => simp

theorem trimSuffixSlash_append (a b : Str) (hb : b ≠ []) (h : '/' ∉ b) :
    trimSuffixSlash (a ++ b) = a ++ b := by
  unfold trimSuffixSlash
  cases hh : hasSuffix (a ++ b) ['/'] with
  | false => simp
  | true =>
    exfalso
    unfold hasSuffix at hh
    rw [List.isSuffixOf_iff_suffix] at hh
    obtain ⟨t, ht⟩ := hh
    have h1 : (a ++ b).getLast? = some '/' := by rw [← ht]; simp
    rw [List.getLast?_append_of_ne_nil a hb] at h1
    exact h (List.mem_of_getLast?_eq_some h1)

theorem trimSuffixSlash_append_slash (a : Str) : trimSuffixSlash (a ++ ['/']) = a := by
  unfold trimSuffixSlash
  have : hasSuffix (a ++ ['/']) ['/'] = true := by
    unfold hasSuffix
    rw [List.isSuffixOf_iff_suffix]
    exact List.suffix_append a ['/']
  simp [this]

theorem beforeSep_of_not_mem (sep : Char) (s : Str) (h : sep ∉ s) : beforeSep sep s = s := by
  unfold beforeSep
  rw [(cut_eq_none_iff sep s).mpr h]

theorem fromLast_of_not_mem (sep : Char) (s : Str) (h : sep ∉ s) : fromLast sep s = none := by
  induction s with
  | nil => rfl
  | cons c cs ih =>
    have h1 : c ≠ sep := fun e => h (by simp [e])
    have h2 : sep ∉ cs := fun e => h (by simp [e])
    simp [fromLast, ih h2, h1]

theorem fromLast_append (sep : Char) (n p : Str) (h : sep ∉ n) :
    fromLast sep (n ++ p) = fromLast sep p := by
  induction n with
  | nil => rfl
  | cons c cs ih =>
    have h1 : c ≠ sep := fun e => h (by simp [e])
    have h2 : sep ∉ cs := fun e => h (by simp [e])
    cases hp : fromLast sep p with
    | none => simp [fromLast, ih h2, hp, h1]
    | some r => simp [fromLast, ih h2, hp]

theorem fromLast_cons_self (sep : Char) (s : Str) (h : sep ∉ s) :
    fromLast sep (sep :: s) = some (sep :: s) := by
  simp [fromLast, fromLast_of_not_mem sep s h]

theorem cutLast_of_not_mem (sep : Char) (s : Str) (h : sep ∉ s) : cutLast sep s = none := by
  induction s with
  | nil => rfl
  | cons c cs ih =>
    have h1 : c ≠ sep := fun e => h (by simp [e])
    have h2 : sep ∉ cs := fun e => h (by simp [e])
    simp [cutLast, ih h2, h1]

theorem stringContainsCTLByte_false (s : Str) (h : ∀ c ∈ s, isUrlText c = true) :
    stringContainsCTLByte s = false := by
  unfold stringContainsCTLByte
  rw [List.any_eq_false]
  intro c hc
  have := isUrlText_code c (h c hc)
  simp only [Bool.or_eq_true, decide_eq_true_eq, beq_iff_eq, not_or]
  omega
/-! ## `unescape`, `getScheme`, `parseHost` on plain text -/

theorem unescapeCheck_cons (mode : Encoding) (c : Char) (rest : Str) (h : c ≠ '%') :
    unescapeCheck mode (c :: rest) =
      if (mode = .encodeHost || mode = .encodeZone) && decide (c.toNat < 0x80) &&
        shouldEscapeHost c then false
      else unescapeCheck mode rest := by
  rw [unescapeCheck]
  · intro a b r hh
    exact absurd hh h
  · intro hh
    exact absurd hh h

theorem unescapeItems_cons (c : Char) (rest : Str) (h : c ≠ '%') :
    unescapeItems (c :: rest) = .inl c :: unescapeItems rest := by
  rw [unescapeItems]
  intro a b r hh
  exact absurd hh h

theorem unescapeDecode_cons (c : Char) (rest : Str) (h : c ≠ '%') :
    unescapeDecode (c :: rest) = c :: unescapeDecode rest := by
  unfold unescapeDecode
  rw [unescapeItems_cons c rest h]
  simp [utf8Join, strayBytes]

theorem shouldEscapeHost_plain (c : Char) (h : isUrlPlain c = true) :
    shouldEscapeHost c = false := by
  simp only [isUrlPlain, Bool.or_eq_true, decide_eq_true_eq] at h
  rcases h with ((((((h | h) | h) | h) | h) | h) | h) | h
  · simp [shouldEscapeHost, h]
  · simp [shouldEscapeHost, h]
  all_goals (subst h; decide)

theorem shouldEscapeHost_digit (c : Char) (h : isDigit c = true) :
    shouldEscapeHost c = false := by
  simp [shouldEscapeHost, h]

theorem unescapeDecode_of_no_percent (s : Str) (h : '%' ∉ s) : unescapeDecode s = s := by
  induction s with
  | nil => rfl
  | cons c cs ih =>
    have h1 : c ≠ '%' := fun e => h (by simp [e])
    have h2 : '%' ∉ cs := fun e => h (by simp [e])
    rw [unescapeDecode_cons c cs h1, ih h2]

theorem unescapeCheck_of_plain (mode : Encoding) (s : Str) (hp : '%' ∉ s)
    (h : ∀ c ∈ s, shouldEscapeHost c = false) : unescapeCheck mode s = true := by
  induction s with
  | nil => rfl
  | cons c cs ih =>
    have h1 : c ≠ '%' := fun e => hp (by simp [e])
    have h2 : '%' ∉ cs := fun e => hp (by simp [e])
    rw [unescapeCheck_cons mode c cs h1, h c (by simp),
      ih h2 (fun d hd => h d (by simp [hd]))]
    simp

theorem unescape_of_plain (mode : Encoding) (s : Str) (hp : '%' ∉ s)
    (h : ∀ c ∈ s, shouldEscapeHost c = false) : unescape s mode = some s := by
  unfold unescape
  rw [unescapeCheck_of_plain mode s hp h, unescapeDecode_of_no_percent s hp]
  simp

theorem unescape_path_of_no_percent (s : Str) (hp : '%' ∉ s) :
    unescape s .encodePath = some s := by
  unfold unescape
  have : unescapeCheck .encodePath s = true := by
    induction s with
    | nil => rfl
    | cons c cs ih =>
      have h1 : c ≠ '%' := fun e => hp (by simp [e])
      have h2 : '%' ∉ cs := fun e => hp (by simp [e])
      rw [unescapeCheck_cons _ c cs h1, ih h2]
      simp
  rw [this, unescapeDecode_of_no_percent s hp]
  simp

/-- The scanning loop of `getScheme` runs over scheme characters up to the
first `:` and returns what it has read. -/
theorem getSchemeLoop_scheme (rawURL acc s rest : Str) (hacc : acc ≠ [] ∨ ∃ c cs, s = c :: cs ∧ isAlpha c = true)
    (hs : ∀ c ∈ s, isSchemeChar c = true) (hne : acc ++ s ≠ []) :
    getSchemeLoop rawURL acc (s ++ ':' :: rest) = some (acc ++ s, rest) := by
  induction s generalizing acc with
  | nil =>
    have hacc2 : acc ≠ [] := by simpa using hne
    have h1 : isAlpha ':' = false := by decide
    have h2 : isDigit ':' = false := by decide
    simp [getSchemeLoop, h1, h2, hacc2]
  | cons c cs ih =>
    have hc := hs c (by simp)
    have hcs : ∀ d ∈ cs, isSchemeChar d = true := fun d hd => hs d (by simp [hd])
    have hstep : getSchemeLoop rawURL acc (c :: cs ++ ':' :: rest) =
        getSchemeLoop rawURL (acc ++ [c]) (cs ++ ':' :: rest) := by
      by_cases ha : isAlpha c = true
      · simp [getSchemeLoop, ha]
      · have hac : acc ≠ [] := by
          rcases hacc with h | ⟨c2, cs2, h, h3⟩
          · exact h
          · injection h with h4 _
            subst h4
            exact absurd h3 ha
        have hd : (isDigit c || c = '+' || c = '-' || c = '.') = true := by
          simp only [isSchemeChar, Bool.or_eq_true, decide_eq_true_eq] at hc
          simp only [Bool.or_eq_true, decide_eq_true_eq]
          tauto
        simp only [List.cons_append, getSchemeLoop, ha, Bool.false_eq_true, if_false]
        rw [if_pos hd]
        simp [hac]
    rw [hstep, ih (acc ++ [c]) (Or.inl (by simp)) hcs (by simp)]
    simp

theorem getScheme_scheme (s rest : Str) (hs : isScheme s = true) :
    getScheme (s ++ ':' :: rest) = some (s, rest) := by
  unfold getScheme
  cases s with
  | nil => simp [isScheme] at hs
  | cons c cs =>
    simp only [isScheme, Bool.and_eq_true, List.all_eq_true] at hs
    have hall : ∀ d ∈ c :: cs, isSchemeChar d = true := by
      intro d hd
      rcases List.mem_cons.mp hd with h | h
      · subst h
        simp [isSchemeChar, hs.1]
      · exact hs.2 d h
    have := getSchemeLoop_scheme ((c :: cs) ++ ':' :: rest) [] (c :: cs) rest
      (Or.inr ⟨c, cs, rfl, hs.1⟩) hall (by simp)
    simpa using this

theorem getScheme_star (rest : Str) : getScheme ('*' :: rest) = some ([], '*' :: rest) := by
  have h1 : isAlpha '*' = false := by decide
  have h2 : isDigit '*' = false := by decide
  simp [getScheme, getSchemeLoop, h1, h2]
theorem validOptionalPort_cases (p : Str) (h : validOptionalPort p = true) :
    p = [] ∨ ∃ ds, p = ':' :: ds ∧ ∀ d ∈ ds, isDigit d = true := by
  cases p with
  | nil => exact Or.inl rfl
  | cons c ds =>
    simp only [validOptionalPort, Bool.and_eq_true, decide_eq_true_eq, List.all_eq_true] at h
    exact Or.inr ⟨ds, by rw [h.1], h.2⟩

theorem isUrlPlain_of_digit (c : Char) (h : isDigit c = true) : isUrlPlain c = true := by
  simp [isUrlPlain, h]

theorem isUrlText_of_plain (c : Char) (h : isUrlPlain c = true) : isUrlText c = true := by
  simp [isUrlText, h]

theorem isUrlPlain_ne (c x : Char) (h : isUrlPlain c = true) (hx : isUrlPlain x = false) :
    c ≠ x := by
  intro e
  rw [e, hx] at h
  cases h

theorem isUrlText_ne (c x : Char) (h : isUrlText c = true) (hx : isUrlText x = false) :
    c ≠ x := by
  intro e
  rw [e, hx] at h
  cases h

theorem not_mem_of_all_plain (x : Char) (s : Str) (h : ∀ c ∈ s, isUrlPlain c = true)
    (hx : isUrlPlain x = false) : x ∉ s := fun hm => isUrlPlain_ne x x (h x hm) hx rfl

theorem not_mem_of_all_text (x : Char) (s : Str) (h : ∀ c ∈ s, isUrlText c = true)
    (hx : isUrlText x = false) : x ∉ s := fun hm => isUrlText_ne x x (h x hm) hx rfl

/-- A host name with an optional port: every character is plain or part of
the port. -/
theorem hostPort_text (n p : Str) (hn : ∀ c ∈ n, isUrlPlain c = true)
    (hp : validOptionalPort p = true) :
    (∀ c ∈ n ++ p, isUrlText c = true) ∧ (∀ c ∈ n ++ p, shouldEscapeHost c = false) ∧
      '/' ∉ n ++ p := by
  have hpp : ∀ c ∈ p, c = ':' ∨ isDigit c = true := by
    rcases validOptionalPort_cases p hp with h | ⟨ds, h, hd⟩
    · subst h
      intro c hc
      cases hc
    · subst h
      intro c hc
      rcases List.mem_cons.mp hc with h | h
      · exact Or.inl h
      · exact Or.inr (hd c h)
  refine ⟨?_, ?_, ?_⟩
  · intro c hc
    rcases List.mem_append.mp hc with h | h
    · exact isUrlText_of_plain c (hn c h)
    · rcases hpp c h with h2 | h2
      · subst h2
        decide
      · exact isUrlText_of_plain c (isUrlPlain_of_digit c h2)
  · intro c hc
    rcases List.mem_append.mp hc with h | h
    · exact shouldEscapeHost_plain c (hn c h)
    · rcases hpp c h with h2 | h2
      · subst h2
        decide
      · exact shouldEscapeHost_digit c h2
  · intro hc
    rcases List.mem_append.mp hc with h | h
    · exact isUrlPlain_ne _ _ (hn _ h) (by decide) rfl
    · rcases hpp _ h with h2 | h2
      · revert h2
        decide
      · revert h2
        decide

theorem parseHost_hostPort (n p : Str) (hn : ∀ c ∈ n, isUrlPlain c = true)
    (hp : validOptionalPort p = true) : parseHost (n ++ p) = some (n ++ p) := by
  obtain ⟨htext, hesc, _⟩ := hostPort_text n p hn hp
  have hpc : '%' ∉ n ++ p := not_mem_of_all_text '%' _ htext (by decide)
  have hun := unescape_of_plain .encodeHost (n ++ p) hpc hesc
  have hbr : hasPrefix (n ++ p) ['['] = false := by
    have hb : '[' ∉ n ++ p := not_mem_of_all_text '[' _ htext (by decide)
    cases hnp : n ++ p with
    | nil => rfl
    | cons c cs =>
      have : c ≠ '[' := fun e => hb (by rw [hnp, e]; simp)
      simp [hasPrefix, List.isPrefixOf, Ne.symm this]
  have hcolon : ':' ∉ n := not_mem_of_all_plain ':' n hn (by decide)
  unfold parseHost
  rw [hbr, fromLast_append ':' n p hcolon]
  rcases validOptionalPort_cases p hp with h | ⟨ds, h, hd⟩
  · subst h
    simpa [fromLast] using hun
  · have hds : ':' ∉ ds := fun hm => by
      have := hd ':' hm
      revert this
      decide
    rw [h, fromLast_cons_self ':' ds hds, ← h]
    simp [hp, hun]

theorem parseAuthority_hostPort (n p : Str) (hn : ∀ c ∈ n, isUrlPlain c = true)
    (hp : validOptionalPort p = true) : parseAuthority (n ++ p) = some (n ++ p) := by
  obtain ⟨htext, _, _⟩ := hostPort_text n p hn hp
  have hat : '@' ∉ n ++ p := not_mem_of_all_text '@' _ htext (by decide)
  unfold parseAuthority
  rw [cutLast_of_not_mem '@' _ hat]
  exact parseHost_hostPort n p hn hp
/-! ## `url.Parse` on well-formed origins and wildcard patterns -/

theorem isUrlPlain_of_schemeChar (c : Char) (h : isSchemeChar c = true) :
    isUrlPlain c = true := by
  simp only [isSchemeChar, Bool.or_eq_true, decide_eq_true_eq] at h
  simp only [isUrlPlain, Bool.or_eq_true, decide_eq_true_eq]
  tauto

theorem isUrlPlain_of_nameChar (c : Char) (h : isNameChar c = true) :
    isUrlPlain c = true := by
  simp only [isNameChar, Bool.or_eq_true, decide_eq_true_eq] at h
  simp only [isUrlPlain, Bool.or_eq_true, decide_eq_true_eq]
  tauto

theorem scheme_plain (s : Str) (hs : isScheme s = true) :
    s ≠ [] ∧ (∀ c ∈ s, isUrlPlain c = true) ∧ s.head? ≠ some '*' := by
  cases s with
  | nil => simp [isScheme] at hs
  | cons c cs =>
    simp only [isScheme, Bool.and_eq_true, List.all_eq_true] at hs
    refine ⟨by simp, ?_, ?_⟩
    · intro d hd
      rcases List.mem_cons.mp hd with h | h
      · subst h
        simp [isUrlPlain, hs.1]
      · exact isUrlPlain_of_schemeChar d (hs.2 d h)
    · intro h
      simp only [List.head?_cons, Option.some.injEq] at h
      subst h
      have h1 := hs.1
      revert h1
      decide

theorem toLower_ne_nil (s : Str) (h : s ≠ []) : toLower s ≠ [] := by
  cases s with
  | nil => exact absurd rfl h
  | cons c cs => simp [toLower]

/-- `parse` on `scheme://host[:port]`. -/
theorem parse_origin (s n p : Str) (hs : isScheme s = true)
    (hn : ∀ c ∈ n, isUrlPlain c = true) (hp : validOptionalPort p = true) :
    parse (s ++ ':' :: '/' :: '/' :: (n ++ p)) = some ⟨toLower s, [], n ++ p, []⟩ := by
  obtain ⟨hsne, hsp, hstar⟩ := scheme_plain s hs
  obtain ⟨htext, _, hslash⟩ := hostPort_text n p hn hp
  have hall : ∀ c ∈ s ++ ':' :: '/' :: '/' :: (n ++ p), isUrlText c = true := by
    intro c hc
    rcases List.mem_append.mp hc with h | h
    · exact isUrlText_of_plain c (hsp c h)
    · rcases List.mem_cons.mp h with h | h
      · subst h; decide
      · rcases List.mem_cons.mp h with h | h
        · subst h; decide
        · rcases List.mem_cons.mp h with h | h
          · subst h; decide
          · exact htext c h
  have hctl := stringContainsCTLByte_false _ hall
  have hne : s ++ ':' :: '/' :: '/' :: (n ++ p) ≠ ['*'] := by
    intro e
    have := congrArg List.length e
    simp at this
    omega
  have hq : '?' ∉ '/' :: '/' :: (n ++ p) := by
    intro hm
    exact not_mem_of_all_text '?' _ hall (by decide) (by simp [hm])
  have hauth := parseAuthority_hostPort n p hn hp
  have hlow := toLower_ne_nil s hsne
  unfold parse
  rw [hctl]
  simp only [Bool.false_eq_true, if_false, hne, getScheme_scheme s _ hs,
    beforeSep_of_not_mem '?' _ hq]
  simp [hasPrefix, List.isPrefixOf, hlow, beforeSep_of_not_mem '/' _ hslash, hauth, unescape,
    unescapeCheck, unescapeDecode, unescapeItems, utf8Join, strayBytes]

/-- `parse` on `scheme://` with the trailing `/` removed. -/
theorem parse_scheme_slash (s : Str) (hs : isScheme s = true) :
    parse (s ++ [':', '/']) = some ⟨toLower s, [], [], ['/']⟩ := by
  obtain ⟨hsne, hsp, hstar⟩ := scheme_plain s hs
  have hall : ∀ c ∈ s ++ [':', '/'], isUrlText c = true := by
    intro c hc
    rcases List.mem_append.mp hc with h | h
    · exact isUrlText_of_plain c (hsp c h)
    · rcases List.mem_cons.mp h with h | h
      · subst h; decide
      · rcases List.mem_cons.mp h with h | h
        · subst h; decide
        · cases h
  have hctl := stringContainsCTLByte_false _ hall
  have hne : s ++ [':', '/'] ≠ ['*'] := by
    intro e
    have := congrArg List.length e
    simp at this
  have hlow := toLower_ne_nil s hsne
  unfold parse
  rw [hctl]
  simp only [Bool.false_eq_true, if_false, hne, getScheme_scheme s _ hs]
  simp [hasPrefix, List.isPrefixOf, hlow, beforeSep, cut, unescape,
    unescapeCheck, unescapeDecode, unescapeItems, utf8Join, strayBytes]

/-- `parse` on a scheme-less wildcard `*.domain`: the whole text is the path. -/
theorem parse_wildcard (d : Str) (hd : ∀ c ∈ d, isUrlPlain c = true) :
    parse ('*' :: '.' :: d) = some ⟨[], [], [], '*' :: '.' :: d⟩ := by
  have hplain : ∀ c ∈ '*' :: '.' :: d, isUrlPlain c = true := by
    intro c hc
    rcases List.mem_cons.mp hc with h | h
    · subst h; decide
    · rcases List.mem_cons.mp h with h | h
      · subst h; decide
      · exact hd c h
  have hall : ∀ c ∈ '*' :: '.' :: d, isUrlText c = true :=
    fun c hc => isUrlText_of_plain c (hplain c hc)
  have hctl := stringContainsCTLByte_false _ hall
  have hq : '?' ∉ '*' :: '.' :: d := not_mem_of_all_plain '?' _ hplain (by decide)
  have hsl : '/' ∉ '*' :: '.' :: d := not_mem_of_all_plain '/' _ hplain (by decide)
  have hco : ':' ∉ '*' :: '.' :: d := not_mem_of_all_plain ':' _ hplain (by decide)
  have hpc : '%' ∉ '*' :: '.' :: d := not_mem_of_all_plain '%' _ hplain (by decide)
  have hun := unescape_path_of_no_percent _ hpc
  unfold parse
  rw [hctl]
  simp only [Bool.false_eq_true, if_false, getScheme_star, beforeSep_of_not_mem '?' _ hq,
    beforeSep_of_not_mem '/' _ hsl]
  simp [hasPrefix, List.isPrefixOf, toLower, hco, hun]

theorem urlParse_of_no_hash (s : Str) (h : '#' ∉ s) : urlParse s = parse s := by
  unfold urlParse
  rw [(cut_eq_none_iff '#' s).mpr h]
/-! ## Wildcard patterns -/

/-- The origin `scheme://host[:port]`, normalized and parsed: the scheme in
lower case and the host with its port. -/
theorem urlParse_normalized_origin (s n p : Str) (hs : isScheme s = true)
    (hn : ∀ c ∈ n, isUrlPlain c = true) (hp : validOptionalPort p = true) :
    ∃ path, urlParse (normalizeOrigin (s ++ ':' :: '/' :: '/' :: (n ++ p))) =
      some ⟨toLower s, [], n ++ p, path⟩ := by
  obtain ⟨_, hsp, _⟩ := scheme_plain s hs
  obtain ⟨htext, _, hslash⟩ := hostPort_text n p hn hp
  have hhs : '#' ∉ s := not_mem_of_all_plain '#' s hsp (by decide)
  by_cases hnp : n ++ p = []
  · refine ⟨['/'], ?_⟩
    rw [hnp]
    have e1 : s ++ [':', '/', '/'] = (s ++ [':', '/']) ++ ['/'] := by simp
    have hno : '#' ∉ s ++ [':', '/'] := by
      intro hm
      rcases List.mem_append.mp hm with h | h
      · exact hhs h
      · revert h
        decide
    unfold normalizeOrigin
    rw [e1, trimSuffixSlash_append_slash, urlParse_of_no_hash _ hno, parse_scheme_slash s hs]
  · refine ⟨[], ?_⟩
    have e1 : s ++ ':' :: '/' :: '/' :: (n ++ p) = (s ++ [':', '/', '/']) ++ (n ++ p) := by simp
    have hno : '#' ∉ s ++ ':' :: '/' :: '/' :: (n ++ p) := by
      intro hm
      rcases List.mem_append.mp hm with h | h
      · exact hhs h
      · have h2 : '#' ∈ n ++ p := by
          simpa using h
        exact not_mem_of_all_text '#' _ htext (by decide) h2
    unfold normalizeOrigin
    rw [e1, trimSuffixSlash_append _ _ hnp hslash, ← e1, urlParse_of_no_hash _ hno,
      parse_origin s n p hs hn hp]

/-- A pattern made of plain characters, `:` and `/` that does not end in `/`
is left as it is by `TrimSpace` and `normalizeOrigin`. -/
theorem pattern_trim (a b : Str) (ha : ∀ c ∈ a, isUrlText c = true)
    (hb : ∀ c ∈ b, isUrlPlain c = true ∨ c = ':') (hne : b ≠ []) :
    trimSpace (a ++ b) = a ++ b ∧ normalizeOrigin (a ++ b) = a ++ b ∧ '#' ∉ a ++ b := by
  have hbt : ∀ c ∈ b, isUrlText c = true := by
    intro c hc
    rcases hb c hc with h | h
    · exact isUrlText_of_plain c h
    · subst h; decide
  have hall : ∀ c ∈ a ++ b, isUrlText c = true := by
    intro c hc
    rcases List.mem_append.mp hc with h | h
    · exact ha c h
    · exact hbt c h
  have hsl : '/' ∉ b := by
    intro hm
    rcases hb _ hm with h | h
    · revert h; decide
    · revert h; decide
  refine ⟨trimSpace_of_no_space _ (fun c hc => isUrlText_not_space c (hall c hc)), ?_,
    not_mem_of_all_text '#' _ hall (by decide)⟩
  unfold normalizeOrigin
  exact trimSuffixSlash_append a b hne hsl

theorem wildcard_tail (dn dp : Str) (hdn : ∀ c ∈ dn, isNameChar c = true)
    (hdp : validOptionalPort dp = true) :
    (∀ c ∈ '*' :: '.' :: dn, isUrlPlain c = true) ∧
      (∀ c ∈ '*' :: '.' :: (dn ++ dp), isUrlPlain c = true ∨ c = ':') := by
  have h1 : ∀ c ∈ '*' :: '.' :: dn, isUrlPlain c = true := by
    intro c hc
    rcases List.mem_cons.mp hc with h | h
    · subst h; decide
    · rcases List.mem_cons.mp h with h | h
      · subst h; decide
      · exact isUrlPlain_of_nameChar c (hdn c h)
  refine ⟨h1, ?_⟩
  intro c hc
  have hc2 : c ∈ ('*' :: '.' :: dn) ++ dp := by simpa using hc
  rcases List.mem_append.mp hc2 with h | h
  · exact Or.inl (h1 c h)
  · rcases validOptionalPort_cases dp hdp with e | ⟨ds, e, hd⟩
    · subst e
      cases h
    · subst e
      rcases List.mem_cons.mp h with h | h
      · exact Or.inr h
      · exact Or.inl (isUrlPlain_of_digit c (hd c h))

/-- `matchAllowedOrigin` against the scheme-less wildcard `*.domain`. -/
theorem wildcard_noScheme_eq (s hn hp dn : Str) (hs : isScheme s = true)
    (hhn : ∀ c ∈ hn, isNameChar c = true) (hhp : validOptionalPort hp = true)
    (hdn : ∀ c ∈ dn, isNameChar c = true) :
    matchAllowedOrigin (s ++ ':' :: '/' :: '/' :: (hn ++ hp)) ('*' :: '.' :: dn) =
      hasSuffix (hn ++ hp) ('.' :: dn) := by
  obtain ⟨hw, _⟩ := wildcard_tail dn [] hdn rfl
  obtain ⟨ht, hno, hhash⟩ := pattern_trim [] ('*' :: '.' :: dn) (by simp)
    (fun c hc => Or.inl (hw c hc)) (by simp)
  simp only [List.nil_append] at ht hno hhash
  obtain ⟨path, ho⟩ := urlParse_normalized_origin s hn hp hs
    (fun c hc => isUrlPlain_of_nameChar c (hhn c hc)) hhp
  have hpa : urlParse ('*' :: '.' :: dn) = some ⟨[], [], [], '*' :: '.' :: dn⟩ := by
    rw [urlParse_of_no_hash _ hhash, parse_wildcard dn (fun c hc => hw c (by simp [hc]))]
  unfold matchAllowedOrigin
  simp only [ht, hno, ho, hpa]
  simp [hasPrefix, List.isPrefixOf]

/-- `matchAllowedOrigin` against the wildcard `scheme://*.domain[:port]`. -/
theorem wildcard_scheme_eq (s ps hn hp dn dp : Str) (hs : isScheme s = true)
    (hps : isScheme ps = true)
    (hhn : ∀ c ∈ hn, isNameChar c = true) (hhp : validOptionalPort hp = true)
    (hdn : ∀ c ∈ dn, isNameChar c = true) (hdp : validOptionalPort dp = true) :
    matchAllowedOrigin (s ++ ':' :: '/' :: '/' :: (hn ++ hp))
        (ps ++ ':' :: '/' :: '/' :: '*' :: '.' :: (dn ++ dp)) =
      (decide (toLower ps = toLower s) && hasSuffix (hn ++ hp) ('.' :: (dn ++ dp))) := by
  obtain ⟨hw, hw2⟩ := wildcard_tail dn dp hdn hdp
  obtain ⟨hpsne, hpsp, _⟩ := scheme_plain ps hps
  have ha : ∀ c ∈ ps ++ [':', '/', '/'], isUrlText c = true := by
    intro c hc
    rcases List.mem_append.mp hc with h | h
    · exact isUrlText_of_plain c (hpsp c h)
    · revert h
      simp only [List.mem_cons, List.mem_singleton, List.not_mem_nil, or_false]
      rintro (h | h | h) <;> (subst h; decide)
  obtain ⟨ht, hno, hhash⟩ := pattern_trim (ps ++ [':', '/', '/']) ('*' :: '.' :: (dn ++ dp)) ha
    hw2 (by simp)
  have e1 : ps ++ [':', '/', '/'] ++ '*' :: '.' :: (dn ++ dp) =
      ps ++ ':' :: '/' :: '/' :: '*' :: '.' :: (dn ++ dp) := by simp
  rw [e1] at ht hno hhash
  obtain ⟨path, ho⟩ := urlParse_normalized_origin s hn hp hs
    (fun c hc => isUrlPlain_of_nameChar c (hhn c hc)) hhp
  have hpa : urlParse (ps ++ ':' :: '/' :: '/' :: '*' :: '.' :: (dn ++ dp)) =
      some ⟨toLower ps, [], '*' :: '.' :: (dn ++ dp), []⟩ := by
    rw [urlParse_of_no_hash _ hhash]
    have := parse_origin ps ('*' :: '.' :: dn) dp hps hw hdp
    simpa using this
  have hlow := toLower_ne_nil ps hpsne
  have hstar : (ps ++ ':' :: '/' :: '/' :: '*' :: '.' :: (dn ++ dp)) ≠ ['*'] := by
    intro e
    have := congrArg List.length e
    simp at this
    omega
  unfold matchAllowedOrigin
  simp only [ht, hno, ho, hpa]
  by_cases hsch : toLower ps = toLower s
  · simp [hasPrefix, List.isPrefixOf, hlow, hsch, hstar]
  · simp [hasPrefix, List.isPrefixOf, hlow, hsch, hstar]
/-- C3, as stated, fails in two places.  The scheme comparison is not an
equality of the written schemes: `url.Parse` lower-cases both, so the origin
`HTTPS://a.example.com` matches the pattern `https://*.example.com` although
`https` and `HTTPS` differ.  And a scheme-less pattern with a port never
matches: the host `a.example.com:8080` ends with `.example.com:8080`, yet
`https://a.example.com:8080` does not match `*.example.com:8080`. -/
theorem wildcard_match_is_not_literal :
    (matchAllowedOrigin ("HTTPS".toList ++ "://".toList ++ "a.example.com".toList)
        ("https".toList ++ "://".toList ++ "*.".toList ++ "example.com".toList) = true ∧
      hasSuffix "a.example.com".toList (".".toList ++ "example.com".toList) = true ∧
      "https".toList ≠ "HTTPS".toList) ∧
    (matchAllowedOrigin ("https".toList ++ "://".toList ++ "a.example.com:8080".toList)
        ("*.".toList ++ "example.com:8080".toList) = false ∧
      hasSuffix "a.example.com:8080".toList (".".toList ++ "example.com:8080".toList) = true) := by
  decide

/-- C3 (amended): let the schemes `s` and `ps` be a letter followed by
letters, digits, `+`, `-`, `.`, let the origin's host be a name `hn` (letters,
digits, `-`, `.`, `_`, `~`) with an optional port `hp`, and let the domain be
a name `dn`, with an optional port `dp` in a scheme-qualified pattern.  Then
the origin `s://hn[hp]` matches the pattern `*.dn` if and only if its host
(port included) ends with `.dn`, and it matches `ps://*.dn[dp]` if and only
if its host ends with `.dn[dp]` and `ps` equals `s` up to the case of ASCII
letters.  For the pattern `*.example.com`, `https://a.example.com` matches
and `https://example.com` and `https://evilexample.com` do not. -/
theorem matchAllowedOrigin_wildcard (s ps hn hp dn dp : Str)
    (hs : isScheme s = true) (hps : isScheme ps = true)
    (hhn : hn.all isNameChar = true) (hhp : validOptionalPort hp = true)
    (hdn : dn.all isNameChar = true) (hdp : validOptionalPort dp = true) :
    (matchAllowedOrigin (s ++ "://".toList ++ (hn ++ hp)) ("*.".toList ++ dn) = true ↔
      hasSuffix (hn ++ hp) (".".toList ++ dn) = true) ∧
    (matchAllowedOrigin (s ++ "://".toList ++ (hn ++ hp))
        (ps ++ "://".toList ++ "*.".toList ++ (dn ++ dp)) = true ↔
      hasSuffix (hn ++ hp) (".".toList ++ (dn ++ dp)) = true ∧ toLower ps = toLower s) ∧
    matchAllowedOrigin "https://a.example.com".toList "*.example.com".toList = true ∧
    matchAllowedOrigin "https://example.com".toList "*.example.com".toList = false ∧
    matchAllowedOrigin "https://evilexample.com".toList "*.example.com".toList = false := by
  have hhn2 : ∀ c ∈ hn, isNameChar c = true := List.all_eq_true.mp hhn
  have hdn2 : ∀ c ∈ dn, isNameChar c = true := List.all_eq_true.mp hdn
  have e1 : s ++ "://".toList ++ (hn ++ hp) = s ++ ':' :: '/' :: '/' :: (hn ++ hp) := by simp
  have e2 : "*.".toList ++ dn = '*' :: '.' :: dn := by simp
  have e3 : ps ++ "://".toList ++ "*.".toList ++ (dn ++ dp) =
      ps ++ ':' :: '/' :: '/' :: '*' :: '.' :: (dn ++ dp) := by simp
  have e4 : ∀ x : Str, ".".toList ++ x = '.' :: x := by intro x; simp
  refine ⟨?_, ?_, by decide, by decide, by decide⟩
  · rw [e1, e2, e4, wildcard_noScheme_eq s hn hp dn hs hhn2 hhp hdn2]
  · rw [e1, e3, e4, wildcard_scheme_eq s ps hn hp dn dp hs hps hhn2 hhp hdn2 hdp]
    simp only [Bool.and_eq_true, decide_eq_true_eq]
    exact And.comm

/-- C3 (amended) at the origin `https://a.example.com:8443` and the pattern
`https://*.example.com:8443`: a match. -/
theorem matchAllowedOrigin_wildcard_witness :
    matchAllowedOrigin
      ("https".toList ++ "://".toList ++ ("a.example.com".toList ++ ":8443".toList))
      ("https".toList ++ "://".toList ++ "*.".toList ++ ("example.com".toList ++ ":8443".toList))
      = true :=
  (matchAllowedOrigin_wildcard "https".toList "https".toList "a.example.com".toList
      ":8443".toList "example.com".toList ":8443".toList (by decide) (by decide) (by decide)
      (by decide) (by decide) (by decide)).2.1.mpr ⟨by decide, by decide⟩
/-! ## Safe methods and missing origin signals -/

theorem isStateChangingMethod_eq_false_iff (m : Str) :
    isStateChangingMethod m = false ↔
      toUpper m ∈ ["GET".toList, "HEAD".toList, "OPTIONS".toList, "TRACE".toList] := by
  unfold isStateChangingMethod
  by_cases h : toUpper m = "GET".toList ∨ toUpper m = "HEAD".toList ∨
      toUpper m = "OPTIONS".toList ∨ toUpper m = "TRACE".toList
  · simp only [h, if_true, true_iff]
    simp only [List.mem_cons, List.mem_singleton, List.not_mem_nil, or_false]
    exact h
  · simp only [h, if_false]
    simp only [List.mem_cons, List.mem_singleton, List.not_mem_nil, or_false]
    constructor
    · intro hc
      cases hc
    · intro hc
      exact absurd hc h

theorem requestOrigin_of_no_signal (r : Request) (ho : trimSpace r.Origin = [])
    (hr : trimSpace r.Referer = [] ∨ urlParse (trimSpace r.Referer) = none ∨
      ∃ u, urlParse (trimSpace r.Referer) = some u ∧ (u.Scheme = [] ∨ u.Host = [])) :
    requestOrigin r = [] := by
  unfold requestOrigin
  simp only [ho, ne_eq, not_true_eq_false, if_false]
  rcases hr with h | h | ⟨u, h, hu⟩
  · simp [h]
  · simp [h]
  · by_cases hb : trimSpace r.Referer = []
    · simp [hb]
    · simp [hb, h, hu]

/-- C12: a request whose method is `GET`, `HEAD`, `OPTIONS` or `TRACE` passes
`enforceCookieOrigin` whatever its Origin, Referer, allow-list and
`requireOrigin` are; and a method string passes for every request, allow-list
and `requireOrigin` if and only if its upper-cased form is one of those four:
`isStateChangingMethod` is false exactly on those, and true on every other
string, the empty one included. -/
theorem safe_methods_always_pass (m : Str) :
    (m ∈ ["GET".toList, "HEAD".toList, "OPTIONS".toList, "TRACE".toList] →
      ∀ (r : Request) (allowed : List Str) (requireOrigin : Bool), r.Method = m →
        enforceCookieOrigin r allowed requireOrigin = true) ∧
    ((∀ (r : Request) (allowed : List Str) (requireOrigin : Bool), r.Method = m →
        enforceCookieOrigin r allowed requireOrigin = true) ↔
      toUpper m ∈ ["GET".toList, "HEAD".toList, "OPTIONS".toList, "TRACE".toList]) ∧
    (isStateChangingMethod m = false ↔
      toUpper m ∈ ["GET".toList, "HEAD".toList, "OPTIONS".toList, "TRACE".toList]) ∧
    isStateChangingMethod [] = true := by
  have hsafe : toUpper m ∈ ["GET".toList, "HEAD".toList, "OPTIONS".toList, "TRACE".toList] →
      ∀ (r : Request) (allowed : List Str) (requireOrigin : Bool), r.Method = m →
        enforceCookieOrigin r allowed requireOrigin = true := by
    intro h r allowed requireOrigin hm
    unfold enforceCookieOrigin
    rw [hm, (isStateChangingMethod_eq_false_iff m).mpr h]
    simp
  refine ⟨?_, ⟨?_, hsafe⟩, isStateChangingMethod_eq_false_iff m, by decide⟩
  · intro h
    apply hsafe
    simp only [List.mem_cons, List.mem_singleton, List.not_mem_nil, or_false] at h
    rcases h with h | h | h | h <;> (subst h; decide)
  · intro h
    by_contra hn
    have hsc : isStateChangingMethod m = true := by
      cases hh : isStateChangingMethod m
      · exact absurd ((isStateChangingMethod_eq_false_iff m).mp hh) hn
      · rfl
    have := h ⟨m, [], false, [], [], [], [], [], fun _ => none⟩ [] true rfl
    unfold enforceCookieOrigin at this
    rw [hsc] at this
    have hro : requestOrigin ⟨m, [], false, [], [], [], [], [], fun _ => none⟩ = [] := by
      apply requestOrigin_of_no_signal
      · rfl
      · exact Or.inl rfl
    simp [hro] at this

/-- C13, as stated, fails: the Referer header is trimmed before it is parsed.
For a `POST` without Origin header whose Referer is a no-break space followed
by `https://x.example/`, the Referer as sent does not parse as a URL, so the
request carries no origin signal in the claim's sense; yet the trimmed
Referer yields the origin `https://x.example`, and the allow-list `*` admits
the request although `requireOrigin` is true. -/
theorem referer_header_is_read_trimmed :
    isStateChangingMethod reqRefererNbsp.Method = true ∧
    reqRefererNbsp.Origin = [] ∧
    reqRefererNbsp.Referer = [Char.ofNat 0xA0] ++ "https://x.example/".toList ∧
    urlParse reqRefererNbsp.Referer = none ∧
    requestOrigin reqRefererNbsp = "https://x.example".toList ∧
    enforceCookieOrigin reqRefererNbsp ["*".toList] true = true := by
  decide

/-- C13 (amended): for a state-changing request without an origin signal (the
Origin header, with the white space around it trimmed, is empty, and the
Referer, with the white space around it trimmed, is empty, does not parse, or
parses to a URL without a scheme or without a host), `enforceCookieOrigin` is
true if and only if `requireOrigin` is false, for every allow-list. -/
theorem no_origin_signal_needs_requireOrigin_off (r : Request) (allowed : List Str)
    (requireOrigin : Bool)
    (hm : isStateChangingMethod r.Method = true) (ho : trimSpace r.Origin = [])
    (hr : trimSpace r.Referer = [] ∨ urlParse (trimSpace r.Referer) = none ∨
      ∃ u, urlParse (trimSpace r.Referer) = some u ∧ (u.Scheme = [] ∨ u.Host = [])) :
    (enforceCookieOrigin r allowed requireOrigin = true ↔ requireOrigin = false) := by
  unfold enforceCookieOrigin
  rw [hm, requestOrigin_of_no_signal r ho hr]
  cases requireOrigin <;> simp

/-- C13 (amended) at a `POST` with a blank Origin, a Referer without scheme and host,
the allow-list `*` and `requireOrigin = true`: rejected. -/
theorem no_origin_signal_needs_requireOrigin_off_witness :
    enforceCookieOrigin reqNoOriginSignal ["*".toList] true = false := by
  have h := no_origin_signal_needs_requireOrigin_off reqNoOriginSignal ["*".toList] true
    (by decide) (by decide) (Or.inr (Or.inr ⟨⟨[], [], [], "not a url".toList⟩, by decide,
      Or.inl rfl⟩))
  cases hh : enforceCookieOrigin reqNoOriginSignal ["*".toList] true
  · rfl
  · exact absurd (h.mp hh) (by decide)

/-- C12 at a `GET` without Origin and Referer, an empty allow-list and
`requireOrigin = true`: it passes. -/
theorem safe_methods_always_pass_witness :
    reqBasicWithCookie.Method = "GET".toList ∧
    enforceCookieOrigin reqBasicWithCookie [] true = true :=
  ⟨rfl, (safe_methods_always_pass "GET".toList).1 (by decide) reqBasicWithCookie [] true rfl⟩
/-! ## The allow-list -/

theorem mem_of_mem_trimSpace (c : Char) (s : Str) (h : c ∈ trimSpace s) : c ∈ s := by
  unfold trimSpace at h
  rw [List.mem_reverse] at h
  have h1 := (List.dropWhile_sublist isSpace).subset h
  rw [List.mem_reverse] at h1
  exact (List.dropWhile_sublist isSpace).subset h1

theorem mem_of_mem_trimSuffixSlash (c : Char) (s : Str) (h : c ∈ trimSuffixSlash s) : c ∈ s := by
  unfold trimSuffixSlash at h
  by_cases hh : hasSuffix s ['/'] = true
  · rw [if_pos hh] at h
    exact (List.dropLast_sublist s).subset h
  · rw [if_neg hh] at h
    exact h

/-- `matchAllowedOrigin` on a pattern without `*`. -/
theorem matchAllowedOrigin_exact (o p : Str) (hp : '*' ∉ p) :
    matchAllowedOrigin o p = true ↔
      trimSpace p ≠ [] ∧ normalizeOrigin (trimSpace p) = normalizeOrigin o := by
  have h1 : '*' ∉ trimSpace p := fun h => hp (mem_of_mem_trimSpace _ _ h)
  have h2 : '*' ∉ normalizeOrigin (trimSpace p) :=
    fun h => h1 (mem_of_mem_trimSuffixSlash _ _ h)
  have h3 : trimSpace p ≠ ['*'] := fun h => h1 (by rw [h]; simp)
  unfold matchAllowedOrigin
  by_cases hb : trimSpace p = []
  · simp [hb]
  · simp only [hb, h3, if_false]
    have h4 : (normalizeOrigin (trimSpace p)).contains '*' = false := by
      simpa using h2
    simp only [h4, Bool.not_false, if_true, decide_eq_true_eq]
    exact ⟨fun h => ⟨hb, h.symm⟩, fun h => h.2.symm⟩

theorem matchAllowedOrigin_star (o p : Str) (hp : trimSpace p = ['*']) :
    matchAllowedOrigin o p = true := by
  unfold matchAllowedOrigin
  simp [hp]

theorem enforceCookieOrigin_allowList (r : Request) (allowed : List Str) (requireOrigin : Bool)
    (hm : isStateChangingMethod r.Method = true) (ho : requestOrigin r ≠ [])
    (hL : allowed ≠ []) :
    enforceCookieOrigin r allowed requireOrigin =
      allowed.any (fun p => matchAllowedOrigin (requestOrigin r) p) := by
  have hlen : allowed.length ≠ 0 := by
    cases allowed with
    | nil => exact absurd rfl hL
    | cons a t => simp
  unfold enforceCookieOrigin
  simp [hm, ho, hlen]

/-- C14, as stated, fails on patterns without `*`.  The pattern
` https://app.example.com` (with a leading space) admits the origin
`https://app.example.com` although the two differ after removing a trailing
`/`; and the empty pattern does not admit the origin `/` although both are
empty after removing a trailing `/`. -/
theorem exact_pattern_is_trimmed_and_non_blank :
    ('*' ∉ " https://app.example.com".toList ∧
      normalizeOrigin " https://app.example.com".toList ≠
        normalizeOrigin "https://app.example.com".toList ∧
      requestOrigin reqCookieFromApp = "https://app.example.com".toList ∧
      enforceCookieOrigin reqCookieFromApp [" https://app.example.com".toList] true = true) ∧
    ('*' ∉ ([] : Str) ∧ requestOrigin reqCookieOriginSlash = ['/'] ∧
      normalizeOrigin [] = normalizeOrigin ['/'] ∧
      enforceCookieOrigin reqCookieOriginSlash [[]] true = false) := by
  decide

/-- C14 (amended): for a state-changing request with a non-empty claimed
origin `o` and a non-empty allow-list, `enforceCookieOrigin` is true if and
only if some pattern of the list matches `o`.  A pattern is read with the
white space around it trimmed: a pattern without `*` matches exactly when it
is not blank and, trimmed, equals `o` after a trailing `/` is removed from
each; a pattern that is `*` once trimmed matches every origin.  The result is
the same for every reordering of the list, and an origin equal to the
server's own is rejected when no pattern matches it. -/
theorem allowList_admits_iff_some_pattern_matches (r : Request) (allowed : List Str)
    (requireOrigin : Bool) (hm : isStateChangingMethod r.Method = true)
    (ho : requestOrigin r ≠ []) (hL : allowed ≠ []) :
    (enforceCookieOrigin r allowed requireOrigin = true ↔
      ∃ p ∈ allowed, matchAllowedOrigin (requestOrigin r) p = true) ∧
    (∀ p : Str, '*' ∉ p →
      (matchAllowedOrigin (requestOrigin r) p = true ↔
        trimSpace p ≠ [] ∧
          normalizeOrigin (trimSpace p) = normalizeOrigin (requestOrigin r))) ∧
    (∀ p : Str, trimSpace p = ['*'] → matchAllowedOrigin (requestOrigin r) p = true) ∧
    (∀ allowed2 : List Str, allowed2.Perm allowed →
      enforceCookieOrigin r allowed2 requireOrigin =
        enforceCookieOrigin r allowed requireOrigin) ∧
    (requestOrigin r = requestBaseOrigin r →
      (∀ p ∈ allowed, matchAllowedOrigin (requestBaseOrigin r) p = false) →
      enforceCookieOrigin r allowed requireOrigin = false) := by
  have he := enforceCookieOrigin_allowList r allowed requireOrigin hm ho hL
  refine ⟨?_, fun p hp => matchAllowedOrigin_exact _ p hp,
    fun p hp => matchAllowedOrigin_star _ p hp, ?_, ?_⟩
  · rw [he, List.any_eq_true]
  · intro allowed2 hperm
    have hL2 : allowed2 ≠ [] := by
      intro e
      rw [e] at hperm
      exact hL (List.Perm.nil_eq hperm).symm
    rw [he, enforceCookieOrigin_allowList r allowed2 requireOrigin hm ho hL2, Bool.eq_iff_iff,
      List.any_eq_true, List.any_eq_true]
    constructor
    · rintro ⟨p, hp, h⟩
      exact ⟨p, hperm.mem_iff.mp hp, h⟩
    · rintro ⟨p, hp, h⟩
      exact ⟨p, hperm.mem_iff.mpr hp, h⟩
  · intro hsame hnone
    rw [he, List.any_eq_false]
    intro p hp
    rw [hsame, hnone p hp]
    simp

/-- C14 (amended) at a cookie `POST` from `https://app.example.com` and the
allow-list `https://other.example`, `https://app.example.com/`: admitted. -/
theorem allowList_admits_iff_some_pattern_matches_witness :
    enforceCookieOrigin reqCookieFromApp
      ["https://other.example".toList, "https://app.example.com/".toList] true = true :=
  ((allowList_admits_iff_some_pattern_matches reqCookieFromApp
      ["https://other.example".toList, "https://app.example.com/".toList] true
      (by decide) (by decide) (by decide)).1).mpr
    ⟨"https://app.example.com/".toList, by decide, by decide⟩
/-! ## Lookup failures, inactive accounts and the two outcomes -/

/-- C15: when the token validates to `claims` and `GetByID` fails, `JWTAuth`,
and `AdminAuth` without an admin key, leave the same context whatever the
error is: the single response 401 `USER_NOT_FOUND` with the message
`User not found`, after the validator and `GetByID` calls, with no key
written. -/
theorem user_lookup_failure_uniform (a : AuthService) (repo : UserRepo) (s : SettingService)
    (r : Request) (c : Context) (tok : Str) (via : Bool) (claims : Claims) (e : Err)
    (h : extractToken r a = .ok (tok, via))
    (hg : via = true → enforceCookieOrigin r a.AllowedOrigins a.AuthCookieRequireOrigin = true)
    (hv : a.ValidateToken tok = .ok claims) (hu : repo.GetByID claims.UserID = .error e) :
    JWTAuth a repo r c =
      AbortWithError ((c.call (.ValidateToken tok)).call (.GetByID claims.UserID)) 401
        "USER_NOT_FOUND" "User not found" ∧
    Aborted c (JWTAuth a repo r c) 401 "USER_NOT_FOUND" ∧
    (r.XApiKey = [] →
      AdminAuth a repo s r c =
        AbortWithError ((c.call (.ValidateToken tok)).call (.GetByID claims.UserID)) 401
          "USER_NOT_FOUND" "User not found" ∧
      Aborted c (AdminAuth a repo s r c) 401 "USER_NOT_FOUND") := by
  have h1 : JWTAuth a repo r c =
      AbortWithError ((c.call (.ValidateToken tok)).call (.GetByID claims.UserID)) 401
        "USER_NOT_FOUND" "User not found" := by
    rw [JWTAuth_of_token a repo r c tok via h hg, hv]
    simp only [hu]
  refine ⟨h1, ?_, ?_⟩
  · rw [h1]
    simp [Aborted, AbortWithError, Context.call]
  · intro hk
    have h2 : AdminAuth a repo s r c =
        AbortWithError ((c.call (.ValidateToken tok)).call (.GetByID claims.UserID)) 401
          "USER_NOT_FOUND" "User not found" := by
      rw [AdminAuth_of_token a repo s r c hk tok via h hg, hv]
      simp only [hu]
    refine ⟨h2, ?_⟩
    rw [h2]
    simp [Aborted, AbortWithError, Context.call]

/-- C15 at a bearer token of an identifier the repository cannot load. -/
theorem user_lookup_failure_uniform_witness :
    repoDemo.GetByID 9 = .error (.other 1) ∧
    Aborted Context.fresh (JWTAuth authDemo repoDemo reqBearerUnknownUser Context.fresh) 401
      "USER_NOT_FOUND" :=
  ⟨by decide,
   (user_lookup_failure_uniform authDemo repoDemo settingsDemo reqBearerUnknownUser
      Context.fresh "ghost".toList false ⟨9⟩ (.other 1) (by decide) (by decide) (by decide)
      (by decide)).2.1⟩

/-- C16, as stated, fails for `GetByID`: when the repository fails to load
the user, `JWTAuth` and `AdminAuth` answer 401 `USER_NOT_FOUND`, which is one
of the auth-specific codes, not `INTERNAL_ERROR`. -/
theorem getByID_failure_is_not_internal_error :
    repoDemo.GetByID 9 = .error (.other 1) ∧
    Aborted Context.fresh (JWTAuth authDemo repoDemo reqBearerUnknownUser Context.fresh) 401
      "USER_NOT_FOUND" ∧
    ¬ Aborted Context.fresh (JWTAuth authDemo repoDemo reqBearerUnknownUser Context.fresh) 500
      "INTERNAL_ERROR" ∧
    Aborted Context.fresh
      (AdminAuth authDemo repoDemo settingsDemo reqBearerUnknownUser Context.fresh) 401
      "USER_NOT_FOUND" ∧
    ¬ Aborted Context.fresh
      (AdminAuth authDemo repoDemo settingsDemo reqBearerUnknownUser Context.fresh) 500
      "INTERNAL_ERROR" := by
  decide

/-- C16 (amended): on the admin-key path a failure of the settings lookup
`GetAdminApiKey`, and a failure of `GetFirstAdmin` after the key was accepted,
are answered with status 500 and the code `INTERNAL_ERROR`, which differs
from every auth-specific code; a failure of `GetByID`, in `JWTAuth` and in
`AdminAuth` without an admin key, is answered with 401 `USER_NOT_FOUND`. -/
theorem lookup_failure_internal_error (a : AuthService) (repo : UserRepo)
    (s : SettingService) (r : Request) (c : Context) :
    (∀ e, r.XApiKey ≠ [] → s.GetAdminApiKey = .error e →
      Aborted c (AdminAuth a repo s r c) 500 "INTERNAL_ERROR") ∧
    (∀ e, r.XApiKey ≠ [] → s.GetAdminApiKey = .ok r.XApiKey →
      repo.GetFirstAdmin = .error e →
      Aborted c (AdminAuth a repo s r c) 500 "INTERNAL_ERROR") ∧
    (∀ (tok : Str) (via : Bool) (claims : Claims) (e : Err),
      extractToken r a = .ok (tok, via) →
      (via = true →
        enforceCookieOrigin r a.AllowedOrigins a.AuthCookieRequireOrigin = true) →
      a.ValidateToken tok = .ok claims → repo.GetByID claims.UserID = .error e →
      Aborted c (JWTAuth a repo r c) 401 "USER_NOT_FOUND" ∧
      (r.XApiKey = [] → Aborted c (AdminAuth a repo s r c) 401 "USER_NOT_FOUND")) ∧
    "INTERNAL_ERROR" ∉ ["UNAUTHORIZED", "TOKEN_EXPIRED", "INVALID_TOKEN", "USER_NOT_FOUND",
      "USER_INACTIVE", "FORBIDDEN", "INVALID_ORIGIN", "INVALID_ADMIN_KEY"] := by
  refine ⟨?_, ?_, ?_, by decide⟩
  · intro e hk he
    rw [AdminAuth_of_key a repo s r c hk, he]
    simp [Aborted, AbortWithError, Context.call]
  · intro e hk hs hf
    rw [AdminAuth_of_key a repo s r c hk, hs]
    simp [hk, hf, Aborted, AbortWithError, Context.call]
  · intro tok via claims e h hg hv hu
    constructor
    · rw [JWTAuth_of_token a repo r c tok via h hg, hv]
      simp [hu, Aborted, AbortWithError, Context.call]
    · intro hk
      rw [AdminAuth_of_token a repo s r c hk tok via h hg, hv]
      simp [hu, Aborted, AbortWithError, Context.call]

/-- C16 (amended) at a settings store that fails: 500 `INTERNAL_ERROR`. -/
theorem lookup_failure_internal_error_witness :
    settingsDown.GetAdminApiKey = .error (.other 7) ∧
    Aborted Context.fresh
      (AdminAuth authDemo repoDemo settingsDown reqAdminKey Context.fresh) 500
      "INTERNAL_ERROR" :=
  ⟨rfl, (lookup_failure_internal_error authDemo repoDemo settingsDown reqAdminKey
    Context.fresh).1 (.other 7) (by decide) rfl⟩
/-- Every run of `JWTAuth` is one abort that leaves the keys alone, or a
hand-over after publishing an active user with the tag of the transport. -/
theorem JWTAuth_cases (a : AuthService) (repo : UserRepo) (r : Request) (c : Context) :
    (∃ (c1 : Context) (st : Nat) (code msg : String), JWTAuth a repo r c = AbortWithError c1 st code msg ∧
      c1.user = c.user ∧ c1.authMethod = c.authMethod ∧ c1.nexts = c.nexts ∧
      c1.aborts = c.aborts) ∨
    (∃ (c1 : Context) (tok : Str) (via : Bool) (u : User), extractToken r a = .ok (tok, via) ∧ u.IsActive = true ∧
      JWTAuth a repo r c = ((c1.SetUser u).SetAuthMethod (if via then "cookie" else "jwt")).Next ∧
      c1.nexts = c.nexts ∧ c1.aborts = c.aborts) := by
  cases hx : extractToken r a with
  | error msg =>
    exact Or.inl ⟨c, 401, "UNAUTHORIZED", msg, JWTAuth_of_error a repo r c msg hx, rfl, rfl, rfl,
      rfl⟩
  | ok p =>
    obtain ⟨tok, via⟩ := p
    by_cases hg : via = true →
        enforceCookieOrigin r a.AllowedOrigins a.AuthCookieRequireOrigin = true
    · rw [JWTAuth_of_token a repo r c tok via hx hg]
      cases hv : a.ValidateToken tok with
      | error err =>
        by_cases he : err = Err.ErrTokenExpired
        · exact Or.inl ⟨c.call (.ValidateToken tok), _, _, _, by simp only [he, if_true]; rfl,
            rfl, rfl, rfl, rfl⟩
        · exact Or.inl ⟨c.call (.ValidateToken tok), _, _, _, by simp only [he, if_false]; rfl,
            rfl, rfl, rfl, rfl⟩
      | ok claims =>
        cases hu : repo.GetByID claims.UserID with
        | error e =>
          exact Or.inl ⟨(c.call (.ValidateToken tok)).call (.GetByID claims.UserID), _, _, _,
            by simp only [hu]; rfl, rfl, rfl, rfl, rfl⟩
        | ok user =>
          cases hact : user.IsActive
          · exact Or.inl ⟨(c.call (.ValidateToken tok)).call (.GetByID claims.UserID), _, _, _,
              by simp only [hu, hact]; rfl, rfl, rfl, rfl, rfl⟩
          · exact Or.inr ⟨(c.call (.ValidateToken tok)).call (.GetByID claims.UserID), tok, via, user, rfl,
              hact, by simp only [hu, hact, if_true], rfl, rfl⟩
    · have hvia : via = true := by
        by_contra hv
        exact hg (fun h => absurd h hv)
      subst hvia
      have hg2 : enforceCookieOrigin r a.AllowedOrigins a.AuthCookieRequireOrigin = false := by
        cases hh : enforceCookieOrigin r a.AllowedOrigins a.AuthCookieRequireOrigin
        · rfl
        · exact absurd (fun _ => hh) hg
      exact Or.inl ⟨c, _, _, _, JWTAuth_of_origin_rejected a repo r c tok hx hg2, rfl, rfl, rfl,
        rfl⟩

/-- Every run of `AdminAuth` without an admin key is one abort that leaves
the keys alone, or a hand-over after publishing an active admin with the tag
of the transport. -/
theorem AdminAuth_jwt_cases (a : AuthService) (repo : UserRepo) (s : SettingService)
    (r : Request) (c : Context) (hk : r.XApiKey = []) :
    (∃ (c1 : Context) (st : Nat) (code msg : String), AdminAuth a repo s r c = AbortWithError c1 st code msg ∧
      c1.user = c.user ∧ c1.authMethod = c.authMethod ∧ c1.nexts = c.nexts ∧
      c1.aborts = c.aborts) ∨
    (∃ (c1 : Context) (tok : Str) (via : Bool) (u : User), extractToken r a = .ok (tok, via) ∧ u.IsActive = true ∧
      u.Role = RoleAdmin ∧
      AdminAuth a repo s r c =
        ((c1.SetUser u).SetAuthMethod (if via then "cookie" else "jwt")).Next ∧
      c1.nexts = c.nexts ∧ c1.aborts = c.aborts) := by
  cases hx : extractToken r a with
  | error msg =>
    exact Or.inl ⟨c, 401, "UNAUTHORIZED", "Authorization required",
      AdminAuth_of_error a repo s r c hk msg hx, rfl, rfl, rfl, rfl⟩
  | ok p =>
    obtain ⟨tok, via⟩ := p
    by_cases hg : via = true →
        enforceCookieOrigin r a.AllowedOrigins a.AuthCookieRequireOrigin = true
    · rw [AdminAuth_of_token a repo s r c hk tok via hx hg]
      cases hv : a.ValidateToken tok with
      | error err =>
        by_cases he : err = Err.ErrTokenExpired
        · exact Or.inl ⟨c.call (.ValidateToken tok), _, _, _, by simp only [he, if_true]; rfl,
            rfl, rfl, rfl, rfl⟩
        · exact Or.inl ⟨c.call (.ValidateToken tok), _, _, _, by simp only [he, if_false]; rfl,
            rfl, rfl, rfl, rfl⟩
      | ok claims =>
        cases hu : repo.GetByID claims.UserID with
        | error e =>
          exact Or.inl ⟨(c.call (.ValidateToken tok)).call (.GetByID claims.UserID), _, _, _,
            by simp only [hu]; rfl, rfl, rfl, rfl, rfl⟩
        | ok user =>
          cases hact : user.IsActive
          · exact Or.inl ⟨(c.call (.ValidateToken tok)).call (.GetByID claims.UserID), _, _, _,
              by simp only [hu, hact]; rfl, rfl, rfl, rfl, rfl⟩
          · by_cases hr : user.Role = RoleAdmin
            · exact Or.inr ⟨(c.call (.ValidateToken tok)).call (.GetByID claims.UserID), tok, via, user,
                rfl, hact, hr, by simp only [hu, hact, hr, if_true], rfl, rfl⟩
            · exact Or.inl ⟨(c.call (.ValidateToken tok)).call (.GetByID claims.UserID), _, _, _,
                by simp only [hu, hact, hr, if_true, if_false]; rfl, rfl, rfl, rfl, rfl⟩
    · have hvia : via = true := by
        by_contra hv
        exact hg (fun h => absurd h hv)
      subst hvia
      have hg2 : enforceCookieOrigin r a.AllowedOrigins a.AuthCookieRequireOrigin = false := by
        cases hh : enforceCookieOrigin r a.AllowedOrigins a.AuthCookieRequireOrigin
        · rfl
        · exact absurd (fun _ => hh) hg
      exact Or.inl ⟨c, _, _, _, AdminAuth_of_origin_rejected a repo s r c hk tok hx hg2, rfl,
        rfl, rfl, rfl⟩

/-- Every run of `AdminAuth` with an admin key is one abort that leaves the
keys alone, or a hand-over after publishing a user with the tag
`admin_api_key`. -/
theorem AdminAuth_key_cases (a : AuthService) (repo : UserRepo) (s : SettingService)
    (r : Request) (c : Context) (hk : r.XApiKey ≠ []) :
    (∃ (c1 : Context) (st : Nat) (code msg : String), AdminAuth a repo s r c = AbortWithError c1 st code msg ∧
      c1.user = c.user ∧ c1.authMethod = c.authMethod ∧ c1.nexts = c.nexts ∧
      c1.aborts = c.aborts) ∨
    (∃ (c1 : Context) (u : User), AdminAuth a repo s r c = ((c1.SetUser u).SetAuthMethod "admin_api_key").Next ∧
      c1.nexts = c.nexts ∧ c1.aborts = c.aborts) := by
  rw [AdminAuth_of_key a repo s r c hk]
  cases hs : s.GetAdminApiKey with
  | error e => exact Or.inl ⟨c.call .GetAdminApiKey, _, _, _, rfl, rfl, rfl, rfl, rfl⟩
  | ok storedKey =>
    by_cases h1 : storedKey = [] ∨ r.XApiKey ≠ storedKey
    · exact Or.inl ⟨c.call .GetAdminApiKey, _, _, _, by simp only [h1, if_true]; rfl, rfl, rfl, rfl, rfl⟩
    · cases hf : repo.GetFirstAdmin with
      | error e =>
        exact Or.inl ⟨(c.call .GetAdminApiKey).call .GetFirstAdmin, _, _, _, by simp only [h1, if_false]; rfl, rfl, rfl, rfl, rfl⟩
      | ok admin =>
        exact Or.inr ⟨(c.call .GetAdminApiKey).call .GetFirstAdmin, admin,
          by simp only [h1, if_false], rfl, rfl⟩

theorem aborted_of_abort_form (c res : Context)
    (h : ∃ (c1 : Context) (st : Nat) (code msg : String), res = AbortWithError c1 st code msg ∧
      c1.user = c.user ∧ c1.authMethod = c.authMethod ∧ c1.nexts = c.nexts ∧
      c1.aborts = c.aborts) :
    ∃ st code, Aborted c res st code := by
  obtain ⟨c1, st, code, msg, hres, hu, hm, hn, ha⟩ := h
  refine ⟨st, code, ?_⟩
  rw [hres]
  exact (aborted_abortWithError c c1 st st code code msg hu hm hn ha).mpr (And.intro rfl rfl)

theorem proceeded_of_next_form (c c1 : Context) (u : User) (m : String)
    (hn : c1.nexts = c.nexts) (ha : c1.aborts = c.aborts) :
    Proceeded c ((c1.SetUser u).SetAuthMethod m).Next u m := by
  simp [Proceeded, Context.Next, Context.SetAuthMethod, Context.SetUser, hn, ha]

theorem not_aborted_and_proceeded (c res : Context) (st : Nat) (code : String) (u : User)
    (m : String) (h1 : Aborted c res st code) (h2 : Proceeded c res u m) : False := by
  have := h1.2.2.1
  have := h2.2.1
  omega
theorem next_form_fields (c1 : Context) (u : User) (m : String) :
    ((c1.SetUser u).SetAuthMethod m).Next.user = some u ∧
    ((c1.SetUser u).SetAuthMethod m).Next.authMethod = some m ∧
    ((c1.SetUser u).SetAuthMethod m).Next.nexts = c1.nexts + 1 ∧
    ((c1.SetUser u).SetAuthMethod m).Next.aborts = c1.aborts :=
  ⟨rfl, rfl, rfl, rfl⟩

theorem abort_form_fields (c1 : Context) (st : Nat) (code msg : String) :
    (AbortWithError c1 st code msg).user = c1.user ∧
    (AbortWithError c1 st code msg).authMethod = c1.authMethod ∧
    (AbortWithError c1 st code msg).nexts = c1.nexts :=
  ⟨rfl, rfl, rfl⟩

/-- C18: when the token validates and the user is loaded but is not active,
`JWTAuth`, and `AdminAuth` without an admin key, abort with 401
`USER_INACTIVE`, whatever the user's role (so not with 403 `FORBIDDEN`); and
every user these paths publish is active. -/
theorem inactive_user_rejected (a : AuthService) (repo : UserRepo) (s : SettingService)
    (r : Request) (c : Context) :
    (∀ (tok : Str) (via : Bool) (claims : Claims) (u : User),
      extractToken r a = .ok (tok, via) →
      (via = true →
        enforceCookieOrigin r a.AllowedOrigins a.AuthCookieRequireOrigin = true) →
      a.ValidateToken tok = .ok claims → repo.GetByID claims.UserID = .ok u →
      u.IsActive = false →
      Aborted c (JWTAuth a repo r c) 401 "USER_INACTIVE" ∧
      (r.XApiKey = [] →
        Aborted c (AdminAuth a repo s r c) 401 "USER_INACTIVE" ∧
        ¬ Aborted c (AdminAuth a repo s r c) 403 "FORBIDDEN")) ∧
    (∀ (u : User) (m : String), Proceeded c (JWTAuth a repo r c) u m → u.IsActive = true) ∧
    (r.XApiKey = [] →
      ∀ (u : User) (m : String), Proceeded c (AdminAuth a repo s r c) u m →
        u.IsActive = true) := by
  refine ⟨?_, ?_, ?_⟩
  · intro tok via claims u h hg hv hu hact
    constructor
    · rw [JWTAuth_of_token a repo r c tok via h hg, hv]
      simp [hu, hact, Aborted, AbortWithError, Context.call]
    · intro hk
      rw [AdminAuth_of_token a repo s r c hk tok via h hg, hv]
      simp [hu, hact, Aborted, AbortWithError, Context.call]
  · intro u m hp
    rcases JWTAuth_cases a repo r c with hab | ⟨c1, tok, via, u1, _, hact, hres, _, _⟩
    · obtain ⟨st, code, hA⟩ := aborted_of_abort_form c _ hab
      exact (not_aborted_and_proceeded c _ st code u m hA hp).elim
    · have h3 := hp.2.2.1
      rw [hres, (next_form_fields c1 u1 _).1] at h3
      injection h3 with h3
      rw [← h3]
      exact hact
  · intro hk u m hp
    rcases AdminAuth_jwt_cases a repo s r c hk with hab | ⟨c1, tok, via, u1, _, hact, _, hres, _, _⟩
    · obtain ⟨st, code, hA⟩ := aborted_of_abort_form c _ hab
      exact (not_aborted_and_proceeded c _ st code u m hA hp).elim
    · have h3 := hp.2.2.1
      rw [hres, (next_form_fields c1 u1 _).1] at h3
      injection h3 with h3
      rw [← h3]
      exact hact

/-- C18 at a bearer token of the inactive user 3. -/
theorem inactive_user_rejected_witness :
    repoDemo.GetByID 3 = .ok ⟨3, "user".toList, false⟩ ∧
    Aborted Context.fresh (JWTAuth authDemo repoDemo reqBearerInactive Context.fresh) 401
      "USER_INACTIVE" ∧
    Aborted Context.fresh
      (AdminAuth authDemo repoDemo settingsDemo reqBearerInactive Context.fresh) 401
      "USER_INACTIVE" :=
  ⟨by decide,
   ((inactive_user_rejected authDemo repoDemo settingsDemo reqBearerInactive
      Context.fresh).1 "inactive".toList false ⟨3⟩ ⟨3, "user".toList, false⟩ (by decide)
      (by decide) (by decide) (by decide) rfl).1,
   (((inactive_user_rejected authDemo repoDemo settingsDemo reqBearerInactive
      Context.fresh).1 "inactive".toList false ⟨3⟩ ⟨3, "user".toList, false⟩ (by decide)
      (by decide) (by decide) (by decide) rfl).2 rfl).1⟩
/-- A run that is one abort leaving the keys alone, or one hand-over after
writing both keys, has exactly one of the two outcomes, and from a context
without the keys the hand-over happened if and only if both keys are set. -/
theorem outcome_of_forms (c res : Context)
    (h : (∃ (c1 : Context) (st : Nat) (code msg : String), res = AbortWithError c1 st code msg ∧
        c1.user = c.user ∧ c1.authMethod = c.authMethod ∧ c1.nexts = c.nexts ∧
        c1.aborts = c.aborts) ∨
      (∃ (c1 : Context) (u : User) (m : String),
        res = ((c1.SetUser u).SetAuthMethod m).Next ∧ c1.nexts = c.nexts ∧
        c1.aborts = c.aborts)) :
    ((∃ st code, Aborted c res st code) ∨ (∃ u m, Proceeded c res u m)) ∧
    ¬ ((∃ st code, Aborted c res st code) ∧ (∃ u m, Proceeded c res u m)) ∧
    (c.user = none → c.authMethod = none →
      (res.nexts = c.nexts + 1 ↔ res.user.isSome = true ∧ res.authMethod.isSome = true)) := by
  refine ⟨?_, ?_, ?_⟩
  · rcases h with hab | ⟨c1, u, m, hres, hn, ha⟩
    · exact Or.inl (aborted_of_abort_form c res hab)
    · exact Or.inr ⟨u, m, by rw [hres]; exact proceeded_of_next_form c c1 u m hn ha⟩
  · rintro ⟨⟨st, code, hA⟩, ⟨u, m, hP⟩⟩
    exact not_aborted_and_proceeded c res st code u m hA hP
  · intro hcu hcm
    rcases h with ⟨c1, st, code, msg, hres, hu, hm, hn, _⟩ | ⟨c1, u, m, hres, hn, _⟩
    · rw [hres]
      obtain ⟨f1, f2, f3⟩ := abort_form_fields c1 st code msg
      rw [f1, f2, f3, hu, hm, hn, hcu, hcm]
      simp
    · rw [hres]
      obtain ⟨f1, f2, f3, _⟩ := next_form_fields c1 u m
      rw [f1, f2, f3, hn]
      simp

/-- C17: each of `JWTAuth` and `AdminAuth` ends in exactly one of two
outcomes: a single abort with a status and a code, after which neither the
user nor `auth_method` has been written and the downstream handlers do not
run, or one hand-over to the downstream handlers with a user and an
`auth_method` published.  From a context holding neither key, the handlers
run if and only if both keys are set afterwards.  The tag is `cookie` exactly
when the token came from the session cookie, `jwt` exactly when it came from
the Authorization header, and `admin_api_key` exactly when the admin key
header was used. -/
theorem no_partial_authentication (a : AuthService) (repo : UserRepo) (s : SettingService)
    (r : Request) (c : Context) :
    (((∃ st code, Aborted c (JWTAuth a repo r c) st code) ∨
        (∃ u m, Proceeded c (JWTAuth a repo r c) u m)) ∧
      ¬ ((∃ st code, Aborted c (JWTAuth a repo r c) st code) ∧
        (∃ u m, Proceeded c (JWTAuth a repo r c) u m)) ∧
      (c.user = none → c.authMethod = none →
        ((JWTAuth a repo r c).nexts = c.nexts + 1 ↔
          (JWTAuth a repo r c).user.isSome = true ∧
            (JWTAuth a repo r c).authMethod.isSome = true))) ∧
    (((∃ st code, Aborted c (AdminAuth a repo s r c) st code) ∨
        (∃ u m, Proceeded c (AdminAuth a repo s r c) u m)) ∧
      ¬ ((∃ st code, Aborted c (AdminAuth a repo s r c) st code) ∧
        (∃ u m, Proceeded c (AdminAuth a repo s r c) u m)) ∧
      (c.user = none → c.authMethod = none →
        ((AdminAuth a repo s r c).nexts = c.nexts + 1 ↔
          (AdminAuth a repo s r c).user.isSome = true ∧
            (AdminAuth a repo s r c).authMethod.isSome = true))) ∧
    (∀ (u : User) (m : String), Proceeded c (JWTAuth a repo r c) u m →
      (m = "cookie" ↔ ∃ tok, extractToken r a = .ok (tok, true)) ∧
      (m = "jwt" ↔ ∃ tok, extractToken r a = .ok (tok, false)) ∧
      m ≠ "admin_api_key") ∧
    (∀ (u : User) (m : String), Proceeded c (AdminAuth a repo s r c) u m →
      (m = "admin_api_key" ↔ r.XApiKey ≠ []) ∧
      (m = "cookie" ↔ r.XApiKey = [] ∧ ∃ tok, extractAdminToken r a = .ok (tok, true)) ∧
      (m = "jwt" ↔ r.XApiKey = [] ∧ ∃ tok, extractAdminToken r a = .ok (tok, false))) := by
  have hj : (∃ (c1 : Context) (st : Nat) (code msg : String),
        JWTAuth a repo r c = AbortWithError c1 st code msg ∧
        c1.user = c.user ∧ c1.authMethod = c.authMethod ∧ c1.nexts = c.nexts ∧
        c1.aborts = c.aborts) ∨
      (∃ (c1 : Context) (u : User) (m : String),
        JWTAuth a repo r c = ((c1.SetUser u).SetAuthMethod m).Next ∧ c1.nexts = c.nexts ∧
        c1.aborts = c.aborts) := by
    rcases JWTAuth_cases a repo r c with h | ⟨c1, tok, via, u, _, _, hres, hn, ha⟩
    · exact Or.inl h
    · exact Or.inr ⟨c1, u, _, hres, hn, ha⟩
  have hd : (∃ (c1 : Context) (st : Nat) (code msg : String),
        AdminAuth a repo s r c = AbortWithError c1 st code msg ∧
        c1.user = c.user ∧ c1.authMethod = c.authMethod ∧ c1.nexts = c.nexts ∧
        c1.aborts = c.aborts) ∨
      (∃ (c1 : Context) (u : User) (m : String),
        AdminAuth a repo s r c = ((c1.SetUser u).SetAuthMethod m).Next ∧ c1.nexts = c.nexts ∧
        c1.aborts = c.aborts) := by
    by_cases hk : r.XApiKey = []
    · rcases AdminAuth_jwt_cases a repo s r c hk with h | ⟨c1, tok, via, u, _, _, _, hres, hn, ha⟩
      · exact Or.inl h
      · exact Or.inr ⟨c1, u, _, hres, hn, ha⟩
    · rcases AdminAuth_key_cases a repo s r c hk with h | ⟨c1, u, hres, hn, ha⟩
      · exact Or.inl h
      · exact Or.inr ⟨c1, u, _, hres, hn, ha⟩
  have tags : ∀ (tok : Str) (via : Bool) (m : String), extractToken r a = .ok (tok, via) →
      m = (if via then "cookie" else "jwt") →
      (m = "cookie" ↔ ∃ t, extractToken r a = .ok (t, true)) ∧
      (m = "jwt" ↔ ∃ t, extractToken r a = .ok (t, false)) ∧ m ≠ "admin_api_key" := by
    intro tok via m hx hm
    cases via
    · simp only [Bool.false_eq_true, if_false] at hm
      subst hm
      refine ⟨⟨fun h => absurd h (by decide), ?_⟩, ⟨fun _ => ⟨tok, hx⟩, fun _ => rfl⟩, by decide⟩
      rintro ⟨t, ht⟩
      rw [hx] at ht
      simp at ht
    · simp only [if_true] at hm
      subst hm
      refine ⟨⟨fun _ => ⟨tok, hx⟩, fun _ => rfl⟩, ⟨fun h => absurd h (by decide), ?_⟩, by decide⟩
      rintro ⟨t, ht⟩
      rw [hx] at ht
      simp at ht
  refine ⟨outcome_of_forms c _ hj, outcome_of_forms c _ hd, ?_, ?_⟩
  · intro u m hp
    rcases JWTAuth_cases a repo r c with hab | ⟨c1, tok, via, u1, hx, _, hres, _, _⟩
    · obtain ⟨st, code, hA⟩ := aborted_of_abort_form c _ hab
      exact (not_aborted_and_proceeded c _ st code u m hA hp).elim
    · have h4 := hp.2.2.2
      rw [hres, (next_form_fields c1 u1 _).2.1] at h4
      injection h4 with h4
      exact tags tok via m hx h4.symm
  · intro u m hp
    by_cases hk : r.XApiKey = []
    · rcases AdminAuth_jwt_cases a repo s r c hk with hab | ⟨c1, tok, via, u1, hx, _, _, hres, _, _⟩
      · obtain ⟨st, code, hA⟩ := aborted_of_abort_form c _ hab
        exact (not_aborted_and_proceeded c _ st code u m hA hp).elim
      · have h4 := hp.2.2.2
        rw [hres, (next_form_fields c1 u1 _).2.1] at h4
        injection h4 with h4
        obtain ⟨t1, t2, t3⟩ := tags tok via m hx h4.symm
        simp only [extractAdminToken_eq]
        exact ⟨⟨fun h => absurd h t3, fun h => absurd hk h⟩,
          ⟨fun h => ⟨hk, t1.mp h⟩, fun h => t1.mpr h.2⟩,
          ⟨fun h => ⟨hk, t2.mp h⟩, fun h => t2.mpr h.2⟩⟩
    · rcases AdminAuth_key_cases a repo s r c hk with hab | ⟨c1, u1, hres, _, _⟩
      · obtain ⟨st, code, hA⟩ := aborted_of_abort_form c _ hab
        exact (not_aborted_and_proceeded c _ st code u m hA hp).elim
      · have h4 := hp.2.2.2
        rw [hres, (next_form_fields c1 u1 _).2.1] at h4
        injection h4 with h4
        subst h4
        exact ⟨⟨fun _ => hk, fun _ => rfl⟩,
          ⟨fun h => absurd h (by decide), fun h => absurd h.1 hk⟩,
          ⟨fun h => absurd h (by decide), fun h => absurd h.1 hk⟩⟩

/-- C17 at a cookie `POST` from another origin: one abort, no key written,
no hand-over. -/
theorem no_partial_authentication_witness :
    (JWTAuth authDemo repoDemo reqCookieCrossOrigin Context.fresh).nexts = 0 ∧
    ¬ ((JWTAuth authDemo repoDemo reqCookieCrossOrigin Context.fresh).user.isSome = true ∧
      (JWTAuth authDemo repoDemo reqCookieCrossOrigin Context.fresh).authMethod.isSome = true) :=
  ⟨by decide,
   fun h => absurd (((no_partial_authentication authDemo repoDemo settingsDemo
      reqCookieCrossOrigin Context.fresh).1.2.2 rfl rfl).mpr h) (by decide)⟩
/-! ## The server's own origin -/

theorem dropWhile_append_of_not (p : Char → Bool) (a b : Str) (c : Char) (hc : p c = false) :
    (a ++ c :: b).dropWhile p = a.dropWhile p ++ c :: b := by
  induction a with
  | nil => simp [List.dropWhile, hc]
  | cons x xs ih =>
    cases hx : p x
    · simp [List.dropWhile, hx]
    · simp [List.dropWhile, hx, ih]

/-- Trailing white space removed, as in `trimSpace`. -/
theorem rtrim_append_of_not (a b : Str) (c : Char) (hc : isSpace c = false) :
    ((a ++ c :: b).reverse.dropWhile isSpace).reverse =
      a ++ c :: (b.reverse.dropWhile isSpace).reverse := by
  have e : (a ++ c :: b).reverse = b.reverse ++ c :: a.reverse := by simp
  rw [e, dropWhile_append_of_not isSpace b.reverse a.reverse c hc]
  simp

theorem dropWhile_head_not (p : Char → Bool) (s : Str) :
    s.dropWhile p = [] ∨ ∃ c t, s.dropWhile p = c :: t ∧ p c = false := by
  induction s with
  | nil => exact Or.inl rfl
  | cons x xs ih =>
    cases hx : p x
    · exact Or.inr ⟨x, xs, by simp [List.dropWhile, hx], hx⟩
    · simpa [List.dropWhile, hx] using ih

theorem dropWhile_dropWhile (p : Char → Bool) (s : Str) :
    (s.dropWhile p).dropWhile p = s.dropWhile p := by
  rcases dropWhile_head_not p s with h | ⟨c, t, h, hc⟩
  · rw [h]; rfl
  · rw [h]
    simp [List.dropWhile, hc]

theorem trimSpace_trimSpace (s : Str) : trimSpace (trimSpace s) = trimSpace s := by
  unfold trimSpace
  rcases dropWhile_head_not isSpace s with h | ⟨c, t, h, hc⟩
  · rw [h]; rfl
  · rw [h]
    have e1 : ((c :: t).reverse.dropWhile isSpace).reverse =
        c :: (t.reverse.dropWhile isSpace).reverse := by
      have := rtrim_append_of_not [] t c hc
      simpa using this
    rw [e1]
    have e2 : (c :: (t.reverse.dropWhile isSpace).reverse).dropWhile isSpace =
        c :: (t.reverse.dropWhile isSpace).reverse := by
      simp [List.dropWhile, hc]
    rw [e2]
    have e3 : ((c :: (t.reverse.dropWhile isSpace).reverse).reverse.dropWhile isSpace).reverse =
        c :: (((t.reverse.dropWhile isSpace).reverse).reverse.dropWhile isSpace).reverse := by
      have := rtrim_append_of_not [] (t.reverse.dropWhile isSpace).reverse c hc
      simpa using this
    rw [e3, List.reverse_reverse, dropWhile_dropWhile]

theorem trimSpace_dropWhile (s : Str) : trimSpace (s.dropWhile isSpace) = trimSpace s := by
  unfold trimSpace
  rw [dropWhile_dropWhile]

/-- The first comma-separated element is the same, up to the white space
around it, whether or not the whole value is trimmed first. -/
theorem trimSpace_beforeSep_trimSpace (s : Str) :
    trimSpace (beforeSep ',' (trimSpace s)) = trimSpace (beforeSep ',' s) := by
  have hcomma : isSpace ',' = false := by decide
  cases hc : cut ',' s with
  | none =>
    have hn : ',' ∉ s := (cut_eq_none_iff ',' s).mp hc
    have hn2 : ',' ∉ trimSpace s := fun h => hn (mem_of_mem_trimSpace _ _ h)
    rw [beforeSep_of_not_mem ',' _ hn2, beforeSep_of_not_mem ',' _ hn, trimSpace_trimSpace]
  | some p =>
    obtain ⟨x, y⟩ := p
    obtain ⟨hs, hx⟩ := cut_some ',' s x y hc
    have ht : trimSpace s = x.dropWhile isSpace ++ ',' :: (y.reverse.dropWhile isSpace).reverse := by
      unfold trimSpace
      rw [hs, dropWhile_append_of_not isSpace x y ',' hcomma,
        rtrim_append_of_not (x.dropWhile isSpace) y ',' hcomma]
    have hx2 : ',' ∉ x.dropWhile isSpace :=
      fun h => hx ((List.dropWhile_sublist isSpace).subset h)
    have e1 : beforeSep ',' (trimSpace s) = x.dropWhile isSpace := by
      unfold beforeSep
      rw [ht, cut_append ',' _ _ hx2]
    have e2 : beforeSep ',' s = x := by
      unfold beforeSep
      rw [hc]
    rw [e1, e2, trimSpace_dropWhile]

theorem trimSpace_eq_nil_of_trimSpace_eq_nil (s : Str) (h : trimSpace s = []) :
    trimSpace (beforeSep ',' s) = [] := by
  rw [← trimSpace_beforeSep_trimSpace, h]
  rfl

/-- The scheme `requestBaseOrigin` uses: the trimmed first comma-separated
element of `X-Forwarded-Proto` when it is not empty, else `https` or `http`
by the TLS state. -/
theorem requestScheme_eq (r : Request) :
    requestScheme r =
      if trimSpace (beforeSep ',' r.XForwardedProto) ≠ [] then
        trimSpace (beforeSep ',' r.XForwardedProto)
      else if r.TLS then "https".toList else "http".toList := by
  unfold requestScheme
  by_cases hf : trimSpace r.XForwardedProto = []
  · have := trimSpace_eq_nil_of_trimSpace_eq_nil _ hf
    simp only [hf, this, ne_eq, not_true_eq_false, if_false]
  · simp only [hf, ne_eq, not_false_eq_true, if_true, trimSpace_beforeSep_trimSpace]

/-- C20: `requestBaseOrigin` is scheme + `://` + request host, where the
scheme is the white-space-trimmed first comma-separated element of
`X-Forwarded-Proto` when that is not empty, and otherwise `https` with TLS
state and `http` without; what follows the first comma of the header never
changes the result. -/
theorem requestBaseOrigin_first_forwarded_proto (r : Request) :
    requestBaseOrigin r =
      (if trimSpace (beforeSep ',' r.XForwardedProto) ≠ [] then
        trimSpace (beforeSep ',' r.XForwardedProto)
      else if r.TLS then "https".toList else "http".toList) ++ "://".toList ++ r.Host ∧
    (∀ (first rest rest2 : Str) (r2 : Request), ',' ∉ first →
      r.XForwardedProto = first ++ [','] ++ rest →
      r2.XForwardedProto = first ++ [','] ++ rest2 →
      r2.TLS = r.TLS → r2.Host = r.Host →
      requestBaseOrigin r2 = requestBaseOrigin r ∧
      beforeSep ',' r.XForwardedProto = first) := by
  constructor
  · unfold requestBaseOrigin
    rw [requestScheme_eq]
    simp
  · intro first rest rest2 r2 hf h1 h2 ht hh
    have b1 : beforeSep ',' r.XForwardedProto = first := by
      unfold beforeSep
      rw [h1]
      have := cut_append ',' first rest hf
      simp only [List.append_assoc, List.singleton_append]
      rw [this]
    have b2 : beforeSep ',' r2.XForwardedProto = first := by
      unfold beforeSep
      rw [h2]
      have := cut_append ',' first rest2 hf
      simp only [List.append_assoc, List.singleton_append]
      rw [this]
    refine ⟨?_, b1⟩
    unfold requestBaseOrigin
    rw [requestScheme_eq, requestScheme_eq, b1, b2, ht, hh]

/-- C20 at the header ` https , http` on a connection without TLS: the
origin is `https://` + host. -/
theorem requestBaseOrigin_first_forwarded_proto_witness :
    reqForwardedTwo.XForwardedProto = " https , http".toList ∧
    reqForwardedTwo.TLS = false ∧
    requestBaseOrigin reqForwardedTwo = "https://api.example.com".toList :=
  ⟨rfl, rfl,
   (requestBaseOrigin_first_forwarded_proto reqForwardedTwo).1.trans (by decide)⟩

/-! ## Cookie policy validation at load time -/

theorem validate_fails_of_cookie_config (c : Config) (msg : String)
    (h : validateAuthCookieConfig c.Security = some msg) : ∃ m, c.Validate = some m := by
  unfold Config.Validate
  by_cases h1 : c.JWT.Secret = []
  · exact ⟨_, by rw [if_pos h1]⟩
  · rw [if_neg h1]
    by_cases h2 : c.Server.Mode = "release".toList ∧ isDefaultSecret c.JWT.Secret = true
    · exact ⟨_, by rw [if_pos h2]⟩
    · rw [if_neg h2]
      by_cases h3 : c.Server.Mode = "release".toList ∧
          (c.Default.AdminPassword = [] ∨ isWeakPassword c.Default.AdminPassword = true)
      · exact ⟨_, by rw [if_pos h3]⟩
      · rw [if_neg h3]
        by_cases h4 : c.Gateway.UpstreamTimeout < 0
        · exact ⟨_, by rw [if_pos h4]⟩
        · rw [if_neg h4, h]
          exact ⟨msg, rfl⟩

theorem load_security (viper : Viper) (cfg : Config) (h : Load viper = .ok cfg) :
    (∃ cfg0, viper.Unmarshal = .ok cfg0 ∧ cfg.Security = cfg0.Security) ∧
      cfg.Validate = none := by
  unfold Load at h
  split at h
  · cases h
  · split at h
    · cases h
    · rename_i c0 hu
      simp only at h
      split at h
      · cases h
      · rename_i hval
        injection h with h
        subst h
        refine ⟨⟨c0, hu, ?_⟩, hval⟩
        by_cases ha : c0.Server.TrustedProxies.length = 0 <;>
          by_cases hb : c0.CORS.AllowedOrigins.length = 0 <;> simp [ha, hb]
theorem validateAuthCookieConfig_isSome_iff (cfg : SecurityConfig) :
    (∃ msg, validateAuthCookieConfig cfg = some msg) ↔
      (toLower (trimSpace cfg.AuthCookieSameSite) ∉
          [[], "lax".toList, "strict".toList, "none".toList] ∨
        toLower (trimSpace cfg.AuthCookieSecure) ∉
          [[], "auto".toList, "true".toList, "false".toList] ∨
        (toLower (trimSpace cfg.AuthCookieSameSite) = "none".toList ∧
          toLower (trimSpace cfg.AuthCookieSecure) = "false".toList)) := by
  unfold validateAuthCookieConfig
  simp only [List.mem_cons, List.mem_singleton, List.not_mem_nil, or_false]
  by_cases h1 : toLower (trimSpace cfg.AuthCookieSameSite) ≠ [] ∧
      ¬ (toLower (trimSpace cfg.AuthCookieSameSite) = "lax".toList ∨
        toLower (trimSpace cfg.AuthCookieSameSite) = "strict".toList ∨
        toLower (trimSpace cfg.AuthCookieSameSite) = "none".toList)
  · rw [if_pos h1]
    refine ⟨fun _ => Or.inl ?_, fun _ => ⟨_, rfl⟩⟩
    intro hm
    rcases hm with hm | hm
    · exact h1.1 hm
    · exact h1.2 hm
  · rw [if_neg h1]
    have h1' : toLower (trimSpace cfg.AuthCookieSameSite) = [] ∨
        toLower (trimSpace cfg.AuthCookieSameSite) = "lax".toList ∨
        toLower (trimSpace cfg.AuthCookieSameSite) = "strict".toList ∨
        toLower (trimSpace cfg.AuthCookieSameSite) = "none".toList := by
      by_contra hc
      apply h1
      constructor
      · exact fun h => hc (Or.inl h)
      · exact fun h => hc (Or.inr h)
    by_cases h2 : toLower (trimSpace cfg.AuthCookieSecure) ≠ [] ∧
        ¬ (toLower (trimSpace cfg.AuthCookieSecure) = "auto".toList ∨
          toLower (trimSpace cfg.AuthCookieSecure) = "true".toList ∨
          toLower (trimSpace cfg.AuthCookieSecure) = "false".toList)
    · rw [if_pos h2]
      refine ⟨fun _ => Or.inr (Or.inl ?_), fun _ => ⟨_, rfl⟩⟩
      intro hm
      rcases hm with hm | hm
      · exact h2.1 hm
      · exact h2.2 hm
    · rw [if_neg h2]
      have h2' : toLower (trimSpace cfg.AuthCookieSecure) = [] ∨
          toLower (trimSpace cfg.AuthCookieSecure) = "auto".toList ∨
          toLower (trimSpace cfg.AuthCookieSecure) = "true".toList ∨
          toLower (trimSpace cfg.AuthCookieSecure) = "false".toList := by
        by_contra hc
        apply h2
        constructor
        · exact fun h => hc (Or.inl h)
        · exact fun h => hc (Or.inr h)
      by_cases h3 : toLower (trimSpace cfg.AuthCookieSameSite) = "none".toList ∧
          toLower (trimSpace cfg.AuthCookieSecure) = "false".toList
      · rw [if_pos h3]
        exact ⟨fun _ => Or.inr (Or.inr h3), fun _ => ⟨_, rfl⟩⟩
      · rw [if_neg h3]
        constructor
        · rintro ⟨msg, hm⟩
          cases hm
        · rintro (h | h | h)
          · exact absurd h1' h
          · exact absurd h2' h
          · exact absurd h h3

/-- C11: `validateAuthCookieConfig` returns an error if and only if, after
`TrimSpace` and `ToLower`, `sameSite` is not one of empty, `lax`, `strict`,
`none`, or `secure` is not one of empty, `auto`, `true`, `false`, or
`sameSite` is `none` and `secure` is `false`; whenever it returns an error
`Config.Validate` returns an error, and `Load` fails on every configuration
whose security section it rejects, so no configuration `Load` returns has
`sameSite = none` with `secure = false`. -/
theorem cookie_policy_validated_at_load (cfg : SecurityConfig) :
    ((∃ msg, validateAuthCookieConfig cfg = some msg) ↔
      (toLower (trimSpace cfg.AuthCookieSameSite) ∉
          [[], "lax".toList, "strict".toList, "none".toList] ∨
        toLower (trimSpace cfg.AuthCookieSecure) ∉
          [[], "auto".toList, "true".toList, "false".toList] ∨
        (toLower (trimSpace cfg.AuthCookieSameSite) = "none".toList ∧
          toLower (trimSpace cfg.AuthCookieSecure) = "false".toList))) ∧
    (∀ c : Config, c.Security = cfg → (∃ msg, validateAuthCookieConfig cfg = some msg) →
      ∃ m, c.Validate = some m) ∧
    (∀ (viper : Viper) (c0 : Config), viper.Unmarshal = .ok c0 → c0.Security = cfg →
      (∃ msg, validateAuthCookieConfig cfg = some msg) → ∃ e, Load viper = .error e) ∧
    (∀ (viper : Viper) (c : Config), Load viper = .ok c →
      ¬ (toLower (trimSpace c.Security.AuthCookieSameSite) = "none".toList ∧
        toLower (trimSpace c.Security.AuthCookieSecure) = "false".toList)) := by
  refine ⟨validateAuthCookieConfig_isSome_iff cfg, ?_, ?_, ?_⟩
  · rintro c hc ⟨msg, hm⟩
    rw [← hc] at hm
    exact validate_fails_of_cookie_config c msg hm
  · rintro viper c0 hu hc ⟨msg, hm⟩
    cases hl : Load viper with
    | error e => exact ⟨e, rfl⟩
    | ok c =>
      exfalso
      obtain ⟨⟨c1, hu1, hs⟩, hval⟩ := load_security viper c hl
      rw [hu] at hu1
      injection hu1 with hu1
      subst hu1
      rw [← hc, ← hs] at hm
      obtain ⟨m, hm2⟩ := validate_fails_of_cookie_config c msg hm
      rw [hval] at hm2
      cases hm2
  · intro viper c hl hbad
    obtain ⟨_, hval⟩ := load_security viper c hl
    obtain ⟨msg, hm⟩ :=
      (validateAuthCookieConfig_isSome_iff c.Security).mpr (Or.inr (Or.inr hbad))
    obtain ⟨m, hm2⟩ := validate_fails_of_cookie_config c msg hm
    rw [hval] at hm2
    cases hm2

/-- C11 at `sameSite = " None "`, `secure = "FALSE"`: `Load` fails. -/
theorem cookie_policy_validated_at_load_witness :
    toLower (trimSpace secNoneFalse.AuthCookieSameSite) = "none".toList ∧
    toLower (trimSpace secNoneFalse.AuthCookieSecure) = "false".toList ∧
    ∃ e, Load viperNoneFalse = .error e :=
  ⟨by decide, by decide,
   (cookie_policy_validated_at_load secNoneFalse).2.2.1 viperNoneFalse configNoneFalse rfl rfl
     ((cookie_policy_validated_at_load secNoneFalse).1.mpr
       (Or.inr (Or.inr ⟨by decide, by decide⟩)))⟩
/-! ## The API-key plaintext in responses -/

/-- C19: `buildApiKeyResponse(key, rawKey)` puts exactly `rawKey` in the
response's `key` field, whatever the record's stored plaintext, hash and
last-4 fields are; every item `List` returns and every record `GetByID` and
`Update` return have an empty `key` field; and the `key` field of a `Create`
response is the raw key the service returned for this creation. -/
theorem plaintext_only_at_creation (apiKeyService : ApiKeyService) (c : HandlerInput) :
    (∀ (key : ApiKey) (rawKey : Str),
      (buildApiKeyResponse apiKeyService key rawKey).Key = rawKey) ∧
    (∀ (key : ApiKey) (rawKey : Str) (plain hash : Option Str) (last4 : Str),
      (buildApiKeyResponse apiKeyService
        { key with Key := plain, KeyHash := hash, KeyLast4 := last4 } rawKey).Key = rawKey) ∧
    (∀ (items : List ApiKeyResponse) (total page pageSize : Nat),
      APIKeyHandler.List apiKeyService c = .Paginated items total page pageSize →
      ∀ item ∈ items, item.Key = []) ∧
    (∀ data : ApiKeyResponse, APIKeyHandler.GetByID apiKeyService c = .Success data →
      data.Key = []) ∧
    (∀ data : ApiKeyResponse, APIKeyHandler.Update apiKeyService c = .Success data →
      data.Key = []) ∧
    (∀ data : ApiKeyResponse, APIKeyHandler.Create apiKeyService c = .Success data →
      ∃ (user : User) (req : CreateAPIKeyRequest) (key : ApiKey) (rawKey : Str),
        c.user = some (some user) ∧ c.bindCreate = .ok req ∧
        apiKeyService.Create user.ID req = .ok (key, rawKey) ∧ data.Key = rawKey) := by
  refine ⟨fun _ _ => rfl, fun _ _ _ _ _ => rfl, ?_, ?_, ?_, ?_⟩
  · intro items total page pageSize h item hi
    unfold APIKeyHandler.List at h
    split at h
    · cases h
    · cases h
    · split at h
      · cases h
      · injection h with h1 _ _ _
        subst h1
        obtain ⟨k, _, hk⟩ := List.mem_map.mp hi
        rw [← hk]
        rfl
  · intro data h
    unfold APIKeyHandler.GetByID at h
    split at h
    · cases h
    · cases h
    · split at h
      · cases h
      · split at h
        · cases h
        · split at h
          · cases h
          · injection h with h
            rw [← h]
            rfl
  · intro data h
    unfold APIKeyHandler.Update at h
    split at h
    · cases h
    · cases h
    · split at h
      · cases h
      · split at h
        · cases h
        · simp only at h
          split at h
          · cases h
          · injection h with h
            rw [← h]
            rfl
  · intro data h
    unfold APIKeyHandler.Create at h
    split at h
    · cases h
    · cases h
    · rename_i user hu
      split at h
      · cases h
      · rename_i req hb
        split at h
        · cases h
        · rename_i key rawKey hc
          injection h with h
          exact ⟨user, req, key, rawKey, hu, hb, hc, by rw [← h]; rfl⟩

/-- C19 at a listing of a record that still stores its plaintext: the item's
`key` field is empty. -/
theorem plaintext_only_at_creation_witness :
    (keyLegacy.Key = some "sk-legacy-plaintext".toList) ∧
    APIKeyHandler.List keyServiceDemo inputUser1 =
      .Paginated [buildApiKeyResponse keyServiceDemo keyLegacy []] 1 1 20 ∧
    (buildApiKeyResponse keyServiceDemo keyLegacy []).Key = [] :=
  ⟨rfl, by decide,
   (plaintext_only_at_creation keyServiceDemo inputUser1).2.2.1
     [buildApiKeyResponse keyServiceDemo keyLegacy []] 1 1 20 (by decide)
     (buildApiKeyResponse keyServiceDemo keyLegacy []) (by simp)⟩
/-! ## The two TLS judgements -/

theorem splitAll_eq_cons (sep : Char) (s : Str) :
    ∃ rest, splitAll sep s = beforeSep sep s :: rest := by
  induction s with
  | nil => exact ⟨[], rfl⟩
  | cons c cs ih =>
    obtain ⟨rest, hr⟩ := ih
    by_cases hc : c = sep
    · exact ⟨splitAll sep cs, by simp [splitAll, beforeSep, cut, hc]⟩
    · refine ⟨rest, ?_⟩
      cases hcut : cut sep cs with
      | none =>
        simp only [beforeSep, hcut] at hr
        simp [splitAll, beforeSep, cut, hc, hcut, hr]
      | some p =>
        obtain ⟨x, y⟩ := p
        simp only [beforeSep, hcut] at hr
        simp [splitAll, beforeSep, cut, hc, hcut, hr]

/-- `isSecureRequest` by the first comma-separated element of the header. -/
theorem isSecureRequest_eq (r : Request) :
    isSecureRequest r =
      (r.TLS || decide (trimSpace (beforeSep ',' r.XForwardedProto) = "https".toList)) := by
  unfold isSecureRequest
  obtain ⟨rest, hs⟩ := splitAll_eq_cons ',' r.XForwardedProto
  cases ht : r.TLS
  · by_cases hp : r.XForwardedProto = []
    · rw [hp]
      decide
    · simp only [Bool.false_eq_true, if_false, hp, ne_eq, not_false_eq_true, if_true, hs,
        Bool.false_or]
      by_cases h : trimSpace (beforeSep ',' r.XForwardedProto) = "https".toList
      · rw [if_pos h, decide_eq_true h]
      · rw [if_neg h, decide_eq_false h]
  · simp

/-- C21: whenever the scheme `requestBaseOrigin` computes for the same-origin
comparison is exactly `https`, `isSecureRequest` returns true. -/
theorem https_scheme_implies_secure_request (r : Request)
    (h : requestScheme r = "https".toList) :
    isSecureRequest r = true ∧
      requestBaseOrigin r = "https".toList ++ "://".toList ++ r.Host := by
  constructor
  · rw [isSecureRequest_eq]
    rw [requestScheme_eq] at h
    by_cases hc : trimSpace (beforeSep ',' r.XForwardedProto) ≠ []
    · rw [if_pos hc] at h
      rw [decide_eq_true h]
      simp
    · rw [if_neg hc] at h
      cases ht : r.TLS
      · rw [ht] at h
        exact absurd h (by decide)
      · rfl
  · unfold requestBaseOrigin
    rw [h]
    simp

/-- C21 at a request without TLS whose `X-Forwarded-Proto` is `https, http`. -/
theorem https_scheme_implies_secure_request_witness :
    reqForwardedHttps.TLS = false ∧ requestScheme reqForwardedHttps = "https".toList ∧
    isSecureRequest reqForwardedHttps = true :=
  ⟨rfl, by decide, (https_scheme_implies_secure_request reqForwardedHttps (by decide)).1⟩

end Sub2api
